import Mathlib

/-!
Verification development for the dx_service backend (Go).

This file is a shallow embedding of the parts of the repository that the
specification's testable claims are about:

* the Chexuan hand evaluator (`internal/service/game/chexuan_card.go`,
  and the pair-scoring / best-split file of the `game` package);
* the settlement engine (`internal/service/game/settle.go`);
* the matchmaker composition path (`internal/service/match/matcher.go`)
  and the queue join path (`internal/service/match/service.go`);
* the table runtime's round/phase progression and the mango settlement
  rider (`internal/service/game/runtime.go`).

Modelling conventions used throughout:

* Go `int64` / `int` values are modelled as `Int` (resp. `Nat` for values
  that are always non-negative indices/counters); arithmetic overflow of
  64-bit integers is out of scope for the money/score ranges involved.
* Go `float64` values (`rake` ratios, agent level ratios) are modelled as
  `Rat`, and `math.Round` as `goRound` (round half away from zero).
* JSON blob columns are modelled structurally: a JSON object is an
  association list of string keys and `JsonVal` values where the claims
  need the raw object shape, and a parsed record elsewhere.
* Database and Redis state are association lists; row lookups follow the
  Go queries (`First` by primary key, `ZScore`/`ZRem` by member).
* Wall-clock times (`time.Now()`) are threaded as an explicit `now : Int`
  parameter; TTL durations are irrelevant to the claims and are dropped.
* Logging, row-level locking and transient store errors are not modelled;
  a Go transaction that returns an error rolls back, which the embedding
  expresses by returning `Except.error` without a new state.
-/

namespace DxService

/-- JSON scalar values, as far as the claims need them. -/
inductive JsonVal
  | num (n : Int)
  | str (s : String)
deriving DecidableEq, Repr

/-- Lookup of a key in a JSON-object association list. -/
def jsonLookup (key : String) (obj : List (String × JsonVal)) : Option JsonVal :=
  (obj.find? (fun p => p.1 == key)).map (·.2)

/-- `math.Round` from Go: round half away from zero. -/
def goRound (q : Rat) : Int :=
  if q < 0 then -(Rat.floor ((1 : Rat)/2 - q)) else Rat.floor (q + (1 : Rat)/2)

/-! ## Chexuan cards (`chexuan_card.go`)

The 17 card kinds of `chexuanCardMap`, with their ranks and points.
Card codes (Go strings `"RQ"`, `"B10"`, ...) are modelled as an enumerated
type; `chexuanCardByCode` always succeeds on these. -/

inductive Card
  | RQ | R2 | R8 | R4
  | B10 | B4 | B6
  | BJ | R10 | R6 | R7
  | B5 | B7 | B8 | B9 | R3 | BK
deriving DecidableEq, Repr

instance : Inhabited Card := ⟨Card.RQ⟩

/-- `Rank` field of `chexuanCardMap`. -/
def Card.rank : Card → Nat
  | .RQ => 150 | .R2 => 140 | .R8 => 130 | .R4 => 120
  | .B10 => 110 | .B4 => 110 | .B6 => 110
  | .BJ => 100 | .R10 => 100 | .R6 => 100 | .R7 => 100
  | .B5 => 90 | .B7 => 90 | .B8 => 90 | .B9 => 90 | .R3 => 90 | .BK => 90

/-- `Point` field of `chexuanCardMap`. -/
def Card.point : Card → Nat
  | .RQ => 2 | .R2 => 2 | .R8 => 8 | .R4 => 4
  | .B10 => 0 | .B4 => 4 | .B6 => 6
  | .BJ => 1 | .R10 => 0 | .R6 => 6 | .R7 => 7
  | .B5 => 5 | .B7 => 7 | .B8 => 8 | .B9 => 9 | .R3 => 3 | .BK => 6

/-- The `chexuanSpecialWeights` map keyed by `normalizePairKey` (the
sorted `"A+B"` code string), i.e. an unordered-pair table; the Go map
lookup is modelled as a pattern match on the pair in either order. -/
def specialWeight (c1 c2 : Card) : Option Nat :=
  match c1, c2 with
  | .BK, .R3 | .R3, .BK => some 900
  | .B9, .RQ | .RQ, .B9 => some 850
  | .B8, .RQ | .RQ, .B8 => some 840
  | .R8, .RQ | .RQ, .R8 => some 840
  | .B8, .R2 | .R2, .B8 => some 830
  | .R8, .R2 | .R2, .R8 => some 830
  | .B7, .RQ | .RQ, .B7 => some 820
  | .R7, .RQ | .RQ, .R7 => some 820
  | .B7, .R2 | .R2, .B7 => some 810
  | .R7, .R2 | .R2, .R7 => some 810
  | .BJ, .R8 | .R8, .BJ => some 800
  | .B5, .R4 | .R4, .B5 => some 790
  | .B4, .B5 | .B5, .B4 => some 780
  | .B8, .BJ | .BJ, .B8 => some 770
  | _, _ => none

/-- `EvaluateGroup` scores a 2-card combination (pair-scoring file of the
`game` package). -/
def EvaluateGroup (c1 c2 : Card) : Int :=
  match specialWeight c1 c2 with
  | some w => 10000000 + (w : Int)
  | none =>
    if c1 = c2 then 9000000 + (max c1.rank c2.rank : Int)
    else (((c1.point + c2.point) % 10) * 100 + max c1.rank c2.rank : Int)

/-- `evaluatePairScore`: score of a card-code list; fewer than two cards
score 0 (the lookup-failure path cannot occur on the enumerated codes). -/
def evaluatePairScore : List Card → Int
  | c1 :: c2 :: _ => EvaluateGroup c1 c2
  | _ => 0

/-- `chexuanHeadMaxRank`: maximum single-card rank in a group (0 when
empty). -/
def chexuanHeadMaxRank (cards : List Card) : Nat :=
  cards.foldl (fun m c => max m c.rank) 0

/-- The head/tail candidate splits enumerated by `BestSplit`'s double loop
(indices `i < j`; head is `[cards[i], cards[j]]`, the tail is the rest in
order), in the loop's iteration order. -/
def splitsOf (cards : List Card) : List (List Card × List Card) :=
  (List.range cards.length).flatMap (fun i =>
    ((List.range cards.length).drop (i+1)).map (fun j =>
      ([cards.getD i default, cards.getD j default],
       ((cards.enum.filter (fun p => p.1 ≠ i ∧ p.1 ≠ j)).map (·.2)))))

/-- The per-split validity test inside `BestSplit`'s loop:
`headScore ≥ tailScore`, and on equality the head's max single-card rank
must not be below the tail's. -/
def splitIsValid (head tail : List Card) : Bool :=
  let headScore := evaluatePairScore head
  let tailScore := evaluatePairScore tail
  if headScore == tailScore then
    !(chexuanHeadMaxRank head < chexuanHeadMaxRank tail)
  else
    headScore ≥ tailScore

/-- Accumulator of `BestSplit`'s loop: the best valid and best overall
splits seen so far (score `-1` means none yet, as in the Go code). -/
structure SplitAcc where
  bestValidScore : Int
  bestValidHead : List Card
  bestValidTail : List Card
  bestOverallScore : Int
  bestOverallHead : List Card
  bestOverallTail : List Card
deriving Repr

/-- The composite `headScore*10^6 + tailScore` maximised by `BestSplit`. -/
def compositeOf (s : List Card × List Card) : Int :=
  evaluatePairScore s.1 * 1000000 + evaluatePairScore s.2

/-- One iteration of `BestSplit`'s loop body. -/
def splitStep (acc : SplitAcc) (s : List Card × List Card) : SplitAcc :=
  let total := compositeOf s
  let acc1 :=
    if splitIsValid s.1 s.2 ∧ total > acc.bestValidScore then
      { acc with bestValidScore := total, bestValidHead := s.1, bestValidTail := s.2 }
    else acc
  if total > acc1.bestOverallScore then
    { acc1 with bestOverallScore := total, bestOverallHead := s.1, bestOverallTail := s.2 }
  else acc1

/-- `BestSplit`: best head/tail split for 3 or 4 cards; returns
`(head, tail, score, isValid)`. -/
def BestSplit (cards : List Card) : List Card × List Card × Int × Bool :=
  if cards.length < 2 then ([], [], 0, false)
  else if cards.length == 2 then (cards, [], evaluatePairScore cards, true)
  else
    let acc := (splitsOf cards).foldl splitStep
      ⟨-1, [], [], -1, [], []⟩
    if acc.bestValidScore ≥ 0 then
      (acc.bestValidHead, acc.bestValidTail, acc.bestValidScore, true)
    else
      (acc.bestOverallHead, acc.bestOverallTail, acc.bestOverallScore, false)

/-- Lexicographic comparison on `(headScore, tailScore)` pairs. -/
def lexGreater (h2 t2 h1 t1 : Int) : Bool :=
  h2 > h1 || (h2 == h1 && t2 > t1)

/-! ### Facts about the evaluator used by the best-split optimality proof -/

instance : Fintype Card :=
  ⟨⟨{.RQ, .R2, .R8, .R4, .B10, .B4, .B6, .BJ, .R10, .R6, .R7, .B5, .B7, .B8, .B9, .R3, .BK},
    by decide⟩, by intro x; cases x <;> decide⟩

/-- The 17 card kinds, as a list. -/
def cardUniv : List Card :=
  [.RQ, .R2, .R8, .R4, .B10, .B4, .B6, .BJ, .R10, .R6, .R7, .B5, .B7, .B8, .B9, .R3, .BK]

theorem card_mem_univ : ∀ c : Card, c ∈ cardUniv := by
  intro c; cases c <;> simp [cardUniv]

theorem eg_comm : ∀ c1 c2 : Card, EvaluateGroup c1 c2 = EvaluateGroup c2 c1 := by decide

theorem eg_mod10 : ∀ c1 c2 : Card, EvaluateGroup c1 c2 % 10 = 0 := by decide

theorem eg_nonneg : ∀ c1 c2 : Card, 0 ≤ EvaluateGroup c1 c2 := by decide

/-- Every 2-card score lands in one of three separated tiers: default
(`≤ 1050`), pair (`9000090..9000150`), special (`10000770..10000900`). -/
theorem eg_tier : ∀ c1 c2 : Card, EvaluateGroup c1 c2 ≤ 1050 ∨
    (9000090 ≤ EvaluateGroup c1 c2 ∧ EvaluateGroup c1 c2 ≤ 9000150) ∨
    (10000770 ≤ EvaluateGroup c1 c2 ∧ EvaluateGroup c1 c2 ≤ 10000900) := by decide

/-- A score in the special tier comes from the special-weight table. -/
theorem eg_special : ∀ c1 c2 : Card, 10000000 ≤ EvaluateGroup c1 c2 →
    (specialWeight c1 c2).isSome = true ∧
    EvaluateGroup c1 c2 = 10000000 + ((specialWeight c1 c2).getD 0 : Int) := by decide

/-- Scanner for the only configuration that could make the composite
order disagree with the lexicographic order between two valid splits of a
4-card hand: a head pair `{x,y}` of special weight `w1`, an overlapping
pair `{x,z}` of weight exactly `w1 + 10`, a tail pair `{z,w}` of weight
`w2 ≤ w1`, and a residual pair `{y,w}` scoring at most `w2`. -/
def noBadQuadFrom (x y : Card) : Bool :=
  match specialWeight x y with
  | none => true
  | some w1 =>
      cardUniv.all fun z =>
        match specialWeight x z with
        | none => true
        | some w3 =>
          if w3 == w1 + 10 then
            cardUniv.all fun w =>
              match specialWeight z w with
              | none => true
              | some w2 => !(w2 ≤ w1 && decide (EvaluateGroup y w ≤ (w2 : Int)))
          else true

/-- No four cards realise the dangerous configuration. -/
theorem no_bad_quad_all :
    (cardUniv.all fun x => cardUniv.all fun y => noBadQuadFrom x y) = true := by decide

theorem eps_nonneg (l : List Card) : 0 ≤ evaluatePairScore l := by
  match l with
  | [] => simp [evaluatePairScore]
  | [_] => simp [evaluatePairScore]
  | c1 :: c2 :: _ => exact eg_nonneg c1 c2

theorem compositeOf_nonneg (s : List Card × List Card) : 0 ≤ compositeOf s := by
  have h1 := eps_nonneg s.1
  have h2 := eps_nonneg s.2
  unfold compositeOf
  nlinarith

/-- A split accepted by `splitIsValid` has `headScore ≥ tailScore`. -/
theorem splitIsValid_ge {h t : List Card} (hv : splitIsValid h t = true) :
    evaluatePairScore t ≤ evaluatePairScore h := by
  simp only [splitIsValid] at hv
  rcases heq : (evaluatePairScore h == evaluatePairScore t) with _ | _
  · rw [heq] at hv
    simp only [Bool.false_eq_true, if_false] at hv
    exact of_decide_eq_true hv
  · exact le_of_eq (beq_iff_eq.mp heq).symm

theorem lexGreater_eq_false_iff {h2 t2 h1 t1 : Int} :
    lexGreater h2 t2 h1 t1 = false ↔ (h2 ≤ h1 ∧ (h2 = h1 → t2 ≤ t1)) := by
  simp only [lexGreater, Bool.or_eq_false_iff, decide_eq_false_iff_not, not_lt,
    Bool.and_eq_false_iff, beq_eq_false_iff_ne, ne_eq]
  constructor
  · rintro ⟨hle, hor⟩
    refine ⟨hle, fun he => ?_⟩
    rcases hor with hne | hle2
    · exact absurd he hne
    · exact hle2
  · rintro ⟨hle, him⟩
    refine ⟨hle, ?_⟩
    by_cases he : h2 = h1
    · exact Or.inr (him he)
    · exact Or.inl he

/-- Core of the optimality bridge, mixed-split case: for two valid splits
`({x,y},{z,w})` and `({x,z},{y,w})` of the same four cards, if the first
has the composite at least as large, the second is not lexicographically
greater. -/
theorem mixed_lex (x y z w : Card)
    (v1 : EvaluateGroup z w ≤ EvaluateGroup x y)
    (v2 : EvaluateGroup y w ≤ EvaluateGroup x z)
    (hc : EvaluateGroup x z * 1000000 + EvaluateGroup y w ≤
          EvaluateGroup x y * 1000000 + EvaluateGroup z w) :
    lexGreater (EvaluateGroup x z) (EvaluateGroup y w)
      (EvaluateGroup x y) (EvaluateGroup z w) = false := by
  rw [lexGreater_eq_false_iff]
  refine ⟨?_, fun he => by omega⟩
  by_contra hgt
  push_neg at hgt
  -- `h2 > h1`: derive the special-tier ladder and refute it by the scan.
  have m1 := eg_mod10 x y
  have m2 := eg_mod10 x z
  have m3 := eg_mod10 z w
  have n4 := eg_nonneg y w
  have tZW := eg_tier z w
  have tXY := eg_tier x y
  have tXZ := eg_tier x z
  -- The tail of the first split must be special-tier.
  have hZWspecial : 10000000 ≤ EvaluateGroup z w := by omega
  have hXYspecial : 10000000 ≤ EvaluateGroup x y := by omega
  have hXZspecial : 10000000 ≤ EvaluateGroup x z := by omega
  obtain ⟨sXY, eXY⟩ := eg_special x y hXYspecial
  obtain ⟨sXZ, eXZ⟩ := eg_special x z hXZspecial
  obtain ⟨sZW, eZW⟩ := eg_special z w hZWspecial
  cases hxy : specialWeight x y with
  | none => rw [hxy] at sXY; simp at sXY
  | some w1 =>
  cases hxz : specialWeight x z with
  | none => rw [hxz] at sXZ; simp at sXZ
  | some w3 =>
  cases hzw : specialWeight z w with
  | none => rw [hzw] at sZW; simp at sZW
  | some w2 =>
  rw [hxy] at eXY; rw [hxz] at eXZ; rw [hzw] at eZW
  simp only [Option.getD_some] at eXY eXZ eZW
  have hw3 : w3 = w1 + 10 := by omega
  have hw2 : w2 ≤ w1 := by omega
  have hyw : EvaluateGroup y w ≤ (w2 : Int) := by omega
  -- Contradicts the exhaustive scan.
  have hall := no_bad_quad_all
  rw [List.all_eq_true] at hall
  have hx := hall x (card_mem_univ x)
  rw [List.all_eq_true] at hx
  have hxyQ := hx y (card_mem_univ y)
  unfold noBadQuadFrom at hxyQ
  rw [hxy] at hxyQ
  rw [List.all_eq_true] at hxyQ
  have hzQ := hxyQ z (card_mem_univ z)
  rw [hxz] at hzQ
  simp only [hw3, beq_self_eq_true, if_true] at hzQ
  rw [List.all_eq_true] at hzQ
  have hwQ := hzQ w (card_mem_univ w)
  rw [hzw] at hwQ
  simp only [Bool.not_eq_eq_eq_not, Bool.not_true, Bool.and_eq_false_iff,
    decide_eq_false_iff_not] at hwQ
  rcases hwQ with h | h
  · exact absurd hw2 (by simpa using h)
  · exact absurd hyw (by simpa using h)

/-! ### `BestSplit` fold facts -/

theorem splitStep_bv_mono (acc : SplitAcc) (s : List Card × List Card) :
    acc.bestValidScore ≤ (splitStep acc s).bestValidScore := by
  unfold splitStep
  by_cases hv : splitIsValid s.1 s.2 ∧ compositeOf s > acc.bestValidScore
  · simp only [if_pos hv]
    split <;> simp <;> omega
  · simp only [if_neg hv]
    split <;> simp

theorem splitStep_bo_mono (acc : SplitAcc) (s : List Card × List Card) :
    acc.bestOverallScore ≤ (splitStep acc s).bestOverallScore := by
  unfold splitStep
  by_cases hv : splitIsValid s.1 s.2 ∧ compositeOf s > acc.bestValidScore
  · simp only [if_pos hv]
    split <;> simp_all <;> omega
  · simp only [if_neg hv]
    split <;> simp_all <;> omega

theorem splitStep_bv_ub (acc : SplitAcc) (s : List Card × List Card)
    (hvalid : splitIsValid s.1 s.2 = true) :
    compositeOf s ≤ (splitStep acc s).bestValidScore := by
  unfold splitStep
  by_cases hv : splitIsValid s.1 s.2 ∧ compositeOf s > acc.bestValidScore
  · simp only [if_pos hv]
    split <;> simp
  · have hle : acc.bestValidScore ≥ compositeOf s := by
      by_contra hc
      exact hv ⟨hvalid, by omega⟩
    simp only [if_neg hv]
    split <;> simp <;> omega

theorem splitStep_bo_ub (acc : SplitAcc) (s : List Card × List Card) :
    compositeOf s ≤ (splitStep acc s).bestOverallScore := by
  unfold splitStep
  by_cases hv : splitIsValid s.1 s.2 ∧ compositeOf s > acc.bestValidScore
  · simp only [if_pos hv]
    split <;> simp_all <;> omega
  · simp only [if_neg hv]
    split <;> simp_all <;> omega

/-- What the accumulator's "best valid" and "best overall" slots track. -/
def TrackedAcc (S : List (List Card × List Card)) (acc : SplitAcc) : Prop :=
  (acc.bestValidScore < 0 ∨
    (splitIsValid acc.bestValidHead acc.bestValidTail = true ∧
     compositeOf (acc.bestValidHead, acc.bestValidTail) = acc.bestValidScore ∧
     (acc.bestValidHead, acc.bestValidTail) ∈ S)) ∧
  (acc.bestOverallScore < 0 ∨
    (compositeOf (acc.bestOverallHead, acc.bestOverallTail) = acc.bestOverallScore ∧
     (acc.bestOverallHead, acc.bestOverallTail) ∈ S))

theorem splitStep_tracked {S : List (List Card × List Card)} {acc : SplitAcc}
    {s : List Card × List Card} (hs : s ∈ S) (h : TrackedAcc S acc) :
    TrackedAcc S (splitStep acc s) := by
  obtain ⟨hv, ho⟩ := h
  unfold splitStep TrackedAcc
  by_cases hcv : splitIsValid s.1 s.2 ∧ compositeOf s > acc.bestValidScore
  · simp only [if_pos hcv]
    constructor
    · split <;> exact Or.inr ⟨hcv.1, rfl, hs⟩
    · split
      · exact Or.inr ⟨rfl, hs⟩
      · simpa using ho
  · simp only [if_neg hcv]
    constructor
    · split <;> simpa using hv
    · split
      · exact Or.inr ⟨rfl, hs⟩
      · simpa using ho

theorem foldl_splitStep_tracked {S : List (List Card × List Card)} :
    ∀ (L : List (List Card × List Card)) (acc : SplitAcc),
      (∀ s ∈ L, s ∈ S) → TrackedAcc S acc → TrackedAcc S (L.foldl splitStep acc)
  | [], _, _, hacc => hacc
  | s :: L, acc, hL, hacc =>
    foldl_splitStep_tracked L (splitStep acc s)
      (fun x hx => hL x (List.mem_cons_of_mem _ hx))
      (splitStep_tracked (hL s (List.mem_cons_self _ _)) hacc)

theorem foldl_splitStep_bv_mono :
    ∀ (L : List (List Card × List Card)) (acc : SplitAcc),
      acc.bestValidScore ≤ (L.foldl splitStep acc).bestValidScore
  | [], _ => le_refl _
  | s :: L, acc =>
    le_trans (splitStep_bv_mono acc s) (foldl_splitStep_bv_mono L (splitStep acc s))

theorem foldl_splitStep_bo_mono :
    ∀ (L : List (List Card × List Card)) (acc : SplitAcc),
      acc.bestOverallScore ≤ (L.foldl splitStep acc).bestOverallScore
  | [], _ => le_refl _
  | s :: L, acc =>
    le_trans (splitStep_bo_mono acc s) (foldl_splitStep_bo_mono L (splitStep acc s))

theorem foldl_splitStep_bv_ub :
    ∀ (L : List (List Card × List Card)) (acc : SplitAcc) (s : List Card × List Card),
      s ∈ L → splitIsValid s.1 s.2 = true →
      compositeOf s ≤ (L.foldl splitStep acc).bestValidScore := by
  intro L
  induction L with
  | nil => intro _ s hs; simp at hs
  | cons x L ih =>
    intro acc s hs hv
    rcases List.mem_cons.mp hs with rfl | hs
    · exact le_trans (splitStep_bv_ub acc s hv) (foldl_splitStep_bv_mono L _)
    · exact ih (splitStep acc x) s hs hv

theorem foldl_splitStep_bo_ub :
    ∀ (L : List (List Card × List Card)) (acc : SplitAcc) (s : List Card × List Card),
      s ∈ L → compositeOf s ≤ (L.foldl splitStep acc).bestOverallScore := by
  intro L
  induction L with
  | nil => intro _ s hs; simp at hs
  | cons x L ih =>
    intro acc s hs
    rcases List.mem_cons.mp hs with rfl | hs
    · exact le_trans (splitStep_bo_ub acc s) (foldl_splitStep_bo_mono L _)
    · exact ih (splitStep acc x) s hs

theorem splitsOf_three (a b c : Card) :
    splitsOf [a, b, c] = [([a,b],[c]), ([a,c],[b]), ([b,c],[a])] := rfl

theorem splitsOf_four (a b c d : Card) :
    splitsOf [a, b, c, d] =
      [([a,b],[c,d]), ([a,c],[b,d]), ([a,d],[b,c]),
       ([b,c],[a,d]), ([b,d],[a,c]), ([c,d],[a,b])] := rfl

theorem BestSplit_eq (cards : List Card) (h : 3 ≤ cards.length) :
    BestSplit cards =
      (if ((splitsOf cards).foldl splitStep ⟨-1, [], [], -1, [], []⟩).bestValidScore ≥ 0 then
         (((splitsOf cards).foldl splitStep ⟨-1, [], [], -1, [], []⟩).bestValidHead,
          ((splitsOf cards).foldl splitStep ⟨-1, [], [], -1, [], []⟩).bestValidTail,
          ((splitsOf cards).foldl splitStep ⟨-1, [], [], -1, [], []⟩).bestValidScore, true)
       else
         (((splitsOf cards).foldl splitStep ⟨-1, [], [], -1, [], []⟩).bestOverallHead,
          ((splitsOf cards).foldl splitStep ⟨-1, [], [], -1, [], []⟩).bestOverallTail,
          ((splitsOf cards).foldl splitStep ⟨-1, [], [], -1, [], []⟩).bestOverallScore, false)) := by
  unfold BestSplit
  rw [if_neg (by omega), if_neg (by simp [Nat.beq_eq_true_eq]; omega)]

theorem length_eq_four {α : Type} {l : List α} :
    l.length = 4 ↔ ∃ a b c d, l = [a, b, c, d] := by
  constructor
  · intro h
    rcases l with _ | ⟨a, _ | ⟨b, _ | ⟨c, _ | ⟨d, rest⟩⟩⟩⟩ <;> simp_all
  · rintro ⟨a, b, c, d, rfl⟩; rfl

/-- Identical splits never lexicographically dominate themselves. -/
theorem lex_self {hh tt : Int} : lexGreater hh tt hh tt = false :=
  lexGreater_eq_false_iff.mpr ⟨le_refl _, fun _ => le_refl _⟩

/-- The complementary split (tail played as head) of a valid split never
lexicographically dominates it. -/
theorem lex_compl {H T : Int} (hle : T ≤ H) : lexGreater T H H T = false :=
  lexGreater_eq_false_iff.mpr ⟨hle, fun he => by omega⟩

/-- Orientation-flexible wrapper around `mixed_lex`. -/
theorem mixed_lex_general (x y z w : Card) {h2v t2v h1v t1v : Int}
    (e1 : h1v = evaluatePairScore [x, y]) (e2 : t1v = evaluatePairScore [z, w])
    (e3 : h2v = evaluatePairScore [x, z]) (e4 : t2v = evaluatePairScore [y, w])
    (v1 : t1v ≤ h1v) (v2 : t2v ≤ h2v)
    (hc : h2v * 1000000 + t2v ≤ h1v * 1000000 + t1v) :
    lexGreater h2v t2v h1v t1v = false := by
  subst e1; subst e2; subst e3; subst e4
  exact mixed_lex x y z w v1 v2 hc

/-- Bridge, 3-card hands: among the enumerated splits, a larger composite
score means not lexicographically dominated. -/
theorem bridge3 (a b c : Card) (s1 s2 : List Card × List Card)
    (h1 : s1 ∈ splitsOf [a, b, c]) (h2 : s2 ∈ splitsOf [a, b, c])
    (hc : compositeOf s2 ≤ compositeOf s1) :
    lexGreater (evaluatePairScore s2.1) (evaluatePairScore s2.2)
      (evaluatePairScore s1.1) (evaluatePairScore s1.2) = false := by
  rw [splitsOf_three] at h1 h2
  simp only [List.mem_cons, List.not_mem_nil, or_false] at h1 h2
  rcases h1 with rfl | rfl | rfl <;> rcases h2 with rfl | rfl | rfl <;>
    (simp only [compositeOf, evaluatePairScore] at hc ⊢
     rw [lexGreater_eq_false_iff]
     exact ⟨by omega, fun _ => by omega⟩)

/-- Bridge, 4-card hands: among the enumerated splits, for two valid
splits a composite score at least as large means not lexicographically
dominated. -/
theorem bridge4 (a b c d : Card) (s1 s2 : List Card × List Card)
    (h1 : s1 ∈ splitsOf [a, b, c, d]) (h2 : s2 ∈ splitsOf [a, b, c, d])
    (v1 : splitIsValid s1.1 s1.2 = true) (v2 : splitIsValid s2.1 s2.2 = true)
    (hc : compositeOf s2 ≤ compositeOf s1) :
    lexGreater (evaluatePairScore s2.1) (evaluatePairScore s2.2)
      (evaluatePairScore s1.1) (evaluatePairScore s1.2) = false := by
  rw [splitsOf_four] at h1 h2
  simp only [List.mem_cons, List.not_mem_nil, or_false] at h1 h2
  rcases h1 with rfl | rfl | rfl | rfl | rfl | rfl <;>
    rcases h2 with rfl | rfl | rfl | rfl | rfl | rfl
  · exact lex_self
  · exact mixed_lex_general a b c d rfl rfl rfl rfl
      (splitIsValid_ge v1) (splitIsValid_ge v2) hc
  · exact mixed_lex_general a b d c rfl (eg_comm c d) rfl rfl
      (splitIsValid_ge v1) (splitIsValid_ge v2) hc
  · exact mixed_lex_general b a c d (eg_comm a b) rfl rfl rfl
      (splitIsValid_ge v1) (splitIsValid_ge v2) hc
  · exact mixed_lex_general b a d c (eg_comm a b) (eg_comm c d) rfl rfl
      (splitIsValid_ge v1) (splitIsValid_ge v2) hc
  · exact lex_compl (splitIsValid_ge v1)
  · exact mixed_lex_general a c b d rfl rfl rfl rfl
      (splitIsValid_ge v1) (splitIsValid_ge v2) hc
  · exact lex_self
  · exact mixed_lex_general a c d b rfl (eg_comm b d) rfl (eg_comm b c)
      (splitIsValid_ge v1) (splitIsValid_ge v2) hc
  · exact mixed_lex_general c a b d (eg_comm a c) rfl (eg_comm b c) rfl
      (splitIsValid_ge v1) (splitIsValid_ge v2) hc
  · exact lex_compl (splitIsValid_ge v1)
  · exact mixed_lex_general c a d b (eg_comm a c) (eg_comm b d) rfl rfl
      (splitIsValid_ge v1) (splitIsValid_ge v2) hc
  · exact mixed_lex_general a d b c rfl rfl rfl (eg_comm c d)
      (splitIsValid_ge v1) (splitIsValid_ge v2) hc
  · exact mixed_lex_general a d c b rfl (eg_comm b c) rfl (eg_comm b d)
      (splitIsValid_ge v1) (splitIsValid_ge v2) hc
  · exact lex_self
  · exact lex_compl (splitIsValid_ge v1)
  · exact mixed_lex_general d a b c (eg_comm a d) rfl (eg_comm b d) rfl
      (splitIsValid_ge v1) (splitIsValid_ge v2) hc
  · exact mixed_lex_general d a c b (eg_comm a d) (eg_comm b c) (eg_comm c d) rfl
      (splitIsValid_ge v1) (splitIsValid_ge v2) hc
  · exact mixed_lex_general b c a d rfl rfl (eg_comm a b) rfl
      (splitIsValid_ge v1) (splitIsValid_ge v2) hc
  · exact mixed_lex_general c b a d (eg_comm b c) rfl (eg_comm a c) rfl
      (splitIsValid_ge v1) (splitIsValid_ge v2) hc
  · exact lex_compl (splitIsValid_ge v1)
  · exact lex_self
  · exact mixed_lex_general b c d a rfl (eg_comm a d) rfl (eg_comm a c)
      (splitIsValid_ge v1) (splitIsValid_ge v2) hc
  · exact mixed_lex_general c b d a (eg_comm b c) (eg_comm a d) rfl (eg_comm a b)
      (splitIsValid_ge v1) (splitIsValid_ge v2) hc
  · exact mixed_lex_general b d a c rfl rfl (eg_comm a b) (eg_comm c d)
      (splitIsValid_ge v1) (splitIsValid_ge v2) hc
  · exact lex_compl (splitIsValid_ge v1)
  · exact mixed_lex_general d b a c (eg_comm b d) rfl (eg_comm a d) rfl
      (splitIsValid_ge v1) (splitIsValid_ge v2) hc
  · exact mixed_lex_general b d c a rfl (eg_comm a c) rfl (eg_comm a d)
      (splitIsValid_ge v1) (splitIsValid_ge v2) hc
  · exact lex_self
  · exact mixed_lex_general d b c a (eg_comm b d) (eg_comm a c) (eg_comm c d) (eg_comm a b)
      (splitIsValid_ge v1) (splitIsValid_ge v2) hc
  · exact lex_compl (splitIsValid_ge v1)
  · exact mixed_lex_general c d a b rfl rfl (eg_comm a c) (eg_comm b d)
      (splitIsValid_ge v1) (splitIsValid_ge v2) hc
  · exact mixed_lex_general d c a b (eg_comm c d) rfl (eg_comm a d) (eg_comm b c)
      (splitIsValid_ge v1) (splitIsValid_ge v2) hc
  · exact mixed_lex_general c d b a rfl (eg_comm a b) (eg_comm b c) (eg_comm a d)
      (splitIsValid_ge v1) (splitIsValid_ge v2) hc
  · exact mixed_lex_general d c b a (eg_comm c d) (eg_comm a b) (eg_comm b d) (eg_comm a c)
      (splitIsValid_ge v1) (splitIsValid_ge v2) hc
  · exact lex_self

/-- C7: for every 3- or 4-card hand, `BestSplit` returns a split
satisfying the validity rule such that no alternative valid split of the
same cards has a strictly greater `(headScore, tailScore)` lexicographic
rank; when no valid split exists, the best overall (composite-maximal)
split is returned flagged invalid. -/
theorem C7core (cards : List Card) (h3 : 3 ≤ cards.length)
    (bridge : ∀ s1 s2 : List Card × List Card,
      s1 ∈ splitsOf cards → s2 ∈ splitsOf cards →
      splitIsValid s1.1 s1.2 = true → splitIsValid s2.1 s2.2 = true →
      compositeOf s2 ≤ compositeOf s1 →
      lexGreater (evaluatePairScore s2.1) (evaluatePairScore s2.2)
        (evaluatePairScore s1.1) (evaluatePairScore s1.2) = false) :
    ((BestSplit cards).2.2.2 = true →
      splitIsValid (BestSplit cards).1 (BestSplit cards).2.1 = true ∧
      ∀ s ∈ splitsOf cards, splitIsValid s.1 s.2 = true →
        lexGreater (evaluatePairScore s.1) (evaluatePairScore s.2)
          (evaluatePairScore (BestSplit cards).1)
          (evaluatePairScore (BestSplit cards).2.1) = false) ∧
    ((BestSplit cards).2.2.2 = false →
      (∀ s ∈ splitsOf cards, splitIsValid s.1 s.2 = false) ∧
      ∀ s ∈ splitsOf cards,
        compositeOf s ≤ compositeOf ((BestSplit cards).1, (BestSplit cards).2.1)) := by
  rw [BestSplit_eq cards h3]
  generalize hacc : (splitsOf cards).foldl splitStep ⟨-1, [], [], -1, [], []⟩ = acc
  have htr : TrackedAcc (splitsOf cards) acc := by
    rw [← hacc]
    exact foldl_splitStep_tracked _ _ (fun s hs => hs) ⟨by norm_num, by norm_num⟩
  by_cases hge : acc.bestValidScore ≥ 0
  · rw [if_pos hge]
    constructor
    · intro _
      rcases htr.1 with hlt | ⟨hv, hcomp, hmem⟩
      · omega
      refine ⟨hv, fun s hs hsv => ?_⟩
      have hub : compositeOf s ≤ acc.bestValidScore := by
        rw [← hacc]; exact foldl_splitStep_bv_ub _ _ s hs hsv
      have hcble : compositeOf s ≤ compositeOf (acc.bestValidHead, acc.bestValidTail) := by
        omega
      exact bridge _ s hmem hs hv hsv hcble
    · intro hfalse; simp at hfalse
  · rw [if_neg hge]
    constructor
    · intro htrue; simp at htrue
    · intro _
      constructor
      · intro s hs
        by_contra hvs
        rw [Bool.not_eq_false] at hvs
        have hub := foldl_splitStep_bv_ub (splitsOf cards) ⟨-1, [], [], -1, [], []⟩ s hs hvs
        rw [hacc] at hub
        have := compositeOf_nonneg s
        omega
      · intro s hs
        dsimp only
        have hub := foldl_splitStep_bo_ub (splitsOf cards) ⟨-1, [], [], -1, [], []⟩ s hs
        rw [hacc] at hub
        rcases htr.2 with hlt | ⟨hcomp, _⟩
        · have := compositeOf_nonneg s; omega
        · omega

/-- C7: for every 3- or 4-card hand, `BestSplit` returns a split
satisfying the validity rule such that no alternative valid split of the
same cards has a strictly greater `(headScore, tailScore)` lexicographic
rank; when no valid split exists, the best overall (composite-maximal)
split is returned flagged invalid. -/
theorem C7_best_split_optimality (cards : List Card)
    (hlen : cards.length = 3 ∨ cards.length = 4) :
    ((BestSplit cards).2.2.2 = true →
      splitIsValid (BestSplit cards).1 (BestSplit cards).2.1 = true ∧
      ∀ s ∈ splitsOf cards, splitIsValid s.1 s.2 = true →
        lexGreater (evaluatePairScore s.1) (evaluatePairScore s.2)
          (evaluatePairScore (BestSplit cards).1)
          (evaluatePairScore (BestSplit cards).2.1) = false) ∧
    ((BestSplit cards).2.2.2 = false →
      (∀ s ∈ splitsOf cards, splitIsValid s.1 s.2 = false) ∧
      ∀ s ∈ splitsOf cards,
        compositeOf s ≤ compositeOf ((BestSplit cards).1, (BestSplit cards).2.1)) := by
  rcases hlen with h3' | h4'
  · obtain ⟨a, b, c, rfl⟩ := List.length_eq_three.mp h3'
    exact C7core [a, b, c] (by simp)
      (fun s1 s2 m1 m2 _ _ hc => bridge3 a b c s1 s2 m1 m2 hc)
  · obtain ⟨a, b, c, d, rfl⟩ := length_eq_four.mp h4'
    exact C7core [a, b, c, d] (by simp)
      (fun s1 s2 m1 m2 v1 v2 hc => bridge4 a b c d s1 s2 m1 m2 v1 v2 hc)

/-- Witness for C7 at the concrete hand `[B9, RQ, B8, R2]`. -/
theorem C7_best_split_optimality_witness :
    ([Card.B9, Card.RQ, Card.B8, Card.R2].length = 3 ∨
     [Card.B9, Card.RQ, Card.B8, Card.R2].length = 4) ∧
    (((BestSplit [Card.B9, Card.RQ, Card.B8, Card.R2]).2.2.2 = true →
      splitIsValid (BestSplit [Card.B9, Card.RQ, Card.B8, Card.R2]).1
        (BestSplit [Card.B9, Card.RQ, Card.B8, Card.R2]).2.1 = true ∧
      ∀ s ∈ splitsOf [Card.B9, Card.RQ, Card.B8, Card.R2],
        splitIsValid s.1 s.2 = true →
        lexGreater (evaluatePairScore s.1) (evaluatePairScore s.2)
          (evaluatePairScore (BestSplit [Card.B9, Card.RQ, Card.B8, Card.R2]).1)
          (evaluatePairScore (BestSplit [Card.B9, Card.RQ, Card.B8, Card.R2]).2.1) = false) ∧
    ((BestSplit [Card.B9, Card.RQ, Card.B8, Card.R2]).2.2.2 = false →
      (∀ s ∈ splitsOf [Card.B9, Card.RQ, Card.B8, Card.R2], splitIsValid s.1 s.2 = false) ∧
      ∀ s ∈ splitsOf [Card.B9, Card.RQ, Card.B8, Card.R2],
        compositeOf s ≤ compositeOf ((BestSplit [Card.B9, Card.RQ, Card.B8, Card.R2]).1,
          (BestSplit [Card.B9, Card.RQ, Card.B8, Card.R2]).2.1))) :=
  ⟨Or.inr (by decide),
   C7_best_split_optimality [Card.B9, Card.RQ, Card.B8, Card.R2] (Or.inr (by decide))⟩

/-! ## Data model rows (`internal/model`, as used by the settlement engine
and the matchmaker)

`int64` columns are `Int`; timestamps are `Int` (milliseconds); JSON blob
columns are structured values. -/

/-- `model.Wallet`. -/
structure Wallet where
  userId : Int
  balanceTotal : Int := 0
  balanceAvailable : Int := 0
  balanceFrozen : Int := 0
  totalRecharge : Int := 0
  totalWin : Int := 0
  totalConsume : Int := 0
  totalRake : Int := 0
  updatedAt : Int := 0
deriving DecidableEq, Repr

/-- `model.User`, restricted to the fields the settlement engine reads.
`agentPath` holds the result of `parseAgentPath` on the stored `"A>B>C"`
string (the string-splitting itself is not modelled). -/
structure UserRow where
  id : Int
  bindAgentId : Option Int := none
  agentPath : List Int := []
deriving DecidableEq, Repr

/-- A `model.RakeRule` row with its `ConfigJSON` already decoded per the
rule's `Type`; `invalid` covers an unknown type string or a config blob
that fails to unmarshal (both make `calculateRake` return 0). -/
inductive RakeConfig
  | ratio (ratio : Rat) (cap : Int)
  | fixed (amount : Int)
  | ladder (steps : List (Int × Int × Rat × Int))
  | invalid
deriving DecidableEq, Repr

/-- `model.RakeRule`. -/
structure RakeRuleRow where
  id : Int
  config : RakeConfig
deriving DecidableEq, Repr

/-- `model.AgentRule`; `levelRatios` is the decoded `LevelRatiosJSON`
after `parseAgentRatios` key normalisation (`"L3"` ↦ `3`). -/
structure AgentRuleRow where
  id : Int
  maxLevel : Nat := 0
  levelRatios : List (Nat × Rat) := []
  basePlatformRatio : Rat := 0
deriving DecidableEq, Repr

/-- `model.BillingLog` (the informational `MetaJSON` blob is omitted). -/
structure BillingLog where
  userId : Int
  type : String
  delta : Int
  balanceAfter : Int
  matchId : Option Int
  createdAt : Int
deriving DecidableEq, Repr

/-- `model.AgentProfitLog`. -/
structure AgentProfitLog where
  agentId : Int
  fromUserId : Int
  matchId : Int
  level : Nat
  rakeAmount : Int
  profitAmount : Int
  createdAt : Int
deriving DecidableEq, Repr

/-- `model.Agent` (fields used by `bumpAgentTotals`). -/
structure AgentRow where
  id : Int
  totalProfit : Int := 0
deriving DecidableEq, Repr

/-- `game.playerResultRecord` (match `resultJson` entries; the
informational `meta` blob is omitted). -/
structure PlayerResultRecord where
  userId : Int
  netPoints : Int
  rake : Int
deriving DecidableEq, Repr

/-- `game.agentShareRecord`. -/
structure AgentShareRecord where
  agentId : Int
  level : Nat
  amount : Int
deriving DecidableEq, Repr

/-- `game.rakeSummary` (match `rakeJson`). -/
structure RakeSummary where
  total : Int
  platform : Int
  agents : List AgentShareRecord
deriving DecidableEq, Repr

/-- `model.Match`; `resultJson`/`rakeJson` are structured. -/
structure MatchRow where
  id : Int
  tableId : Int
  sceneId : Int
  resultJson : List PlayerResultRecord := []
  rakeJson : Option RakeSummary := none
  endedAt : Option Int := none
deriving DecidableEq, Repr

/-- `model.Scene` (fields used by the core paths). -/
structure SceneRow where
  id : Int
  name : String := ""
  seatCount : Nat := 2
  minIn : Int := 0
  maxIn : Int := 0
  basePi : Int := 0
  minUnitPi : Int := 0
  mangoEnabled : Bool := false
  boboEnabled : Bool := false
  distanceThresholdM : Int := 0
  status : String := "enabled"
  rakeRuleId : Int := 0
deriving DecidableEq, Repr

/-- `model.Table`; `playersJson` is a seat-keyed association list of JSON
objects (the Go column stores the same map serialised). -/
structure TableRow where
  id : Int
  sceneId : Int
  status : String
  seatCount : Nat
  mangoStreak : Int := 0
  playersJson : List (Nat × List (String × JsonVal)) := []
deriving DecidableEq, Repr

/-! ## Settlement engine (`internal/service/game/settle.go`) -/

/-- `game.PlayerResult` (the informational `Meta` map is omitted: the
settlement engine only copies it into `resultJson`). -/
structure PlayerResult where
  userId : Int
  netPoints : Int
deriving DecidableEq, Repr

/-- `game.SettlementRequest`. -/
structure SettlementRequest where
  matchId : Int
  sceneId : Int
  results : List PlayerResult
deriving DecidableEq, Repr

/-- The database rows visible to one settlement transaction. -/
structure SettleDB where
  matchRows : List MatchRow
  scenes : List SceneRow
  rakeRules : List RakeRuleRow
  agentRules : List AgentRuleRow
  users : List UserRow
  wallets : List Wallet
  tables : List TableRow
  billingLogs : List BillingLog
  agentProfitLogs : List AgentProfitLog
  agents : List AgentRow
deriving Repr

/-- Errors surfaced by `SettleMatch` (`pkg/errors` values; `recordNotFound`
stands for a `gorm.ErrRecordNotFound` bubbling out of a scene/rake-rule
load). -/
inductive SettleErr
  | settlementValidation
  | matchNotFound
  | matchAlreadySettled
  | sceneNotFound
  | recordNotFound
deriving DecidableEq, Repr

/-- `clampRake` from `settle.go`. -/
def clampRake (value win cap : Int) : Int :=
  let value := if value < 0 then 0 else value
  let value := if cap > 0 ∧ value > cap then cap else value
  if value > win then win else value

/-- `calculateRake`: `float64` arithmetic is modelled over `Rat` with
`goRound` standing for `math.Round`. -/
def calculateRake (rule : Option RakeConfig) (win : Int) : Int :=
  match rule with
  | none => 0
  | some cfg =>
    if win ≤ 0 then 0
    else
      match cfg with
      | .ratio ratio cap => clampRake (goRound ((win : Rat) * ratio)) win cap
      | .fixed amount => clampRake amount win 0
      | .ladder steps => ladderRake steps win
      | .invalid => 0
where
  /-- The `ladder` arm: first step whose `[min, max]` contains `win`
  (a bound of 0 is open); prefer `ratio`, else `value`, else keep
  scanning. -/
  ladderRake : List (Int × Int × Rat × Int) → Int → Int
  | [], _ => 0
  | (mn, mx, ratio, value) :: rest, win =>
    if (mn = 0 ∨ win ≥ mn) ∧ (mx = 0 ∨ win ≤ mx) then
      if ratio > 0 then clampRake (goRound ((win : Rat) * ratio)) win 0
      else if value > 0 then clampRake value win 0
      else ladderRake rest win
    else ladderRake rest win

/-- `deduplicate` from `settle.go` (drops zeros and repeats, keeps order). -/
def deduplicate (ids : List Int) : List Int :=
  (ids.foldl (fun (acc : List Int × List Int) id =>
    if id = 0 ∨ id ∈ acc.2 then acc else (acc.1 ++ [id], acc.2 ++ [id])) ([], [])).1

/-- `resolveAgentChain`: reverse the parsed `agentPath` (direct agent
first), dropping zeros; fall back to `bindAgentId`; dedupe. -/
def resolveAgentChain (user : UserRow) : List Int :=
  if user.agentPath = [] ∧ user.bindAgentId = none then []
  else
    let result :=
      if user.agentPath ≠ [] then
        (user.agentPath.reverse).filter (fun id => id ≠ 0)
      else
        match user.bindAgentId with
        | some id => [id]
        | none => []
    deduplicate result

/-- `parseAgentRatios` lookup: a missing level ratio reads as the Go
zero value `0`. -/
def ratioFor (ratios : List (Nat × Rat)) (level : Nat) : Rat :=
  (((ratios.find? (fun p => p.1 == level)).map (·.2)).getD 0)

/-- `loadAgentRule`: newest rule by id, `none` when the table is empty. -/
def loadAgentRule (rules : List AgentRuleRow) : Option AgentRuleRow :=
  rules.foldl (fun best r =>
    match best with
    | none => some r
    | some b => if r.id > b.id then some r else some b) none

/-- One `walletBook` cache entry (Go keeps a pointer plus `exists`/`dirty`
flags; `existsRow` is `exists`). -/
structure WalletEntry where
  wallet : Wallet
  existsRow : Bool
  dirty : Bool
deriving DecidableEq, Repr

/-- `walletBook`: the per-transaction wallet cache, in insertion order. -/
structure WalletBook where
  entries : List (Int × WalletEntry)
deriving DecidableEq, Repr

/-- `walletBook.Ensure`: return the cached wallet, else load the row
(`FOR UPDATE`), else start a fresh zero wallet; the entry is marked
dirty. Returns the wallet value along with the updated book. -/
def WalletBook.ensure (wb : WalletBook) (wallets0 : List Wallet) (userId : Int) :
    Wallet × WalletBook :=
  match wb.entries.find? (fun e => e.1 == userId) with
  | some (_, e) =>
    (e.wallet,
     ⟨wb.entries.map (fun p => if p.1 == userId then (p.1, { p.2 with dirty := true }) else p)⟩)
  | none =>
    match wallets0.find? (fun w => w.userId == userId) with
    | some w => (w, ⟨wb.entries ++ [(userId, ⟨w, true, true⟩)]⟩)
    | none =>
      let w : Wallet := { userId := userId }
      (w, ⟨wb.entries ++ [(userId, ⟨w, false, true⟩)]⟩)

/-- Write back a mutated wallet into its book entry (the Go code mutates
through the pointer `Ensure` returned). -/
def WalletBook.store (wb : WalletBook) (userId : Int) (w : Wallet) : WalletBook :=
  ⟨wb.entries.map (fun p => if p.1 == userId then (p.1, { p.2 with wallet := w }) else p)⟩

/-- One `walletBook.SaveAll` iteration: update the existing row or insert
a new one, stamping `updatedAt`. -/
def saveStep (now : Int) (ws : List Wallet) (p : Int × WalletEntry) : List Wallet :=
  if p.2.dirty then
    let w := { p.2.wallet with updatedAt := now }
    if p.2.existsRow then ws.map (fun x => if x.userId == w.userId then w else x)
    else ws ++ [w]
  else ws

/-- `walletBook.SaveAll`. -/
def WalletBook.saveAll (wb : WalletBook) (wallets : List Wallet) (now : Int) : List Wallet :=
  wb.entries.foldl (saveStep now) wallets

/-- Output bundle of `distributeAgentShare` (its Go return tuple plus the
threaded wallet book and the `bumpAgentTotals` update to the agents
table, which the Go function performs through the transaction). -/
structure DistOut where
  records : List AgentShareRecord
  billingLogs : List BillingLog
  profitLogs : List AgentProfitLog
  platformShare : Int
  book : WalletBook
  agents : List AgentRow
deriving Repr

/-- `bumpAgentTotals`: `total_profit += share` per credited agent (an
absent `agents` row is left untouched, as `UpdateColumn` matches no row). -/
def bumpAgentTotals (agents : List AgentRow) (shares : List AgentShareRecord) : List AgentRow :=
  shares.foldl (fun ags share =>
    ags.map (fun a => if a.id == share.agentId then { a with totalProfit := a.totalProfit + share.amount } else a)) agents

/-- Accumulator of the level loop inside `distributeAgentShare`. -/
structure AgentLoopAcc where
  remaining : Int
  totalAgentShare : Int
  records : List AgentShareRecord
  billingLogs : List BillingLog
  profitLogs : List AgentProfitLog
  book : WalletBook
deriving Repr

/-- The `for idx, agentID := range chain` loop of `distributeAgentShare`. -/
def agentLoop (wallets0 : List Wallet) (levelRatios : List (Nat × Rat))
    (winnerId rake : Int) (matchId sceneId : Int) (now : Int) :
    List Int → Nat → AgentLoopAcc → AgentLoopAcc
  | [], _, acc => acc
  | agentId :: rest, idx, acc =>
    let level := idx + 1
    let ratio := ratioFor levelRatios level
    if ratio ≤ 0 then agentLoop wallets0 levelRatios winnerId rake matchId sceneId now rest (idx + 1) acc
    else
      let share := goRound ((rake : Rat) * ratio)
      if share ≤ 0 then agentLoop wallets0 levelRatios winnerId rake matchId sceneId now rest (idx + 1) acc
      else
        let share := if share > acc.remaining then acc.remaining else share
        if share = 0 then agentLoop wallets0 levelRatios winnerId rake matchId sceneId now rest (idx + 1) acc
        else
          let eb := acc.book.ensure wallets0 agentId
          let agentWallet := eb.1
          let book := eb.2
          let agentWallet :=
            { agentWallet with
                balanceAvailable := agentWallet.balanceAvailable + share
                balanceTotal := agentWallet.balanceTotal + share
                totalWin := agentWallet.totalWin + share }
          let book := book.store agentId agentWallet
          agentLoop wallets0 levelRatios winnerId rake matchId sceneId now rest (idx + 1)
            { remaining := acc.remaining - share
              totalAgentShare := acc.totalAgentShare + share
              records := acc.records ++ [⟨agentId, level, share⟩]
              billingLogs := acc.billingLogs ++
                [⟨agentId, "agent_share", share, agentWallet.balanceAvailable, some matchId, now⟩]
              profitLogs := acc.profitLogs ++
                [⟨agentId, winnerId, matchId, level, rake, share, now⟩]
              book := book }

/-- `distributeAgentShare`. -/
def distributeAgentShare (db : SettleDB) (wb : WalletBook) (winnerId rake : Int)
    (agentRule : Option AgentRuleRow) (matchRow : MatchRow) (scene : SceneRow)
    (now : Int) (agents : List AgentRow) : DistOut :=
  if rake ≤ 0 then ⟨[], [], [], 0, wb, agents⟩
  else
    match agentRule with
    | none => ⟨[], [], [], rake, wb, agents⟩
    | some rule =>
      -- a missing user row degrades to the empty `model.User{}`
      let user := (db.users.find? (fun u => u.id == winnerId)).getD ⟨0, none, []⟩
      let chain := resolveAgentChain user
      if chain = [] then ⟨[], [], [], rake, wb, agents⟩
      else
        let acc := agentLoop db.wallets rule.levelRatios winnerId rake matchRow.id scene.id now
          chain 0 ⟨rake, 0, [], [], [], wb⟩
        let platformShare := rake - acc.totalAgentShare
        let platformShare := if platformShare < 0 then 0 else platformShare
        let agents' := if acc.records ≠ [] then bumpAgentTotals agents acc.records else agents
        ⟨acc.records, acc.billingLogs, acc.profitLogs, platformShare, acc.book, agents'⟩

/-- Accumulator of the per-result loop inside `SettleMatch`. -/
structure SettleAcc where
  book : WalletBook
  billingLogs : List BillingLog
  agentLogs : List AgentProfitLog
  resultRecords : List PlayerResultRecord
  agentShareRecords : List AgentShareRecord
  totalRake : Int
  platformIncome : Int
  agents : List AgentRow
deriving Repr

/-- One iteration of `SettleMatch`'s `for _, res := range req.Results`. -/
def processResult (db : SettleDB) (rakeRule : Option RakeConfig)
    (agentRule : Option AgentRuleRow) (matchRow : MatchRow) (scene : SceneRow)
    (now : Int) (acc : SettleAcc) (res : PlayerResult) : SettleAcc :=
  let eb := acc.book.ensure db.wallets res.userId
  let wallet := eb.1
  let book := eb.2
  if res.netPoints > 0 then
    let rake := calculateRake rakeRule res.netPoints
    let totalRake := acc.totalRake + rake
    let netWin := res.netPoints - rake
    let wallet :=
      { wallet with
          balanceAvailable := wallet.balanceAvailable + netWin
          balanceTotal := wallet.balanceTotal + netWin
          totalWin := wallet.totalWin + netWin
          totalRake := wallet.totalRake + rake }
    let book := book.store res.userId wallet
    let billingLogs := acc.billingLogs ++
      [⟨res.userId, "win", netWin, wallet.balanceAvailable, some matchRow.id, now⟩]
    if rake > 0 then
      let billingLogs := billingLogs ++
        [⟨res.userId, "rake", -rake, wallet.balanceAvailable, some matchRow.id, now⟩]
      let dist := distributeAgentShare db book res.userId rake agentRule matchRow scene now acc.agents
      let billingLogs := billingLogs ++ dist.billingLogs
      let platformIncome := acc.platformIncome +
        (if dist.platformShare > 0 then dist.platformShare else 0)
      let billingLogs :=
        if dist.platformShare > 0 then
          billingLogs ++ [⟨0, "platform_income", dist.platformShare, 0, some matchRow.id, now⟩]
        else billingLogs
      { book := dist.book
        billingLogs := billingLogs
        agentLogs := acc.agentLogs ++ dist.profitLogs
        resultRecords := acc.resultRecords ++ [⟨res.userId, netWin, rake⟩]
        agentShareRecords := acc.agentShareRecords ++ dist.records
        totalRake := totalRake
        platformIncome := platformIncome
        agents := dist.agents }
    else
      { acc with
          book := book
          billingLogs := billingLogs
          resultRecords := acc.resultRecords ++ [⟨res.userId, netWin, rake⟩]
          totalRake := totalRake }
  else
    let loss := res.netPoints
    let wallet :=
      { wallet with
          balanceAvailable := wallet.balanceAvailable + loss
          balanceTotal := wallet.balanceTotal + loss
          totalConsume := wallet.totalConsume + (-loss) }
    let book := book.store res.userId wallet
    { acc with
        book := book
        billingLogs := acc.billingLogs ++
          [⟨res.userId, "lose", loss, wallet.balanceAvailable, some matchRow.id, now⟩]
        resultRecords := acc.resultRecords ++ [⟨res.userId, loss, 0⟩] }

/-- The committed state of a successful `SettleMatch` transaction: the
per-result loop followed by the wallet/billing/match/table writes. -/
def settleBuild (db : SettleDB) (now : Int) (req : SettlementRequest)
    (matchRow : MatchRow) (scene : SceneRow) (rakeRule : Option RakeConfig) : SettleDB :=
  let agentRule := loadAgentRule db.agentRules
  let acc := req.results.foldl (processResult db rakeRule agentRule matchRow scene now)
    ⟨⟨[]⟩, [], [], [], [], 0, 0, db.agents⟩
  let wallets' := acc.book.saveAll db.wallets now
  let matchRow' :=
    { matchRow with
        resultJson := acc.resultRecords
        rakeJson := some ⟨acc.totalRake, acc.platformIncome, acc.agentShareRecords⟩
        endedAt := some now }
  { db with
      wallets := wallets'
      billingLogs := db.billingLogs ++ acc.billingLogs
      agentProfitLogs := db.agentProfitLogs ++ acc.agentLogs
      matchRows := db.matchRows.map (fun m => if m.id == matchRow.id then matchRow' else m)
      tables := db.tables.map (fun t =>
        if t.id == matchRow.tableId then { t with status := "ended" } else t)
      agents := acc.agents }

/-- `SettleMatch` (`settle.go`): validation, the idempotence gate, the
per-result loop, then the wallet/billing/match/table writes. A returned
`SettleErr` is a rolled-back transaction (no state change). -/
def settleMatch (db : SettleDB) (now : Int) (req : SettlementRequest) :
    Except SettleErr SettleDB :=
  if req.matchId = 0 ∨ req.results = [] then .error .settlementValidation
  else if req.results.any (fun r => r.userId == 0) then .error .settlementValidation
  else if (req.results.map (·.netPoints)).sum ≠ 0 then .error .settlementValidation
  else
    match db.matchRows.find? (fun m => m.id == req.matchId) with
    | none => .error .matchNotFound
    | some matchRow =>
      if matchRow.endedAt.isSome then .error .matchAlreadySettled
      else if req.sceneId ≠ 0 ∧ matchRow.sceneId ≠ req.sceneId then .error .sceneNotFound
      else
        match db.scenes.find? (fun s => s.id == matchRow.sceneId) with
        | none => .error .recordNotFound
        | some scene =>
          let rakeRuleRes : Except SettleErr (Option RakeConfig) :=
            if scene.rakeRuleId ≠ 0 then
              match db.rakeRules.find? (fun r => r.id == scene.rakeRuleId) with
              | none => .error .recordNotFound
              | some r => .ok (some r.config)
            else .ok none
          match rakeRuleRes with
          | .error e => .error e
          | .ok rakeRule => .ok (settleBuild db now req matchRow scene rakeRule)

/-- The observable effect of one `SettleMatch` call: the new database on
success, the unchanged database (transaction rollback) plus the error
otherwise. -/
def runSettle (db : SettleDB) (now : Int) (req : SettlementRequest) :
    SettleDB × Option SettleErr :=
  match settleMatch db now req with
  | .ok db' => (db', none)
  | .error e => (db, some e)

/-! ### Ledger views used by the settlement proofs -/

/-- Total available balance across a wallet table. -/
def availSum (ws : List Wallet) : Int := (ws.map (·.balanceAvailable)).sum

/-- The stored wallet row of a user, if any. -/
def origWallet (ws : List Wallet) (uid : Int) : Option Wallet :=
  ws.find? (fun w => w.userId == uid)

/-- A user's stored available balance (0 when no row exists). -/
def origAvail (ws : List Wallet) (uid : Int) : Int :=
  (((origWallet ws uid).map (·.balanceAvailable)).getD 0)

/-- The book entry of a user, if cached. -/
def bookFind (wb : WalletBook) (uid : Int) : Option WalletEntry :=
  ((wb.entries.find? (fun p => p.1 == uid)).map (·.2))

/-- Net position of the book against the pre-transaction wallet table:
the sum over cached entries of (cached available − stored available). -/
def bookExcess (ws0 : List Wallet) (wb : WalletBook) : Int :=
  ((wb.entries.map (fun p => p.2.wallet.balanceAvailable - origAvail ws0 p.1)).sum)

/-- Well-formedness of a wallet book built by `ensure`/`store` against the
pre-transaction wallet table. -/
def WBinv (ws0 : List Wallet) (wb : WalletBook) : Prop :=
  (wb.entries.map (·.1)).Nodup ∧
  ∀ p ∈ wb.entries,
    p.2.wallet.userId = p.1 ∧
    p.2.existsRow = (origWallet ws0 p.1).isSome ∧
    p.2.dirty = true

/-- A stored field of a user's wallet row (0 when no row exists). -/
def origField (f : Wallet → Int) (ws : List Wallet) (uid : Int) : Int :=
  (((origWallet ws uid).map f).getD 0)

/-- All wallet rows have non-negative balance/total fields. -/
def NonnegDB (ws : List Wallet) : Prop :=
  ∀ w ∈ ws, 0 ≤ w.balanceAvailable ∧ 0 ≤ w.balanceFrozen ∧ 0 ≤ w.totalWin ∧
    0 ≤ w.totalConsume ∧ 0 ≤ w.totalRake

/-- Mid-settlement shape of one wallet-book entry against the stored rows,
given the results still `pend`ing: frozen untouched, the `total*` counters
only grown, available non-negative, and — while the user still has a
pending loss — available not yet below its stored value. -/
def EntryOK (ws0 : List Wallet) (pend : List PlayerResult) (p : Int × WalletEntry) : Prop :=
  p.2.wallet.balanceFrozen = origField (·.balanceFrozen) ws0 p.1 ∧
  origField (·.totalWin) ws0 p.1 ≤ p.2.wallet.totalWin ∧
  origField (·.totalConsume) ws0 p.1 ≤ p.2.wallet.totalConsume ∧
  origField (·.totalRake) ws0 p.1 ≤ p.2.wallet.totalRake ∧
  0 ≤ p.2.wallet.balanceAvailable ∧
  ((∃ r ∈ pend, r.userId = p.1 ∧ r.netPoints ≤ 0) →
    origAvail ws0 p.1 ≤ p.2.wallet.balanceAvailable)

/-- `EntryOK` across a whole wallet book. -/
def EntriesOK (ws0 : List Wallet) (pend : List PlayerResult) (wb : WalletBook) : Prop :=
  ∀ p ∈ wb.entries, EntryOK ws0 pend p

/-! ### Concrete settlement scenarios (spec §Scenarios S4 and variants) -/

/-- Scenario S4 database: two funded players, a 10% rake rule, a
two-level agent chain `9001>9002` behind the winner. -/
def exDb : SettleDB :=
  { matchRows := [{ id := 1, tableId := 3, sceneId := 10 }]
    scenes := [{ id := 10, rakeRuleId := 7 }]
    rakeRules := [{ id := 7, config := .ratio ((1 : Rat)/10) 0 }]
    agentRules := [{ id := 1, maxLevel := 2, levelRatios := [(1, (1 : Rat)/2), (2, (1 : Rat)/4)] }]
    users := [{ id := 1, bindAgentId := some 9002, agentPath := [9001, 9002] }]
    wallets := [{ userId := 1, balanceTotal := 1000, balanceAvailable := 1000 },
                { userId := 2, balanceTotal := 1000, balanceAvailable := 1000 }]
    tables := [{ id := 3, sceneId := 10, status := "playing", seatCount := 2 }]
    billingLogs := []
    agentProfitLogs := []
    agents := [⟨9001, 0⟩, ⟨9002, 0⟩] }

/-- Scenario S4 request: the winner nets +400, the loser −400. -/
def exReq : SettlementRequest :=
  { matchId := 1, sceneId := 10, results := [⟨1, 400⟩, ⟨2, -400⟩] }

/-- A database whose loser has no wallet row (and no rake rule). -/
def cxDb : SettleDB :=
  { matchRows := [{ id := 1, tableId := 3, sceneId := 10 }]
    scenes := [{ id := 10 }]
    rakeRules := []
    agentRules := []
    users := []
    wallets := []
    tables := [{ id := 3, sceneId := 10, status := "playing", seatCount := 2 }]
    billingLogs := []
    agentProfitLogs := []
    agents := [] }

/-- A request debiting a loser who has no wallet row. -/
def cxReq : SettlementRequest :=
  { matchId := 1, sceneId := 10, results := [⟨1, 100⟩, ⟨2, -100⟩] }

/-! ## Matchmaking (`internal/service/match/service.go`, `matcher.go`)

One scene's Redis state: its sorted-set queue (`queue:{sceneId}`, member
with score), the per-user snapshot keys (`queue:member:{sceneId}:{userId}`),
the per-user lock keys (`queue:lock:{userId}` → sceneId) and the pending
match notices (`match:pending:{userId}`), plus the SQL `tables`/`matches`
rows the composer writes. TTLs and transient Redis errors are not
modelled. -/

/-- `queueMember`, the queue snapshot stored at join time. -/
structure QueueMember where
  userId : Int
  sceneId : Int
  buyIn : Int
  gpsLat : Rat := 0
  gpsLng : Rat := 0
  ip : String := ""
  balanceSnapshot : Int
  joinedAt : Int
deriving DecidableEq, Repr

/-- The match-pending payload `{sceneId, tableId, matchId}`. -/
structure MatchNotify where
  sceneId : Int
  tableId : Int
  matchId : Int
deriving DecidableEq, Repr

/-- Redis + SQL state touched by one scene's matchmaking. -/
structure MatchState where
  queue : List (Int × Int)
  members : List (Int × QueueMember)
  locks : List (Int × Int)
  notifies : List (Int × MatchNotify)
  tables : List TableRow
  matchRowsM : List MatchRow
  nextTableId : Int := 1
  nextMatchId : Int := 1
deriving DecidableEq, Repr

/-- Redis `SET` on an integer-keyed association list (overwrite). -/
def redisSet {α : Type} (l : List (Int × α)) (k : Int) (v : α) : List (Int × α) :=
  l.filter (fun p => ¬ p.1 == k) ++ [(k, v)]

/-- `loadScene`: primary-key lookup, no status filter. -/
def loadScene (scenes : List SceneRow) (sceneId : Int) : Option SceneRow :=
  scenes.find? (fun s => s.id == sceneId)

/-- `loadWalletBalance`: `balance_available`, 0 when no wallet row. -/
def loadWalletBalance (wallets : List Wallet) (userId : Int) : Int :=
  origAvail wallets userId

/-- Errors surfaced by `JoinQueue` (`pkg/errors` values). -/
inductive JoinErr
  | sceneNotFound
  | invalidBuyIn
  | insufficientBalance
  | alreadyInQueue
  | queueProcessing
deriving DecidableEq, Repr

/-- `JoinQueue` (`service.go`): scene lookup, buy-in window, balance,
already-queued and processing-lock checks, then snapshot save + `ZADD`
with score `now`. The deferred lock `Del` makes the lock net-unchanged on
every exit path after `SetNX`. -/
def joinQueue (scenes : List SceneRow) (wallets : List Wallet) (st : MatchState)
    (userId sceneId buyIn : Int) (gpsLat gpsLng : Rat) (ip : String) (now : Int) :
    Except JoinErr MatchState :=
  match loadScene scenes sceneId with
  | none => .error .sceneNotFound
  | some scene =>
    if buyIn < scene.minIn ∨ (scene.maxIn > 0 ∧ buyIn > scene.maxIn) then
      .error .invalidBuyIn
    else
      let walletBalance := loadWalletBalance wallets userId
      if walletBalance < buyIn then .error .insufficientBalance
      else if (st.queue.find? (fun p => p.1 == userId)).isSome then .error .alreadyInQueue
      else if (st.locks.find? (fun p => p.1 == userId)).isSome then .error .queueProcessing
      else
        let member : QueueMember :=
          ⟨userId, sceneId, buyIn, gpsLat, gpsLng, ip, walletBalance, now⟩
        .ok { st with
                members := redisSet st.members userId member
                queue := st.queue ++ [(userId, now)] }

/-- `JoinQueue`'s observable effect (errors roll nothing back). -/
def runJoin (scenes : List SceneRow) (wallets : List Wallet) (st : MatchState)
    (userId sceneId buyIn : Int) (gpsLat gpsLng : Rat) (ip : String) (now : Int) :
    MatchState × Option JoinErr :=
  match joinQueue scenes wallets st userId sceneId buyIn gpsLat gpsLng ip now with
  | .ok st' => (st', none)
  | .error e => (st, some e)

/-- The seat-keyed `playerMap` of `createTableAndMatch`: seat `i` (1-based)
gets `{userId, alias: "玩家i", status: "waiting"}` — no `chips` key. -/
def seatsOf : Nat → List QueueMember → List (Nat × List (String × JsonVal))
  | _, [] => []
  | seat, p :: rest =>
    (seat, [("userId", .num p.userId), ("alias", .str ("玩家" ++ toString seat)),
      ("status", .str "waiting")]) :: seatsOf (seat + 1) rest

/-- The `for _, player := range players` removal loop of `composeTable`:
`ZRem`, snapshot delete and matched-lock set per player; a `ZRem` that
reports 0 returns immediately (second component `false`) without undoing
earlier removals. -/
def composeLoop (sceneId : Int) : List QueueMember → MatchState → MatchState × Bool
  | [], st => (st, true)
  | p :: rest, st =>
    if (st.queue.find? (fun q => q.1 == p.userId)).isSome then
      composeLoop sceneId rest
        { st with
            queue := st.queue.filter (fun q => ¬ q.1 == p.userId)
            members := st.members.filter (fun q => ¬ q.1 == p.userId)
            locks := redisSet st.locks p.userId sceneId }
    else (st, false)

/-- `composeTable` (`matcher.go`): the removal loop, then
`createTableAndMatch` and one `match:pending` notice per player. -/
def composeTable (scene : SceneRow) (players : List QueueMember) (st : MatchState) :
    MatchState :=
  let out := composeLoop scene.id players st
  let st1 := out.1
  if out.2 then
    let table : TableRow :=
      { id := st1.nextTableId, sceneId := scene.id, status := "waiting",
        seatCount := scene.seatCount, mangoStreak := 0, playersJson := seatsOf 1 players }
    let matchRow : MatchRow :=
      { id := st1.nextMatchId, tableId := table.id, sceneId := scene.id }
    { st1 with
        tables := st1.tables ++ [table]
        matchRowsM := st1.matchRowsM ++ [matchRow]
        nextTableId := st1.nextTableId + 1
        nextMatchId := st1.nextMatchId + 1
        notifies := players.foldl
          (fun n p => redisSet n p.userId ⟨scene.id, table.id, matchRow.id⟩) st1.notifies }
  else st1

/-- `toInt64` on a JSON value (numbers truncate, strings parse base 10,
failures yield 0 at `parsePlayersJSON`'s `chips` read). -/
def jsonToInt : JsonVal → Int
  | .num n => n
  | .str s => (s.toInt?).getD 0

/-- The `chips` extraction of `parsePlayersJSON`: absent key ⇒ 0. -/
def seatChips (obj : List (String × JsonVal)) : Int :=
  match jsonLookup "chips" obj with
  | some v => jsonToInt v
  | none => 0

/-- The spec's join precondition/error table (§matchmaking), as written:
scene exists *and is enabled*, buy-in window (upper bound waived at
`maxIn = 0`), balance covers buy-in, not already queued; first violation
wins. -/
def joinSpecOutcome (scenes : List SceneRow) (wallets : List Wallet) (st : MatchState)
    (userId sceneId buyIn : Int) : Option JoinErr :=
  match loadScene scenes sceneId with
  | none => some .sceneNotFound
  | some scene =>
    if scene.status ≠ "enabled" then some .sceneNotFound
    else if buyIn < scene.minIn ∨ (scene.maxIn > 0 ∧ buyIn > scene.maxIn) then
      some .invalidBuyIn
    else if loadWalletBalance wallets userId < buyIn then some .insufficientBalance
    else if (st.queue.find? (fun p => p.1 == userId)).isSome then some .alreadyInQueue
    else if (st.locks.find? (fun p => p.1 == userId)).isSome then some .queueProcessing
    else none

/-- `joinSpecOutcome` with the scene-enabled requirement dropped — the
check order the code actually implements. -/
def joinCodeOutcome (scenes : List SceneRow) (wallets : List Wallet) (st : MatchState)
    (userId sceneId buyIn : Int) : Option JoinErr :=
  match loadScene scenes sceneId with
  | none => some .sceneNotFound
  | some scene =>
    if buyIn < scene.minIn ∨ (scene.maxIn > 0 ∧ buyIn > scene.maxIn) then
      some .invalidBuyIn
    else if loadWalletBalance wallets userId < buyIn then some .insufficientBalance
    else if (st.queue.find? (fun p => p.1 == userId)).isSome then some .alreadyInQueue
    else if (st.locks.find? (fun p => p.1 == userId)).isSome then some .queueProcessing
    else none

/-- A disabled scene, queue states and members for the matchmaking
scenarios (spec §Scenario S1 and the disabled-scene variant). -/
def mxScene : SceneRow := { id := 10, minIn := 100, maxIn := 0, seatCount := 2 }

/-- The same scene with `status = "disabled"`. -/
def mxSceneDisabled : SceneRow :=
  { id := 10, minIn := 100, maxIn := 0, seatCount := 2, status := "disabled" }

/-- An empty matchmaking state. -/
def mxEmpty : MatchState :=
  { queue := [], members := [], locks := [], notifies := [], tables := [], matchRowsM := [] }

/-- Queue member snapshots for users 1 and 2 (buy-in 500 each). -/
def mxMember1 : QueueMember := ⟨1, 10, 500, 0, 0, "", 1000, 100⟩

/-- Queue member snapshot for user 2. -/
def mxMember2 : QueueMember := ⟨2, 10, 500, 0, 0, "", 1000, 101⟩

/-- A state where only user 1 is still queued. -/
def mxStOne : MatchState :=
  { queue := [(1, 100)], members := [(1, mxMember1)], locks := [], notifies := [],
    tables := [], matchRowsM := [] }

/-- A state where users 1 and 2 are queued (spec §Scenario S1). -/
def mxStTwo : MatchState :=
  { queue := [(1, 100), (2, 101)], members := [(1, mxMember1), (2, mxMember2)], locks := [],
    notifies := [], tables := [], matchRowsM := [] }

/-! ## Table runtime (`internal/service/game/runtime.go`)

Round/phase control and the mango streak settlement. Card dealing, deck
state, timers, logging and broadcasting change no field inspected by the
claims and are not modelled; `determineWinnersAndSettleLocked`'s result
computation is abstracted behind the returned `SettleKind`. -/

/-- One seat of `TableRuntime.seats` (fields read by the round logic). -/
structure SeatState where
  seatIndex : Nat
  userId : Int
  chips : Int
  bet : Int
  status : String
  ready : Bool := false
deriving DecidableEq, Repr

/-- Which settlement routine a transition invoked. -/
inductive SettleKind
  | normal
  | mangoLiuJu
deriving DecidableEq, Repr

/-- The `TableRuntime` fields the round/phase logic reads and writes. -/
structure RtState where
  phase : String
  round : Int
  turnSeat : Nat
  lastRaise : Int
  basePi : Int
  mangoStreak : Int
  chexuanMode : Bool
  boboEnabled : Bool := false
  round1Bet : Bool
  round2Bet : Bool
  round2Knock : Bool := false
  raisedRound1 : Bool := false
  raisedRound2 : Bool := false
  tailBigWin : Bool := false
  bankerSeat : Nat
  seats : List SeatState
  roundActed : List Nat
deriving DecidableEq, Repr

/-- Ascending insertion sort (`sort.Ints`). -/
def insertSorted (x : Nat) : List Nat → List Nat
  | [] => [x]
  | y :: ys => if x ≤ y then x :: y :: ys else y :: insertSorted x ys

/-- `activeSeatsLocked`: non-folded, non-eliminated seat indices, sorted
ascending. -/
def activeSeats (seats : List SeatState) : List Nat :=
  ((seats.filter (fun s => ¬(s.status == "folded" ∨ s.status == "eliminated"))).map
    (·.seatIndex)).foldr insertSorted []

/-- `findSeatLocked`. -/
def findSeat (seats : List SeatState) (seatIdx : Nat) : Option SeatState :=
  seats.find? (fun s => s.seatIndex == seatIdx)

/-- `findFirstActiveSeatLocked`. -/
def findFirstActiveSeat (seats : List SeatState) : Nat :=
  (((seats.find? (fun s => ¬(s.status == "folded" ∨ s.status == "eliminated"))).map
    (·.seatIndex)).getD 0)

/-- `nextActiveAfterLocked`. -/
def nextActiveAfter (seats : List SeatState) (seatIdx : Nat) : Nat :=
  let active := activeSeats seats
  if active.length = 0 then 0
  else if seatIdx = 0 then active.headD 0
  else
    match active.findIdx? (fun s => s == seatIdx) with
    | some i => active.getD ((i + 1) % active.length) 0
    | none => active.headD 0

/-- `firstActorSeatLocked`. -/
def firstActorSeat (bankerSeat : Nat) (seats : List SeatState) : Nat :=
  let start := if bankerSeat = 0 then findFirstActiveSeat seats else bankerSeat
  nextActiveAfter seats start

/-- `shouldSettleLocked`: exactly one active seat. -/
def shouldSettle (st : RtState) : Bool :=
  (activeSeats st.seats).length == 1

/-- `shouldAdvanceRoundLocked`. -/
def shouldAdvanceRound (st : RtState) : Bool :=
  if ¬ st.phase == "playing" then false
  else if st.round ≥ 3 then true
  else
    let active := activeSeats st.seats
    if active.length ≤ 1 then true
    else active.all (fun seatIdx =>
      match findSeat st.seats seatIdx with
      | none => true
      | some seat =>
        if seat.status == "folded" ∨ seat.status == "eliminated" then true
        else if seat.bet < st.lastRaise ∧ seat.chips > 0 then false
        else st.roundActed.contains seatIdx)

/-- `canPassLocked`. -/
def canPass (st : RtState) (seatIdx : Nat) : Bool :=
  match findSeat st.seats seatIdx with
  | none => false
  | some seat =>
    if st.round ≥ 3 then false
    else if seat.bet ≥ st.lastRaise ∨ seat.chips = 0 then true
    else false

/-- `isSeatReadyLocked`. -/
def isSeatReady (seats : List SeatState) (seatIdx : Nat) : Bool :=
  ((seats.find? (fun s => s.seatIndex == seatIdx)).map (·.ready)).getD false

/-- `allowedActionsLocked`. -/
def allowedActions (st : RtState) (userId : Int) : List String :=
  match (st.seats.find? (fun s => s.userId == userId)).map (·.seatIndex) with
  | none => []
  | some seatIdx =>
    if st.phase == "waiting" then
      if isSeatReady st.seats seatIdx then [] else ["ready"]
    else if st.phase == "playing" then
      if ¬ st.turnSeat == seatIdx then []
      else
        match findSeat st.seats seatIdx with
        | none => []
        | some seat =>
          if seat.status == "folded" ∨ seat.status == "eliminated" then []
          else if st.round ≥ 3 then ["fold"]
          else if st.round2Knock then ["fold", "call"]
          else
            let actions := ["fold"] ++ (if canPass st seatIdx then ["pass"] else ["call"])
            let firstActor := st.round = 1 ∧ st.roundActed.length = 0 ∧
              seatIdx = firstActorSeat st.bankerSeat st.seats
            let actions :=
              if st.round = 1 ∧ seat.chips > 0 ∧ ¬ firstActor then actions ++ ["raise"]
              else actions
            if st.round = 2 then
              (if st.boboEnabled then actions ++ ["knock_bobo"]
               else if seat.chips > 0 then actions ++ ["raise"]
               else actions)
            else if st.round = 1 ∧ st.boboEnabled then actions ++ ["knock_bobo"]
            else actions
    else []

/-- `advanceRoundLocked` (dealing, logging and timers omitted; the two
settlement calls are reported as the `SettleKind`). -/
def advanceRound (st : RtState) : RtState × Option SettleKind :=
  let st := { st with round := st.round + 1, roundActed := [] }
  if ¬ st.phase == "playing" then (st, none)
  else if st.chexuanMode ∧ st.round = 3 ∧ st.round1Bet ∧ ¬ st.round2Bet then
    ({ st with phase := "settling" }, some .mangoLiuJu)
  else if st.round ≥ 3 then
    ({ st with phase := "settling", turnSeat := 0 }, some .normal)
  else
    let ts := firstActorSeat st.bankerSeat st.seats
    if ts = 0 then ({ st with phase := "settling" }, some .normal)
    else
      let st := { st with turnSeat := ts }
      let st := if st.round = 1 ∧ st.lastRaise = 0 ∧ st.basePi > 0 then
        { st with lastRaise := st.basePi } else st
      (st, none)

/-- The settle/advance/next-turn decision at the end of `handleActionLocked`. -/
def postActionProgress (st : RtState) : RtState × Option SettleKind :=
  if shouldSettle st then
    let st := if st.round = 2 ∧ st.round2Bet then { st with tailBigWin := true } else st
    ({ st with phase := "settling", turnSeat := 0 }, some .normal)
  else if shouldAdvanceRound st then advanceRound st
  else
    let next := nextActiveAfter st.seats st.turnSeat
    if next = 0 then (st, none)
    else ({ st with turnSeat := next }, none)

/-! ### Mango settlement (`applyMangoSettlementLocked`) -/

/-- The runtime fields `applyMangoSettlementLocked` reads. -/
structure MangoCtx where
  basePi : Int
  round : Int
  mangoStreak : Int
  round1Bet : Bool
  raisedRound1 : Bool
  round2Bet : Bool
  raisedRound2 : Bool
  round2Knock : Bool
deriving DecidableEq, Repr

/-- The streak transition computed *first* by `applyMangoSettlementLocked`. -/
def mangoNewStreak (c : MangoCtx) (showdown : Bool) : Int :=
  let round1Bet := c.round1Bet || c.raisedRound1
  let round2Bet := c.round2Bet || c.raisedRound2 || c.round2Knock
  if showdown = true ∨ c.round ≥ 3 then 0
  else if round2Bet = true then 0
  else if round1Bet = true then
    (if c.mangoStreak < 3 then c.mangoStreak + 1 else c.mangoStreak)
  else if c.mangoStreak = 3 then 3
  else 0

/-- The winner index scan of `applyMangoSettlementLocked` (first maximal
`NetPoints`). -/
def mangoWinIdx (results : List PlayerResult) : Nat :=
  ((List.range results.length).drop 1).foldl
    (fun w i =>
      if ((results.get? i).getD ⟨0, 0⟩).netPoints >
          ((results.get? w).getD ⟨0, 0⟩).netPoints then i else w) 0

/-- `applyMangoSettlementLocked`: returns the updated results and the new
streak stored back into `rt.mangoStreak` (the informational `Meta` writes
are not modelled). The division only runs with `mangoValue > 0` and a
positive divisor, where Go's truncated and Lean's division agree. -/
def applyMangoSettlement (c : MangoCtx) (showdown : Bool) (results : List PlayerResult) :
    List PlayerResult × Int :=
  if c.basePi ≤ 0 then (results, c.mangoStreak)
  else
    let newStreak := mangoNewStreak c showdown
    let mangoValue := newStreak * 2 * c.basePi
    if mangoValue > 0 ∧ results ≠ [] then
      let winIdx := mangoWinIdx results
      let losers := (List.range results.length).filter (fun i => ¬ i = winIdx)
      if losers.length > 0 then
        let share := mangoValue / (losers.length : Int)
        let remainder := mangoValue - share * (losers.length : Int)
        let firstLoser := losers.headD 0
        (results.enum.map (fun p =>
            if p.1 = winIdx then { p.2 with netPoints := p.2.netPoints + mangoValue }
            else { p.2 with netPoints := p.2.netPoints - share -
              (if p.1 = firstLoser ∧ remainder > 0 then remainder else 0) }),
          newStreak)
      else (results, newStreak)
    else (results, newStreak)

/-- A round-2 chexuan table about to advance: two active seats with
matched bets. -/
def rtSt9 : RtState :=
  { phase := "playing", round := 2, turnSeat := 1, lastRaise := 10, basePi := 10,
    mangoStreak := 0, chexuanMode := true, round1Bet := true, round2Bet := true,
    bankerSeat := 1,
    seats := [⟨1, 11, 100, 10, "playing", true⟩, ⟨2, 22, 100, 10, "playing", true⟩],
    roundActed := [1, 2] }

theorem WBinv_nil (ws0 : List Wallet) : WBinv ws0 ⟨[]⟩ := by
  constructor
  · simp
  · intro p hp; simp at hp

/-- The wallet value `ensure` hands back. -/
theorem ensure_fst (wb : WalletBook) (ws0 : List Wallet) (uid : Int) :
    (wb.ensure ws0 uid).1 =
      match bookFind wb uid with
      | some e => e.wallet
      | none => (origWallet ws0 uid).getD { userId := uid } := by
  unfold WalletBook.ensure bookFind origWallet
  cases h : wb.entries.find? (fun p => p.1 == uid) with
  | some p => simp
  | none =>
    cases h2 : ws0.find? (fun w => w.userId == uid) with
    | some w => simp
    | none => simp

theorem ensure_entries_of_found (wb : WalletBook) (ws0 : List Wallet) (uid : Int)
    {p0} (h : wb.entries.find? (fun p => p.1 == uid) = some p0) :
    (wb.ensure ws0 uid).2.entries =
      wb.entries.map (fun p => if p.1 == uid then (p.1, { p.2 with dirty := true }) else p) := by
  unfold WalletBook.ensure
  rw [h]

theorem ensure_entries_of_not_found (wb : WalletBook) (ws0 : List Wallet) (uid : Int)
    (h : wb.entries.find? (fun p => p.1 == uid) = none) :
    (wb.ensure ws0 uid).2.entries =
      wb.entries ++ [(uid, ⟨(origWallet ws0 uid).getD { userId := uid },
        (origWallet ws0 uid).isSome, true⟩)] := by
  unfold WalletBook.ensure origWallet
  rw [h]
  cases h2 : ws0.find? (fun w => w.userId == uid) with
  | some w => simp
  | none => simp

/-- `find?` commutes with a map that cannot change the predicate's
verdict. -/
theorem find?_map_pres {α : Type} (l : List α) (g : α → α) (p : α → Bool)
    (hp : ∀ x, p (g x) = p x) :
    (l.map g).find? p = (l.find? p).map g := by
  induction l with
  | nil => rfl
  | cons x l ih =>
    by_cases hx : p x = true
    · simp [List.find?_cons, hp x, hx]
    · rw [Bool.not_eq_true] at hx
      simp [List.find?_cons, hp x, hx, ih]

/-- Entry-map functions used by `ensure`/`store` keep every key. -/
theorem map_fst_pres {β : Type} (l : List (Int × β)) (g : Int × β → Int × β)
    (hg : ∀ x, (g x).1 = x.1) : (l.map g).map (·.1) = l.map (·.1) := by
  induction l with
  | nil => rfl
  | cons x l ih => simp [hg x, ih]

theorem ensure_keeps_WBinv (wb : WalletBook) (ws0 : List Wallet) (uid : Int)
    (h : WBinv ws0 wb) : WBinv ws0 (wb.ensure ws0 uid).2 := by
  obtain ⟨hnd, hall⟩ := h
  cases hfound : wb.entries.find? (fun p => p.1 == uid) with
  | some p0 =>
    constructor
    · rw [ensure_entries_of_found wb ws0 uid hfound,
        map_fst_pres _ _ (fun x => by dsimp; split <;> rfl)]
      exact hnd
    · intro p hp
      rw [ensure_entries_of_found wb ws0 uid hfound] at hp
      obtain ⟨q, hq, hgq⟩ := List.mem_map.mp hp
      by_cases hk : (q.1 == uid) = true
      · rw [if_pos hk] at hgq
        obtain ⟨h1, h2, _⟩ := hall q hq
        exact hgq ▸ ⟨h1, h2, rfl⟩
      · rw [Bool.not_eq_true] at hk
        rw [hk] at hgq
        simp only [Bool.false_eq_true, if_false] at hgq
        exact hgq ▸ hall q hq
  | none =>
    constructor
    · rw [ensure_entries_of_not_found wb ws0 uid hfound]
      simp only [List.map_append, List.map_cons, List.map_nil]
      rw [List.nodup_append]
      refine ⟨hnd, List.nodup_singleton _, ?_⟩
      intro k hk hmem
      simp only [List.mem_singleton] at hmem
      subst hmem
      obtain ⟨q, hq, hqk⟩ := List.mem_map.mp hk
      have := List.find?_eq_none.mp hfound q hq
      exact this (by simp [hqk])
    · intro p hp
      rw [ensure_entries_of_not_found wb ws0 uid hfound] at hp
      rcases List.mem_append.mp hp with hp | hp
      · exact hall p hp
      · simp only [List.mem_singleton] at hp
        subst hp
        refine ⟨?_, rfl, rfl⟩
        cases horig : origWallet ws0 uid with
        | none => simp
        | some w =>
          have := List.find?_some horig
          simp only [beq_iff_eq] at this
          simp [horig, this]

theorem ensure_keeps_excess (wb : WalletBook) (ws0 : List Wallet) (uid : Int) :
    bookExcess ws0 (wb.ensure ws0 uid).2 = bookExcess ws0 wb := by
  cases hfound : wb.entries.find? (fun p => p.1 == uid) with
  | some p0 =>
    unfold bookExcess
    rw [ensure_entries_of_found wb ws0 uid hfound, List.map_map]
    congr 1
    apply List.map_congr_left
    intro p _
    dsimp only [Function.comp]
    split <;> rfl
  | none =>
    unfold bookExcess
    rw [ensure_entries_of_not_found wb ws0 uid hfound]
    simp only [List.map_append, List.sum_append, List.map_cons, List.map_nil, List.sum_cons,
      List.sum_nil]
    cases horig : origWallet ws0 uid with
    | none => simp [origAvail, horig]
    | some w => simp [origAvail, horig]

theorem ensure_bookFind_found (wb : WalletBook) (ws0 : List Wallet) (uid : Int)
    {e : WalletEntry} (h : bookFind wb uid = some e) :
    bookFind (wb.ensure ws0 uid).2 uid = some { e with dirty := true } := by
  unfold bookFind at h
  cases hfound : wb.entries.find? (fun p => p.1 == uid) with
  | none => simp [hfound] at h
  | some p0 =>
    rw [hfound] at h
    simp only [Option.map_some', Option.some.injEq] at h
    have hp0' := List.find?_some hfound
    have hp0 : p0.1 = uid := beq_iff_eq.mp hp0'
    unfold bookFind
    rw [ensure_entries_of_found wb ws0 uid hfound,
      find?_map_pres _ _ _ (fun x => by dsimp; split <;> rfl), hfound]
    simp [hp0, h]

theorem ensure_bookFind_missing (wb : WalletBook) (ws0 : List Wallet) (uid : Int)
    (h : bookFind wb uid = none) :
    bookFind (wb.ensure ws0 uid).2 uid =
      some ⟨(origWallet ws0 uid).getD { userId := uid },
        (origWallet ws0 uid).isSome, true⟩ := by
  unfold bookFind at h
  cases hfound : wb.entries.find? (fun p => p.1 == uid) with
  | some p0 => simp [hfound] at h
  | none =>
    unfold bookFind
    rw [ensure_entries_of_not_found wb ws0 uid hfound, List.find?_append, hfound]
    simp

theorem ensure_bookFind_other (wb : WalletBook) (ws0 : List Wallet) (uid uid' : Int)
    (hne : uid' ≠ uid) :
    bookFind (wb.ensure ws0 uid).2 uid' = bookFind wb uid' := by
  cases hfound : wb.entries.find? (fun p => p.1 == uid) with
  | some p0 =>
    unfold bookFind
    rw [ensure_entries_of_found wb ws0 uid hfound,
      find?_map_pres _ _ _ (fun x => by dsimp; split <;> rfl)]
    cases hq : wb.entries.find? (fun p => p.1 == uid') with
    | none => simp
    | some q =>
      have hq' := List.find?_some hq
      simp only [beq_iff_eq] at hq'
      simp [hq, hq', hne]
  | none =>
    unfold bookFind
    rw [ensure_entries_of_not_found wb ws0 uid hfound, List.find?_append]
    cases hq : wb.entries.find? (fun p => p.1 == uid') with
    | none => simp [Ne.symm hne]
    | some q => simp

theorem store_entries (wb : WalletBook) (uid : Int) (w : Wallet) :
    (wb.store uid w).entries =
      wb.entries.map (fun p => if p.1 == uid then (p.1, { p.2 with wallet := w }) else p) := rfl

theorem store_keeps_WBinv (wb : WalletBook) (ws0 : List Wallet) (uid : Int) (w : Wallet)
    (hw : w.userId = uid) (h : WBinv ws0 wb) : WBinv ws0 (wb.store uid w) := by
  obtain ⟨hnd, hall⟩ := h
  constructor
  · rw [store_entries, map_fst_pres _ _ (fun x => by dsimp; split <;> rfl)]
    exact hnd
  · intro p hp
    rw [store_entries] at hp
    obtain ⟨q, hq, hgq⟩ := List.mem_map.mp hp
    obtain ⟨h1, h2, h3⟩ := hall q hq
    by_cases hk : (q.1 == uid) = true
    · rw [if_pos hk] at hgq
      simp only [beq_iff_eq] at hk
      subst hgq
      exact ⟨by simpa [hk] using hw, h2, h3⟩
    · rw [Bool.not_eq_true] at hk
      rw [hk] at hgq
      simp only [Bool.false_eq_true, if_false] at hgq
      exact hgq ▸ ⟨h1, h2, h3⟩

theorem store_bookFind_same (wb : WalletBook) (uid : Int) (w : Wallet) {e : WalletEntry}
    (h : bookFind wb uid = some e) :
    bookFind (wb.store uid w) uid = some { e with wallet := w } := by
  unfold bookFind at h ⊢
  rw [store_entries, find?_map_pres _ _ _ (fun x => by dsimp; split <;> rfl)]
  cases hq : wb.entries.find? (fun p => p.1 == uid) with
  | none => simp [hq] at h
  | some q =>
    have hq0 := List.find?_some hq
    have hq' : q.1 = uid := beq_iff_eq.mp hq0
    rw [hq] at h
    simp only [Option.map_some', Option.some.injEq] at h
    simp [hq, hq', h]

theorem store_bookFind_other (wb : WalletBook) (uid uid' : Int) (w : Wallet)
    (hne : uid' ≠ uid) :
    bookFind (wb.store uid w) uid' = bookFind wb uid' := by
  unfold bookFind
  rw [store_entries, find?_map_pres _ _ _ (fun x => by dsimp; split <;> rfl)]
  cases hq : wb.entries.find? (fun p => p.1 == uid') with
  | none => simp
  | some q =>
    have hq0 := List.find?_some hq
    have hq' : q.1 = uid' := beq_iff_eq.mp hq0
    simp [hq, hq', hne]

theorem store_excess_list (ws0 : List Wallet) (uid : Int) (w : Wallet) :
    ∀ (l : List (Int × WalletEntry)), (l.map (·.1)).Nodup →
    ∀ e : WalletEntry, (l.find? (fun p => p.1 == uid)).map (·.2) = some e →
    ((l.map (fun p => if p.1 == uid then (p.1, { p.2 with wallet := w }) else p)).map
      (fun p => p.2.wallet.balanceAvailable - origAvail ws0 p.1)).sum =
    (l.map (fun p => p.2.wallet.balanceAvailable - origAvail ws0 p.1)).sum +
      (w.balanceAvailable - e.wallet.balanceAvailable) := by
  intro l
  induction l with
  | nil => intro _ e he; simp at he
  | cons p rest ih =>
    intro hnd e he
    simp only [List.map_cons, List.nodup_cons] at hnd
    by_cases hk : (p.1 == uid) = true
    · simp only [List.find?_cons, hk] at he
      simp only [Option.map_some', Option.some.injEq] at he
      have hk' : p.1 = uid := beq_iff_eq.mp hk
      have hrest : rest.map (fun q => if q.1 == uid then (q.1, { q.2 with wallet := w }) else q)
          = rest := by
        refine (List.map_congr_left ?_).trans (List.map_id rest)
        intro q hq
        have hne : q.1 ≠ uid := fun hqe => hnd.1 (hk' ▸ hqe ▸ List.mem_map_of_mem _ hq)
        simp [hne]
      simp only [List.map_cons, if_pos hk, hrest, List.sum_cons, ← he]
      ring
    · rw [Bool.not_eq_true] at hk
      simp only [List.find?_cons, hk] at he
      simp only [List.map_cons, hk, Bool.false_eq_true, if_false, List.sum_cons]
      rw [ih hnd.2 e he]
      ring

theorem store_excess (wb : WalletBook) (ws0 : List Wallet) (uid : Int) (w : Wallet)
    (hnd : (wb.entries.map (·.1)).Nodup) {e : WalletEntry}
    (hfind : bookFind wb uid = some e) :
    bookExcess ws0 (wb.store uid w) =
      bookExcess ws0 wb + (w.balanceAvailable - e.wallet.balanceAvailable) := by
  unfold bookFind at hfind
  unfold bookExcess
  rw [store_entries]
  exact store_excess_list ws0 uid w wb.entries hnd e hfind

/-! ### `SaveAll` lemmas -/

theorem availSum_append (ws : List Wallet) (w : Wallet) :
    availSum (ws ++ [w]) = availSum ws + w.balanceAvailable := by
  simp [availSum]

/-- Replacing the unique row of a user keeps every other user's rows. -/
theorem map_userId_replace (ws : List Wallet) (uid : Int) (w' : Wallet)
    (hw : w'.userId = uid) :
    (ws.map (fun x => if x.userId == uid then w' else x)).map (·.userId) =
      ws.map (·.userId) := by
  rw [List.map_map]
  apply List.map_congr_left
  intro x _
  dsimp only [Function.comp]
  by_cases hx : (x.userId == uid) = true
  · simp [hx, hw, beq_iff_eq.mp hx]
  · rw [Bool.not_eq_true] at hx
    simp [hx]

theorem sum_replace (ws : List Wallet) (uid : Int) (w' : Wallet)
    (hnd : (ws.map (·.userId)).Nodup) {oldw : Wallet}
    (hfind : ws.find? (fun x => x.userId == uid) = some oldw) :
    availSum (ws.map (fun x => if x.userId == uid then w' else x)) =
      availSum ws + (w'.balanceAvailable - oldw.balanceAvailable) := by
  induction ws with
  | nil => simp at hfind
  | cons x rest ih =>
    simp only [List.map_cons, List.nodup_cons] at hnd
    by_cases hx : (x.userId == uid) = true
    · simp only [List.find?_cons, hx] at hfind
      simp only [Option.some.injEq] at hfind
      have hx' : x.userId = uid := beq_iff_eq.mp hx
      have hrest : rest.map (fun y => if y.userId == uid then w' else y) = rest := by
        refine (List.map_congr_left ?_).trans (List.map_id rest)
        intro y hy
        have hne : y.userId ≠ uid := fun he => hnd.1 (hx' ▸ he ▸ List.mem_map_of_mem _ hy)
        simp [hne]
      simp only [List.map_cons, hx, if_true, hrest, availSum, List.sum_cons, ← hfind]
      ring
    · rw [Bool.not_eq_true] at hx
      simp only [List.find?_cons, hx] at hfind
      simp only [List.map_cons, hx, Bool.false_eq_true, if_false]
      have := ih hnd.2 hfind
      simp only [availSum, List.map_cons, List.sum_cons] at this ⊢
      omega

/-- A `saveStep` for a different user preserves a user's first row. -/
theorem saveStep_find_other (now : Int) (ws : List Wallet) (p : Int × WalletEntry)
    (uid : Int) (hne : p.1 ≠ uid) (hkey : p.2.wallet.userId = p.1) :
    (saveStep now ws p).find? (fun x => x.userId == uid) =
      ws.find? (fun x => x.userId == uid) := by
  unfold saveStep
  split
  · split
    · rw [find?_map_pres]
      · cases hq : ws.find? (fun x => x.userId == uid) with
        | none => simp
        | some q =>
          have hq0 := List.find?_some hq
          have hq' : q.userId = uid := beq_iff_eq.mp hq0
          have hcond : (q.userId == ({ p.2.wallet with updatedAt := now } : Wallet).userId) = false := by
            simp [hq', hkey, Ne.symm hne]
          simp only [hq, Option.map_some', Option.some.injEq]
          rw [if_neg (by simpa using hcond)]
      · intro x
        by_cases hx : (x.userId == ({ p.2.wallet with updatedAt := now } : Wallet).userId) = true
        · have hx' : x.userId = p.1 := by
            have := beq_iff_eq.mp hx
            simpa [hkey] using this
          simp [hx, hkey, hx']
        · rw [Bool.not_eq_true] at hx
          simp [hx]
    · rw [List.find?_append]
      cases hq : ws.find? (fun x => x.userId == uid) with
      | none =>
        have hcond : (({ p.2.wallet with updatedAt := now } : Wallet).userId == uid) = false := by
          simp [hkey, hne]
        simp [hq, hcond]
      | some q => simp [hq]
  · rfl

/-- A `saveStep` keeps nodup user ids, provided a fresh insert really is
fresh. -/
theorem saveStep_nodup (now : Int) (ws : List Wallet) (p : Int × WalletEntry)
    (hkey : p.2.wallet.userId = p.1)
    (hnd : (ws.map (·.userId)).Nodup)
    (hfresh : p.2.existsRow = false → ws.find? (fun x => x.userId == p.1) = none) :
    ((saveStep now ws p).map (·.userId)).Nodup := by
  unfold saveStep
  split
  · split
    · next hex =>
      rw [map_userId_replace ws _ _ rfl]
      exact hnd
    · next hex =>
      rw [Bool.not_eq_true] at hex
      have hnone := hfresh hex
      simp only [List.map_append, List.map_cons, List.map_nil]
      rw [List.nodup_append]
      refine ⟨hnd, List.nodup_singleton _, ?_⟩
      intro k hk hmem
      simp only [List.mem_singleton] at hmem
      obtain ⟨x, hx, hxk⟩ := List.mem_map.mp hk
      have hnot := List.find?_eq_none.mp hnone x hx
      subst hmem
      exact hnot (by simp [hxk, hkey])
  · exact hnd

/-- `SaveAll` adds exactly the book's net position to the total available
balance: induction kernel, generalising the working wallet table. -/
theorem saveAll_sum_aux (ws0 : List Wallet) (now : Int) :
    ∀ (l : List (Int × WalletEntry)) (ws : List Wallet),
      (l.map (·.1)).Nodup →
      (∀ p ∈ l, p.2.dirty = true ∧ p.2.wallet.userId = p.1 ∧
        p.2.existsRow = (origWallet ws0 p.1).isSome) →
      (ws.map (·.userId)).Nodup →
      (∀ p ∈ l, ws.find? (fun x => x.userId == p.1) = origWallet ws0 p.1) →
      availSum (l.foldl (saveStep now) ws) =
        availSum ws + (l.map (fun p => p.2.wallet.balanceAvailable - origAvail ws0 p.1)).sum := by
  intro l
  induction l with
  | nil => intro ws _ _ _ _; simp
  | cons p rest ih =>
    intro ws hnd hprops hwnd hfind
    simp only [List.map_cons, List.nodup_cons] at hnd
    obtain ⟨hdirty, hkey, hex⟩ := hprops p (List.mem_cons_self _ _)
    have hfindp := hfind p (List.mem_cons_self _ _)
    have hstep : availSum (saveStep now ws p) =
        availSum ws + (p.2.wallet.balanceAvailable - origAvail ws0 p.1) := by
      unfold saveStep
      rw [if_pos hdirty]
      cases horig : origWallet ws0 p.1 with
      | some oldw =>
        have hex' : p.2.existsRow = true := by rw [hex, horig]; rfl
        rw [if_pos hex']
        have hfind' : ws.find? (fun x => x.userId == p.1) = some oldw := by
          rw [hfindp, horig]
        have hrepl := sum_replace ws ({ p.2.wallet with updatedAt := now } : Wallet).userId
          { p.2.wallet with updatedAt := now } (by simpa [hkey] using hwnd)
          (by simpa [hkey] using hfind')
        rw [hrepl]
        have : origAvail ws0 p.1 = oldw.balanceAvailable := by simp [origAvail, horig]
        rw [this]
      | none =>
        have hex' : p.2.existsRow = false := by rw [hex, horig]; rfl
        rw [hex']
        simp only [Bool.false_eq_true, if_false]
        rw [availSum_append]
        have : origAvail ws0 p.1 = 0 := by simp [origAvail, horig]
        rw [this]
        ring_nf
    have hrest := ih (saveStep now ws p) hnd.2
      (fun q hq => hprops q (List.mem_cons_of_mem _ hq))
      (saveStep_nodup now ws p hkey hwnd
        (fun hexf => by rw [hfindp]; rw [hex] at hexf; exact Option.not_isSome_iff_eq_none.mp (by simp [hexf])))
      (fun q hq => by
        rw [saveStep_find_other now ws p q.1 (fun he => hnd.1 (he ▸ List.mem_map_of_mem _ hq)) hkey]
        exact hfind q (List.mem_cons_of_mem _ hq))
    simp only [List.foldl_cons, List.map_cons, List.sum_cons]
    rw [hrest, hstep]
    ring

/-- `SaveAll` sum law, at the pre-transaction table itself. -/
theorem saveAll_sum (wb : WalletBook) (ws0 : List Wallet) (now : Int)
    (hinv : WBinv ws0 wb) (hwnd : (ws0.map (·.userId)).Nodup) :
    availSum (wb.saveAll ws0 now) = availSum ws0 + bookExcess ws0 wb := by
  unfold WalletBook.saveAll bookExcess
  exact saveAll_sum_aux ws0 now wb.entries ws0 hinv.1
    (fun p hp => ⟨(hinv.2 p hp).2.2, (hinv.2 p hp).1, (hinv.2 p hp).2.1⟩)
    hwnd (fun p _ => rfl)

theorem saveAll_pred_aux (P : Wallet → Prop) (now : Int) :
    ∀ (l : List (Int × WalletEntry)) (ws : List Wallet),
      (∀ w ∈ ws, P w) →
      (∀ p ∈ l, P ({ p.2.wallet with updatedAt := now })) →
      ∀ w ∈ l.foldl (saveStep now) ws, P w := by
  intro l
  induction l with
  | nil => intro ws hws _; simpa using hws
  | cons p rest ih =>
    intro ws hws hl
    simp only [List.foldl_cons]
    refine ih (saveStep now ws p) ?_ (fun q hq => hl q (List.mem_cons_of_mem _ hq))
    intro w hw
    unfold saveStep at hw
    split at hw
    · split at hw
      · obtain ⟨x, hx, hxe⟩ := List.mem_map.mp hw
        by_cases hxc : (x.userId == ({ p.2.wallet with updatedAt := now } : Wallet).userId) = true
        · rw [if_pos hxc] at hxe
          exact hxe ▸ hl p (List.mem_cons_self _ _)
        · rw [Bool.not_eq_true] at hxc
          rw [hxc] at hxe
          simp only [Bool.false_eq_true, if_false] at hxe
          exact hxe ▸ hws x hx
      · rcases List.mem_append.mp hw with hw | hw
        · exact hws w hw
        · simp only [List.mem_singleton] at hw
          exact hw ▸ hl p (List.mem_cons_self _ _)
    · exact hws w hw

/-- Every wallet `SaveAll` leaves behind is either an untouched stored row
or a stamped book entry. -/
theorem saveAll_pred (P : Wallet → Prop) (wb : WalletBook) (ws : List Wallet) (now : Int)
    (hws : ∀ w ∈ ws, P w)
    (hwb : ∀ p ∈ wb.entries, P ({ p.2.wallet with updatedAt := now })) :
    ∀ w ∈ wb.saveAll ws now, P w :=
  saveAll_pred_aux P now wb.entries ws hws hwb

theorem foldl_saveStep_find_other (now : Int) :
    ∀ (l : List (Int × WalletEntry)) (ws : List Wallet) (uid : Int),
      (∀ p ∈ l, p.1 ≠ uid ∧ p.2.wallet.userId = p.1) →
      (l.foldl (saveStep now) ws).find? (fun x => x.userId == uid) =
        ws.find? (fun x => x.userId == uid) := by
  intro l
  induction l with
  | nil => intro ws uid _; rfl
  | cons p rest ih =>
    intro ws uid hl
    obtain ⟨hne, hkey⟩ := hl p (List.mem_cons_self _ _)
    simp only [List.foldl_cons]
    rw [ih (saveStep now ws p) uid (fun q hq => hl q (List.mem_cons_of_mem _ hq)),
      saveStep_find_other now ws p uid hne hkey]

theorem find?_split {α : Type} (l : List α) (p : α → Bool) {a : α}
    (h : l.find? p = some a) :
    ∃ l1 l2, l = l1 ++ a :: l2 ∧ ∀ x ∈ l1, p x = false := by
  induction l with
  | nil => simp at h
  | cons x rest ih =>
    by_cases hx : p x = true
    · simp only [List.find?_cons, hx] at h
      simp only [Option.some.injEq] at h
      exact ⟨[], rest, by simp [h], by simp⟩
    · rw [Bool.not_eq_true] at hx
      simp only [List.find?_cons, hx] at h
      obtain ⟨l1, l2, heq, hall⟩ := ih h
      refine ⟨x :: l1, l2, by simp [heq], ?_⟩
      intro y hy
      rcases List.mem_cons.mp hy with rfl | hy
      · exact hx
      · exact hall y hy

/-- For a user with no stored row, `SaveAll` leaves exactly the stamped
book entry as their unique row. -/
theorem saveAll_find_new (wb : WalletBook) (ws0 : List Wallet) (now : Int) (uid : Int)
    (hinv : WBinv ws0 wb) {e : WalletEntry}
    (hfind : bookFind wb uid = some e)
    (horig : origWallet ws0 uid = none) :
    (wb.saveAll ws0 now).find? (fun x => x.userId == uid) =
      some ({ e.wallet with updatedAt := now }) := by
  unfold bookFind at hfind
  cases hfound : wb.entries.find? (fun p => p.1 == uid) with
  | none => simp [hfound] at hfind
  | some p0 =>
    rw [hfound] at hfind
    simp only [Option.map_some', Option.some.injEq] at hfind
    subst hfind
    have hp0key : p0.1 = uid := beq_iff_eq.mp (by
      have := List.find?_some hfound
      exact this)
    obtain ⟨l1, l2, heq, hall⟩ := find?_split wb.entries _ hfound
    obtain ⟨hp0w, hp0ex, hp0d⟩ := hinv.2 p0 (heq ▸ (by simp : p0 ∈ l1 ++ p0 :: l2))
    have hnd := hinv.1
    rw [heq] at hnd
    simp only [List.map_append, List.map_cons, List.nodup_append] at hnd
    unfold WalletBook.saveAll
    rw [heq, List.foldl_append, List.foldl_cons]
    -- after the prefix, uid still has no row
    have hpre : (l1.foldl (saveStep now) ws0).find? (fun x => x.userId == uid) = none := by
      rw [foldl_saveStep_find_other now l1 ws0 uid ?hl]
      · unfold origWallet at horig; exact horig
      case hl =>
        intro q hq
        refine ⟨?_, (hinv.2 q (heq ▸ List.mem_append_left _ hq)).1⟩
        intro hqe
        have := hall q hq
        simp [hqe] at this
    -- the entry's own step appends its stamped wallet
    have hex : p0.2.existsRow = false := by
      rw [hp0ex, hp0key, horig]; rfl
    have hstep : saveStep now (l1.foldl (saveStep now) ws0) p0 =
        l1.foldl (saveStep now) ws0 ++ [{ p0.2.wallet with updatedAt := now }] := by
      unfold saveStep
      rw [if_pos hp0d, hex]
      simp
    rw [hstep]
    rw [foldl_saveStep_find_other now l2 _ uid ?hl2]
    · rw [List.find?_append, hpre]
      have hc : (({ p0.2.wallet with updatedAt := now } : Wallet).userId == uid) = true := by
        simp [hp0w, hp0key]
      simp [hc]
    case hl2 =>
      intro q hq
      refine ⟨?_, (hinv.2 q (heq ▸ List.mem_append_right _ (List.mem_cons_of_mem _ hq))).1⟩
      intro hqe
      have hm : q.1 ∈ List.map (fun x => x.1) l2 := List.mem_map_of_mem _ hq
      rw [hqe, ← hp0key] at hm
      exact (List.nodup_cons.mp hnd.2.1).1 hm

/-- A `saveStep` never erases a user id from the table. -/
theorem saveStep_exists_mono (now : Int) (ws : List Wallet) (p : Int × WalletEntry)
    (uid : Int) (h : ∃ w ∈ ws, w.userId = uid) :
    ∃ w ∈ saveStep now ws p, w.userId = uid := by
  obtain ⟨w, hw, hwid⟩ := h
  unfold saveStep
  split
  · split
    · by_cases hc : (w.userId == ({ p.2.wallet with updatedAt := now } : Wallet).userId) = true
      · refine ⟨{ p.2.wallet with updatedAt := now }, List.mem_map.mpr ⟨w, hw, by rw [if_pos hc]⟩, ?_⟩
        rw [← beq_iff_eq.mp hc, hwid]
      · rw [Bool.not_eq_true] at hc
        exact ⟨w, List.mem_map.mpr ⟨w, hw, by rw [hc]; simp⟩, hwid⟩
    · exact ⟨w, List.mem_append_left _ hw, hwid⟩
  · exact ⟨w, hw, hwid⟩

theorem foldl_saveStep_exists_mono (now : Int) :
    ∀ (l : List (Int × WalletEntry)) (ws : List Wallet) (uid : Int),
      (∃ w ∈ ws, w.userId = uid) →
      ∃ w ∈ l.foldl (saveStep now) ws, w.userId = uid := by
  intro l
  induction l with
  | nil => intro ws uid h; simpa using h
  | cons p rest ih =>
    intro ws uid h
    simp only [List.foldl_cons]
    exact ih (saveStep now ws p) uid (saveStep_exists_mono now ws p uid h)

/-- Every cached wallet ends up as a row of the saved table. -/
theorem saveAll_exists_key (wb : WalletBook) (ws0 : List Wallet) (now : Int)
    (hinv : WBinv ws0 wb) :
    ∀ p ∈ wb.entries, ∃ w ∈ wb.saveAll ws0 now, w.userId = p.1 := by
  intro p hp
  obtain ⟨hkey, hex, hdirty⟩ := hinv.2 p hp
  unfold WalletBook.saveAll
  cases horig : origWallet ws0 p.1 with
  | some w0 =>
    have : w0 ∈ ws0 ∧ w0.userId = p.1 := by
      have hm := List.mem_of_find?_eq_some horig
      have hp := List.find?_some horig
      exact ⟨hm, beq_iff_eq.mp hp⟩
    exact foldl_saveStep_exists_mono now wb.entries ws0 p.1 ⟨w0, this.1, this.2⟩
  | none =>
    obtain ⟨l1, l2, heq⟩ := List.append_of_mem hp
    rw [heq, List.foldl_append, List.foldl_cons]
    refine foldl_saveStep_exists_mono now l2 _ p.1 ?_
    have hexf : p.2.existsRow = false := by rw [hex, horig]; rfl
    unfold saveStep
    rw [if_pos hdirty, hexf]
    simp only [Bool.false_eq_true, if_false]
    exact ⟨{ p.2.wallet with updatedAt := now }, List.mem_append_right _ (by simp), by simp [hkey]⟩

/-! ### Rake bounds -/

theorem clampRake_bounds (value win cap : Int) (hw : 0 < win) :
    0 ≤ clampRake value win cap ∧ clampRake value win cap ≤ win := by
  unfold clampRake
  dsimp only
  split_ifs <;> omega

theorem ladderRake_bounds (win : Int) (hw : 0 < win) :
    ∀ steps : List (Int × Int × Rat × Int),
      0 ≤ calculateRake.ladderRake steps win ∧ calculateRake.ladderRake steps win ≤ win := by
  intro steps
  induction steps with
  | nil => unfold calculateRake.ladderRake; omega
  | cons s rest ih =>
    obtain ⟨mn, mx, ratio, value⟩ := s
    unfold calculateRake.ladderRake
    split
    · split
      · exact clampRake_bounds _ _ _ hw
      · split
        · exact clampRake_bounds _ _ _ hw
        · exact ih
    · exact ih

/-- `calculateRake` is a commission between 0 and the gross win. -/
theorem calculateRake_bounds (rule : Option RakeConfig) (win : Int) (hw : 0 < win) :
    0 ≤ calculateRake rule win ∧ calculateRake rule win ≤ win := by
  have hne : ¬ win ≤ 0 := by omega
  cases rule with
  | none => simp only [calculateRake]; omega
  | some cfg =>
    cases cfg with
    | ratio ratio cap =>
      simp only [calculateRake, if_neg hne]
      exact clampRake_bounds _ _ _ hw
    | fixed amount =>
      simp only [calculateRake, if_neg hne]
      exact clampRake_bounds _ _ _ hw
    | ladder steps =>
      simp only [calculateRake, if_neg hne]
      exact ladderRake_bounds win hw steps
    | invalid =>
      simp only [calculateRake, if_neg hne]
      omega

/-! ### Agent distribution accounting -/

/-- Total amount across agent-share records. -/
def recordsAmount (l : List AgentShareRecord) : Int := (l.map (·.amount)).sum

theorem ensure_fst_userId (wb : WalletBook) (ws0 : List Wallet) (uid : Int)
    (h : WBinv ws0 wb) : ((wb.ensure ws0 uid).1).userId = uid := by
  rw [ensure_fst]
  cases hbf : bookFind wb uid with
  | some e =>
    unfold bookFind at hbf
    cases hq : wb.entries.find? (fun p => p.1 == uid) with
    | none => rw [hq] at hbf; simp at hbf
    | some q =>
      rw [hq] at hbf
      simp only [Option.map_some', Option.some.injEq] at hbf
      have hq0 := List.find?_some hq
      have hq1 : q.1 = uid := beq_iff_eq.mp hq0
      have hqm := (h.2 q (List.mem_of_find?_eq_some hq)).1
      rw [← hbf, hqm, hq1]
  | none =>
    cases horig : origWallet ws0 uid with
    | some w =>
      have hwid : w.userId = uid := by
        unfold origWallet at horig
        have hw0 := List.find?_some horig
        exact beq_iff_eq.mp hw0
      simpa using hwid
    | none => simp [horig]

theorem agentLoop_cons_skip (ws0 : List Wallet) (ratios : List (Nat × Rat))
    (winnerId rake matchId sceneId now agentId : Int) (rest : List Int) (idx : Nat)
    (acc : AgentLoopAcc)
    (h : ratioFor ratios (idx + 1) ≤ 0 ∨
      goRound ((rake : Rat) * ratioFor ratios (idx + 1)) ≤ 0 ∨
      (if goRound ((rake : Rat) * ratioFor ratios (idx + 1)) > acc.remaining then acc.remaining
       else goRound ((rake : Rat) * ratioFor ratios (idx + 1))) = 0) :
    agentLoop ws0 ratios winnerId rake matchId sceneId now (agentId :: rest) idx acc =
      agentLoop ws0 ratios winnerId rake matchId sceneId now rest (idx + 1) acc := by
  conv_lhs => rw [agentLoop]
  dsimp only
  by_cases h1 : ratioFor ratios (idx + 1) ≤ 0
  · rw [if_pos h1]
  · rw [if_neg h1]
    by_cases h2 : goRound ((rake : Rat) * ratioFor ratios (idx + 1)) ≤ 0
    · rw [if_pos h2]
    · rw [if_neg h2]
      have h3 := (h.resolve_left h1).resolve_left h2
      rw [if_pos h3]

theorem agentLoop_cons_go (ws0 : List Wallet) (ratios : List (Nat × Rat))
    (winnerId rake matchId sceneId now agentId : Int) (rest : List Int) (idx : Nat)
    (acc : AgentLoopAcc)
    (h1 : ¬ ratioFor ratios (idx + 1) ≤ 0)
    (h2 : ¬ goRound ((rake : Rat) * ratioFor ratios (idx + 1)) ≤ 0)
    (h3 : ¬ (if goRound ((rake : Rat) * ratioFor ratios (idx + 1)) > acc.remaining
             then acc.remaining
             else goRound ((rake : Rat) * ratioFor ratios (idx + 1))) = 0) :
    agentLoop ws0 ratios winnerId rake matchId sceneId now (agentId :: rest) idx acc =
      (let share := if goRound ((rake : Rat) * ratioFor ratios (idx + 1)) > acc.remaining
                    then acc.remaining
                    else goRound ((rake : Rat) * ratioFor ratios (idx + 1))
       let got := (acc.book.ensure ws0 agentId).1
       let credited : Wallet :=
         { got with
             balanceAvailable := got.balanceAvailable + share
             balanceTotal := got.balanceTotal + share
             totalWin := got.totalWin + share }
       agentLoop ws0 ratios winnerId rake matchId sceneId now rest (idx + 1)
         { remaining := acc.remaining - share
           totalAgentShare := acc.totalAgentShare + share
           records := acc.records ++ [⟨agentId, idx + 1, share⟩]
           billingLogs := acc.billingLogs ++
             [⟨agentId, "agent_share", share, credited.balanceAvailable, some matchId, now⟩]
           profitLogs := acc.profitLogs ++
             [⟨agentId, winnerId, matchId, idx + 1, rake, share, now⟩]
           book := ((acc.book.ensure ws0 agentId).2).store agentId credited }) := by
  conv_lhs => rw [agentLoop]
  dsimp only
  rw [if_neg h1, if_neg h2, if_neg h3]

theorem agentLoop_spec (ws0 : List Wallet) (ratios : List (Nat × Rat))
    (winnerId rake matchId sceneId now : Int) :
    ∀ (chain : List Int) (idx : Nat) (acc : AgentLoopAcc),
      WBinv ws0 acc.book → 0 ≤ acc.remaining →
      let acc' := agentLoop ws0 ratios winnerId rake matchId sceneId now chain idx acc
      WBinv ws0 acc'.book ∧
      0 ≤ acc'.remaining ∧
      acc'.remaining + acc'.totalAgentShare = acc.remaining + acc.totalAgentShare ∧
      acc.totalAgentShare ≤ acc'.totalAgentShare ∧
      bookExcess ws0 acc'.book =
        bookExcess ws0 acc.book + (acc'.totalAgentShare - acc.totalAgentShare) ∧
      recordsAmount acc'.records =
        recordsAmount acc.records + (acc'.totalAgentShare - acc.totalAgentShare) := by
  intro chain
  induction chain with
  | nil =>
    intro idx acc hinv hrem
    dsimp only
    simp only [agentLoop]
    refine ⟨hinv, hrem, ?_, ?_, ?_, ?_⟩ <;> first | trivial | omega
  | cons agentId rest ih =>
    intro idx acc hinv hrem
    dsimp only
    by_cases hskip : ratioFor ratios (idx + 1) ≤ 0 ∨
        goRound ((rake : Rat) * ratioFor ratios (idx + 1)) ≤ 0 ∨
        (if goRound ((rake : Rat) * ratioFor ratios (idx + 1)) > acc.remaining then acc.remaining
         else goRound ((rake : Rat) * ratioFor ratios (idx + 1))) = 0
    · rw [agentLoop_cons_skip ws0 ratios winnerId rake matchId sceneId now agentId rest idx
        acc hskip]
      exact ih (idx + 1) acc hinv hrem
    · rw [not_or, not_or] at hskip
      obtain ⟨h1, h2, h3⟩ := hskip
      rw [agentLoop_cons_go ws0 ratios winnerId rake matchId sceneId now agentId rest idx
        acc h1 h2 h3]
      dsimp only
      set share0 := goRound ((rake : Rat) * ratioFor ratios (idx + 1)) with hs0
      set share := if share0 > acc.remaining then acc.remaining else share0 with hsh
      have hpos : 0 < share ∧ share ≤ acc.remaining := by
        by_cases hgt : share0 > acc.remaining
        · rw [hsh, if_pos hgt] at h3 ⊢
          omega
        · rw [hsh, if_neg hgt] at h3 ⊢
          omega
      set got := (acc.book.ensure ws0 agentId).1 with hgot
      set book1 := (acc.book.ensure ws0 agentId).2 with hbook1
      set credited : Wallet :=
        { got with
            balanceAvailable := got.balanceAvailable + share
            balanceTotal := got.balanceTotal + share
            totalWin := got.totalWin + share } with hcred
      have hinv1 : WBinv ws0 book1 := by
        rw [hbook1]; exact ensure_keeps_WBinv acc.book ws0 agentId hinv
      have hexc1 : bookExcess ws0 book1 = bookExcess ws0 acc.book := by
        rw [hbook1]; exact ensure_keeps_excess acc.book ws0 agentId
      have hgotid : got.userId = agentId := by
        rw [hgot]; exact ensure_fst_userId acc.book ws0 agentId hinv
      have hfind1 : bookFind book1 agentId ≠ none := by
        cases hbf : bookFind acc.book agentId with
        | some e => rw [hbook1, ensure_bookFind_found acc.book ws0 agentId hbf]; simp
        | none => rw [hbook1, ensure_bookFind_missing acc.book ws0 agentId hbf]; simp
      obtain ⟨e1, he1⟩ := Option.ne_none_iff_exists'.mp hfind1
      have hgotw : got.balanceAvailable = e1.wallet.balanceAvailable := by
        rw [hgot, ensure_fst]
        cases hbf : bookFind acc.book agentId with
        | some e =>
          rw [hbook1, ensure_bookFind_found acc.book ws0 agentId hbf] at he1
          simp only [Option.some.injEq] at he1
          rw [← he1]
        | none =>
          rw [hbook1, ensure_bookFind_missing acc.book ws0 agentId hbf] at he1
          simp only [Option.some.injEq] at he1
          rw [← he1]
      have hcredid : credited.userId = agentId := by
        rw [hcred]; exact hgotid
      have hav : credited.balanceAvailable = got.balanceAvailable + share := by
        rw [hcred]
      have hinv2 : WBinv ws0 (book1.store agentId credited) :=
        store_keeps_WBinv book1 ws0 agentId credited hcredid hinv1
      have hexc2 : bookExcess ws0 (book1.store agentId credited) =
          bookExcess ws0 book1 + share := by
        rw [store_excess book1 ws0 agentId credited hinv1.1 he1, hav, hgotw]
        ring
      have hbig := ih (idx + 1)
        { remaining := acc.remaining - share
          totalAgentShare := acc.totalAgentShare + share
          records := acc.records ++ [⟨agentId, idx + 1, share⟩]
          billingLogs := acc.billingLogs ++
            [⟨agentId, "agent_share", share, credited.balanceAvailable, some matchId, now⟩]
          profitLogs := acc.profitLogs ++
            [⟨agentId, winnerId, matchId, idx + 1, rake, share, now⟩]
          book := book1.store agentId credited }
        hinv2 (by dsimp only; omega)
      obtain ⟨a1, a2, a3, a4, a5, a6⟩ := hbig
      dsimp only at a1 a2 a3 a4 a5 a6
      have happ : recordsAmount (acc.records ++ [⟨agentId, idx + 1, share⟩]) =
          recordsAmount acc.records + share := by
        simp [recordsAmount]
      refine ⟨a1, a2, by omega, by omega, ?_, ?_⟩
      · rw [a5, hexc2, hexc1]
        omega
      · rw [a6, happ]
        omega

theorem distributeAgentShare_spec (db : SettleDB) (wb : WalletBook) (winnerId rake : Int)
    (agentRule : Option AgentRuleRow) (matchRow : MatchRow) (scene : SceneRow)
    (now : Int) (agents : List AgentRow)
    (hinv : WBinv db.wallets wb) (hrake : 0 < rake) :
    let out := distributeAgentShare db wb winnerId rake agentRule matchRow scene now agents
    WBinv db.wallets out.book ∧
    0 ≤ out.platformShare ∧
    out.platformShare + recordsAmount out.records = rake ∧
    bookExcess db.wallets out.book = bookExcess db.wallets wb + recordsAmount out.records := by
  dsimp only
  unfold distributeAgentShare
  rw [if_neg (by omega : ¬ rake ≤ 0)]
  cases agentRule with
  | none =>
    refine ⟨hinv, ?_, ?_, ?_⟩
    · show (0 : Int) ≤ rake
      omega
    · show rake + recordsAmount [] = rake
      simp [recordsAmount]
    · show bookExcess db.wallets wb = bookExcess db.wallets wb + recordsAmount []
      simp [recordsAmount]
  | some rule =>
    dsimp only
    by_cases hchain : resolveAgentChain
        ((db.users.find? (fun u => u.id == winnerId)).getD ⟨0, none, []⟩) = []
    · rw [if_pos hchain]
      refine ⟨hinv, ?_, ?_, ?_⟩
      · show (0 : Int) ≤ rake
        omega
      · show rake + recordsAmount [] = rake
        simp [recordsAmount]
      · show bookExcess db.wallets wb = bookExcess db.wallets wb + recordsAmount []
        simp [recordsAmount]
    · rw [if_neg hchain]
      dsimp only
      have h := agentLoop_spec db.wallets rule.levelRatios winnerId rake matchRow.id scene.id
        now (resolveAgentChain
          ((db.users.find? (fun u => u.id == winnerId)).getD ⟨0, none, []⟩)) 0
        ⟨rake, 0, [], [], [], wb⟩ hinv (by dsimp only; omega)
      obtain ⟨a1, a2, a3, a4, a5, a6⟩ := h
      dsimp only at a1 a2 a3 a4 a5 a6
      set acc := agentLoop db.wallets rule.levelRatios winnerId rake matchRow.id scene.id now
        (resolveAgentChain ((db.users.find? (fun u => u.id == winnerId)).getD ⟨0, none, []⟩)) 0
        ⟨rake, 0, [], [], [], wb⟩ with hacc
      have h0 : recordsAmount ([] : List AgentShareRecord) = 0 := rfl
      have hps : ¬ rake - acc.totalAgentShare < 0 := by omega
      rw [if_neg hps]
      exact ⟨a1, by omega, by omega, by omega⟩

/-! ### `ensure` followed by `store` -/

theorem ensure_store_WBinv (wb : WalletBook) (ws0 : List Wallet) (uid : Int) (w' : Wallet)
    (hinv : WBinv ws0 wb) (hw' : w'.userId = uid) :
    WBinv ws0 (((wb.ensure ws0 uid).2).store uid w') :=
  store_keeps_WBinv _ ws0 uid w' hw' (ensure_keeps_WBinv wb ws0 uid hinv)

theorem ensure_store_excess (wb : WalletBook) (ws0 : List Wallet) (uid : Int) (w' : Wallet)
    (hinv : WBinv ws0 wb) :
    bookExcess ws0 (((wb.ensure ws0 uid).2).store uid w') =
      bookExcess ws0 wb +
        (w'.balanceAvailable - ((wb.ensure ws0 uid).1).balanceAvailable) := by
  have hinv1 := ensure_keeps_WBinv wb ws0 uid hinv
  cases hbf : bookFind wb uid with
  | some e =>
    have he1 := ensure_bookFind_found wb ws0 uid hbf
    rw [store_excess _ ws0 uid w' hinv1.1 he1, ensure_keeps_excess wb ws0 uid, ensure_fst, hbf]
  | none =>
    have he1 := ensure_bookFind_missing wb ws0 uid hbf
    rw [store_excess _ ws0 uid w' hinv1.1 he1, ensure_keeps_excess wb ws0 uid, ensure_fst, hbf]

theorem ensure_store_find_same (wb : WalletBook) (ws0 : List Wallet) (uid : Int) (w' : Wallet)
    (hinv : WBinv ws0 wb) :
    bookFind (((wb.ensure ws0 uid).2).store uid w') uid =
      some ⟨w', (origWallet ws0 uid).isSome, true⟩ := by
  cases hbf : bookFind wb uid with
  | some e =>
    have hex : e.existsRow = (origWallet ws0 uid).isSome := by
      unfold bookFind at hbf
      cases hq : wb.entries.find? (fun p => p.1 == uid) with
      | none => rw [hq] at hbf; simp at hbf
      | some q =>
        rw [hq] at hbf
        simp only [Option.map_some', Option.some.injEq] at hbf
        have hq0 := List.find?_some hq
        have hq1 : q.1 = uid := beq_iff_eq.mp hq0
        have := (hinv.2 q (List.mem_of_find?_eq_some hq)).2.1
        rw [← hbf, this, hq1]
    rw [store_bookFind_same _ uid w' (ensure_bookFind_found wb ws0 uid hbf)]
    simp [hex]
  | none =>
    rw [store_bookFind_same _ uid w' (ensure_bookFind_missing wb ws0 uid hbf)]

theorem ensure_store_find_other (wb : WalletBook) (ws0 : List Wallet) (uid uid' : Int)
    (w' : Wallet) (hne : uid' ≠ uid) :
    bookFind (((wb.ensure ws0 uid).2).store uid w') uid' = bookFind wb uid' := by
  rw [store_bookFind_other _ uid uid' w' hne, ensure_bookFind_other wb ws0 uid uid' hne]

/-! ### `processResult` path equations -/

theorem processResult_loser (db : SettleDB) (rakeRule : Option RakeConfig)
    (agentRule : Option AgentRuleRow) (matchRow : MatchRow) (scene : SceneRow)
    (now : Int) (acc : SettleAcc) (res : PlayerResult)
    (h : ¬ res.netPoints > 0) :
    processResult db rakeRule agentRule matchRow scene now acc res =
      (let wallet := (acc.book.ensure db.wallets res.userId).1
       let wallet' :=
         { wallet with
             balanceAvailable := wallet.balanceAvailable + res.netPoints
             balanceTotal := wallet.balanceTotal + res.netPoints
             totalConsume := wallet.totalConsume + (-res.netPoints) }
       { acc with
           book := ((acc.book.ensure db.wallets res.userId).2).store res.userId wallet'
           billingLogs := acc.billingLogs ++
             [⟨res.userId, "lose", res.netPoints, wallet'.balanceAvailable,
               some matchRow.id, now⟩]
           resultRecords := acc.resultRecords ++ [⟨res.userId, res.netPoints, 0⟩] }) := by
  unfold processResult
  dsimp only
  rw [if_neg h]

theorem processResult_win_norake (db : SettleDB) (rakeRule : Option RakeConfig)
    (agentRule : Option AgentRuleRow) (matchRow : MatchRow) (scene : SceneRow)
    (now : Int) (acc : SettleAcc) (res : PlayerResult)
    (h : res.netPoints > 0) (hr : ¬ calculateRake rakeRule res.netPoints > 0) :
    processResult db rakeRule agentRule matchRow scene now acc res =
      (let rake := calculateRake rakeRule res.netPoints
       let netWin := res.netPoints - rake
       let wallet := (acc.book.ensure db.wallets res.userId).1
       let wallet' :=
         { wallet with
             balanceAvailable := wallet.balanceAvailable + netWin
             balanceTotal := wallet.balanceTotal + netWin
             totalWin := wallet.totalWin + netWin
             totalRake := wallet.totalRake + rake }
       { acc with
           book := ((acc.book.ensure db.wallets res.userId).2).store res.userId wallet'
           billingLogs := acc.billingLogs ++
             [⟨res.userId, "win", netWin, wallet'.balanceAvailable, some matchRow.id, now⟩]
           resultRecords := acc.resultRecords ++ [⟨res.userId, netWin, rake⟩]
           totalRake := acc.totalRake + rake }) := by
  unfold processResult
  dsimp only
  rw [if_pos h, if_neg hr]

theorem processResult_win_rake (db : SettleDB) (rakeRule : Option RakeConfig)
    (agentRule : Option AgentRuleRow) (matchRow : MatchRow) (scene : SceneRow)
    (now : Int) (acc : SettleAcc) (res : PlayerResult)
    (h : res.netPoints > 0) (hr : calculateRake rakeRule res.netPoints > 0) :
    processResult db rakeRule agentRule matchRow scene now acc res =
      (let rake := calculateRake rakeRule res.netPoints
       let netWin := res.netPoints - rake
       let wallet := (acc.book.ensure db.wallets res.userId).1
       let wallet' :=
         { wallet with
             balanceAvailable := wallet.balanceAvailable + netWin
             balanceTotal := wallet.balanceTotal + netWin
             totalWin := wallet.totalWin + netWin
             totalRake := wallet.totalRake + rake }
       let book := ((acc.book.ensure db.wallets res.userId).2).store res.userId wallet'
       let dist := distributeAgentShare db book res.userId rake agentRule matchRow scene now
         acc.agents
       { book := dist.book
         billingLogs :=
           if dist.platformShare > 0 then
             (((acc.billingLogs ++
                 [⟨res.userId, "win", netWin, wallet'.balanceAvailable,
                   some matchRow.id, now⟩]) ++
                [⟨res.userId, "rake", -rake, wallet'.balanceAvailable,
                  some matchRow.id, now⟩]) ++
               dist.billingLogs) ++
             [⟨0, "platform_income", dist.platformShare, 0, some matchRow.id, now⟩]
           else
             ((acc.billingLogs ++
                 [⟨res.userId, "win", netWin, wallet'.balanceAvailable,
                   some matchRow.id, now⟩]) ++
                [⟨res.userId, "rake", -rake, wallet'.balanceAvailable,
                  some matchRow.id, now⟩]) ++
               dist.billingLogs
         agentLogs := acc.agentLogs ++ dist.profitLogs
         resultRecords := acc.resultRecords ++ [⟨res.userId, netWin, rake⟩]
         agentShareRecords := acc.agentShareRecords ++ dist.records
         totalRake := acc.totalRake + rake
         platformIncome := acc.platformIncome +
           (if dist.platformShare > 0 then dist.platformShare else 0)
         agents := dist.agents }) := by
  unfold processResult
  dsimp only
  rw [if_pos h, if_pos hr]

/-! ### `processResult` conservation -/

theorem recordsAmount_append (a b : List AgentShareRecord) :
    recordsAmount (a ++ b) = recordsAmount a + recordsAmount b := by
  simp [recordsAmount]

theorem processResult_step (db : SettleDB) (rakeRule : Option RakeConfig)
    (agentRule : Option AgentRuleRow) (matchRow : MatchRow) (scene : SceneRow)
    (now : Int) (acc : SettleAcc) (res : PlayerResult)
    (hinv : WBinv db.wallets acc.book) :
    let acc' := processResult db rakeRule agentRule matchRow scene now acc res
    WBinv db.wallets acc'.book ∧
    bookExcess db.wallets acc'.book + acc'.platformIncome =
      bookExcess db.wallets acc.book + acc.platformIncome + res.netPoints ∧
    acc'.totalRake + acc.platformIncome + recordsAmount acc.agentShareRecords =
      acc.totalRake + acc'.platformIncome + recordsAmount acc'.agentShareRecords := by
  dsimp only
  have hgotid : ((acc.book.ensure db.wallets res.userId).1).userId = res.userId :=
    ensure_fst_userId acc.book db.wallets res.userId hinv
  by_cases h : res.netPoints > 0
  · by_cases hr : calculateRake rakeRule res.netPoints > 0
    · rw [processResult_win_rake db rakeRule agentRule matchRow scene now acc res h hr]
      dsimp only
      set rake := calculateRake rakeRule res.netPoints with hrk
      set got := (acc.book.ensure db.wallets res.userId).1 with hgot
      set wallet' : Wallet :=
        { got with
            balanceAvailable := got.balanceAvailable + (res.netPoints - rake)
            balanceTotal := got.balanceTotal + (res.netPoints - rake)
            totalWin := got.totalWin + (res.netPoints - rake)
            totalRake := got.totalRake + rake } with hw'
      have hwid : wallet'.userId = res.userId := by rw [hw']; exact hgotid
      have hinvb : WBinv db.wallets
          (((acc.book.ensure db.wallets res.userId).2).store res.userId wallet') :=
        ensure_store_WBinv acc.book db.wallets res.userId wallet' hinv hwid
      have hexcb : bookExcess db.wallets
            (((acc.book.ensure db.wallets res.userId).2).store res.userId wallet') =
          bookExcess db.wallets acc.book + (res.netPoints - rake) := by
        rw [ensure_store_excess acc.book db.wallets res.userId wallet' hinv]
        have hav : wallet'.balanceAvailable = got.balanceAvailable + (res.netPoints - rake) := by
          rw [hw']
        rw [hav, ← hgot]
        ring
      have hd := distributeAgentShare_spec db
        (((acc.book.ensure db.wallets res.userId).2).store res.userId wallet')
        res.userId rake agentRule matchRow scene now acc.agents hinvb hr
      obtain ⟨d1, d2, d3, d4⟩ := hd
      try dsimp only at d1 d2 d3 d4
      set dist := distributeAgentShare db
        (((acc.book.ensure db.wallets res.userId).2).store res.userId wallet')
        res.userId rake agentRule matchRow scene now acc.agents with hdist
      have hite : (if dist.platformShare > 0 then dist.platformShare else 0) =
          dist.platformShare := by
        split <;> omega
      refine ⟨d1, ?_, ?_⟩
      · rw [hite, d4, hexcb]
        omega
      · rw [hite, recordsAmount_append]
        omega
    · rw [processResult_win_norake db rakeRule agentRule matchRow scene now acc res h hr]
      try dsimp only
      have hrk0 : calculateRake rakeRule res.netPoints = 0 := by
        have := (calculateRake_bounds rakeRule res.netPoints h).1
        omega
      set got := (acc.book.ensure db.wallets res.userId).1 with hgot
      set wallet' : Wallet :=
        { got with
            balanceAvailable :=
              got.balanceAvailable + (res.netPoints - calculateRake rakeRule res.netPoints)
            balanceTotal :=
              got.balanceTotal + (res.netPoints - calculateRake rakeRule res.netPoints)
            totalWin := got.totalWin + (res.netPoints - calculateRake rakeRule res.netPoints)
            totalRake := got.totalRake + calculateRake rakeRule res.netPoints } with hw'
      have hwid : wallet'.userId = res.userId := by rw [hw']; exact hgotid
      refine ⟨ensure_store_WBinv acc.book db.wallets res.userId wallet' hinv hwid, ?_, ?_⟩
      · rw [ensure_store_excess acc.book db.wallets res.userId wallet' hinv]
        have hav : wallet'.balanceAvailable =
            got.balanceAvailable + (res.netPoints - calculateRake rakeRule res.netPoints) := by
          rw [hw']
        rw [hav, ← hgot]
        omega
      · omega
  · rw [processResult_loser db rakeRule agentRule matchRow scene now acc res h]
    dsimp only
    set got := (acc.book.ensure db.wallets res.userId).1 with hgot
    set wallet' : Wallet :=
      { got with
          balanceAvailable := got.balanceAvailable + res.netPoints
          balanceTotal := got.balanceTotal + res.netPoints
          totalConsume := got.totalConsume + (-res.netPoints) } with hw'
    have hwid : wallet'.userId = res.userId := by rw [hw']; exact hgotid
    refine ⟨ensure_store_WBinv acc.book db.wallets res.userId wallet' hinv hwid, ?_, ?_⟩
    · rw [ensure_store_excess acc.book db.wallets res.userId wallet' hinv]
      have hav : wallet'.balanceAvailable = got.balanceAvailable + res.netPoints := by
        rw [hw']
      rw [hav, ← hgot]
      omega
    · omega

theorem processResult_fold (db : SettleDB) (rakeRule : Option RakeConfig)
    (agentRule : Option AgentRuleRow) (matchRow : MatchRow) (scene : SceneRow) (now : Int) :
    ∀ (results : List PlayerResult) (acc : SettleAcc),
      WBinv db.wallets acc.book →
      let acc' := results.foldl (processResult db rakeRule agentRule matchRow scene now) acc
      WBinv db.wallets acc'.book ∧
      bookExcess db.wallets acc'.book + acc'.platformIncome =
        bookExcess db.wallets acc.book + acc.platformIncome +
          (results.map (·.netPoints)).sum ∧
      acc'.totalRake + acc.platformIncome + recordsAmount acc.agentShareRecords =
        acc.totalRake + acc'.platformIncome + recordsAmount acc'.agentShareRecords := by
  intro results
  induction results with
  | nil =>
    intro acc hinv
    dsimp only
    simp only [List.foldl_nil, List.map_nil, List.sum_nil]
    refine ⟨hinv, ?_, ?_⟩ <;> first | trivial | omega
  | cons res rest ih =>
    intro acc hinv
    dsimp only
    rw [List.foldl_cons]
    obtain ⟨s1, s2, s3⟩ := processResult_step db rakeRule agentRule matchRow scene now acc
      res hinv
    obtain ⟨f1, f2, f3⟩ := ih (processResult db rakeRule agentRule matchRow scene now acc res) s1
    refine ⟨f1, ?_, ?_⟩
    · rw [f2]
      simp only [List.map_cons, List.sum_cons]
      omega
    · omega

/-! ### Inverting a successful `settleMatch` -/

theorem settleMatch_ok_inv (db : SettleDB) (now : Int) (req : SettlementRequest)
    (db' : SettleDB) (h : settleMatch db now req = .ok db') :
    (req.results.map (·.netPoints)).sum = 0 ∧
    ¬(req.matchId = 0 ∨ req.results = []) ∧
    ¬(req.results.any (fun r => r.userId == 0) = true) ∧
    ∃ matchRow scene rakeRule,
      db.matchRows.find? (fun m => m.id == req.matchId) = some matchRow ∧
      matchRow.endedAt = none ∧
      db.scenes.find? (fun s => s.id == matchRow.sceneId) = some scene ∧
      db' = settleBuild db now req matchRow scene rakeRule := by
  unfold settleMatch at h
  split at h
  · exact Except.noConfusion h
  rename_i hv1
  split at h
  · exact Except.noConfusion h
  rename_i hv2
  split at h
  · exact Except.noConfusion h
  rename_i hsum
  split at h
  · exact Except.noConfusion h
  rename_i matchRow hm
  split at h
  · exact Except.noConfusion h
  rename_i hended
  split at h
  · exact Except.noConfusion h
  rename_i hscn
  split at h
  · exact Except.noConfusion h
  rename_i scene hs
  dsimp only at h
  split at h
  · exact Except.noConfusion h
  rename_i rakeRule hrr
  simp only [Except.ok.injEq] at h
  refine ⟨not_ne_iff.mp hsum, hv1, hv2,
    matchRow, scene, rakeRule, hm, ?_, hs, h.symm⟩
  exact Option.not_isSome_iff_eq_none.mp hended

theorem matchRows_map_find (rows : List MatchRow) (mid : Int) (matchRow matchRow' : MatchRow)
    (hm : rows.find? (fun m => m.id == mid) = some matchRow)
    (hid : matchRow'.id = matchRow.id) :
    (rows.map (fun m => if m.id == matchRow.id then matchRow' else m)).find?
        (fun m => m.id == mid) = some matchRow' := by
  have hkey : matchRow.id = mid := by
    have h0 := List.find?_some hm
    exact beq_iff_eq.mp h0
  have hp : ∀ x : MatchRow,
      ((if x.id == matchRow.id then matchRow' else x).id == mid) = (x.id == mid) := by
    intro x
    by_cases hx : x.id = matchRow.id
    · simp [hx, hid, hkey]
    · simp [hx]
  rw [find?_map_pres rows _ _ hp, hm]
  simp [hid, hkey]

/-- C1: an accepted settlement conserves money — the signed sum of all
wallet `balanceAvailable` deltas plus the recorded `platform_income` is
zero, and the recorded rake total splits exactly into the agent shares
plus `platform_income`. -/
theorem C1_settlement_conservation (db : SettleDB) (now : Int) (req : SettlementRequest)
    (hnd : (db.wallets.map (·.userId)).Nodup)
    (hok : (runSettle db now req).2 = none) :
    ∃ mr' summary,
      ((runSettle db now req).1.matchRows.find? (fun m => m.id == req.matchId)) = some mr' ∧
      mr'.rakeJson = some summary ∧
      availSum (runSettle db now req).1.wallets - availSum db.wallets + summary.platform = 0 ∧
      summary.total = summary.platform + recordsAmount summary.agents := by
  cases hrun : settleMatch db now req with
  | error e =>
    unfold runSettle at hok
    rw [hrun] at hok
    simp at hok
  | ok db' =>
    have hpair : runSettle db now req = (db', none) := by
      unfold runSettle
      rw [hrun]
    rw [hpair]
    dsimp only
    obtain ⟨hsum, hv1, hv2, matchRow, scene, rakeRule, hm, hended, hs, hdb'⟩ :=
      settleMatch_ok_inv db now req db' hrun
    subst hdb'
    unfold settleBuild
    dsimp only
    obtain ⟨f1, f2, f3⟩ := processResult_fold db rakeRule (loadAgentRule db.agentRules)
      matchRow scene now req.results ⟨⟨[]⟩, [], [], [], [], 0, 0, db.agents⟩
      (WBinv_nil db.wallets)
    dsimp only at f1 f2 f3
    set acc := req.results.foldl
      (processResult db rakeRule (loadAgentRule db.agentRules) matchRow scene now)
      ⟨⟨[]⟩, [], [], [], [], 0, 0, db.agents⟩ with hacc
    refine ⟨_, ⟨acc.totalRake, acc.platformIncome, acc.agentShareRecords⟩,
      matchRows_map_find db.matchRows req.matchId matchRow _ hm rfl, rfl, ?_, ?_⟩
    · rw [saveAll_sum acc.book db.wallets now f1 hnd]
      have hz : bookExcess db.wallets ⟨[]⟩ = 0 := rfl
      dsimp only
      rw [hsum] at f2
      omega
    · have hz : recordsAmount ([] : List AgentShareRecord) = 0 := rfl
      dsimp only
      omega

/-- C1 witness: scenario S4 (winner +400, 10% rake, agents 9002/9001). -/
theorem C1_settlement_conservation_witness :
    (exDb.wallets.map (·.userId)).Nodup ∧ (runSettle exDb 5 exReq).2 = none ∧
    ∃ mr' summary,
      ((runSettle exDb 5 exReq).1.matchRows.find? (fun m => m.id == exReq.matchId)) =
        some mr' ∧
      mr'.rakeJson = some summary ∧
      availSum (runSettle exDb 5 exReq).1.wallets - availSum exDb.wallets +
        summary.platform = 0 ∧
      summary.total = summary.platform + recordsAmount summary.agents :=
  ⟨by decide, by decide, C1_settlement_conservation exDb 5 exReq (by decide) (by decide)⟩

/-- C2: replaying the same settlement request against the committed state
is rejected by the `endedAt` idempotence gate with `matchAlreadySettled`,
and the rolled-back transaction leaves the state untouched. -/
theorem C2_settle_idempotent (db : SettleDB) (now now2 : Int) (req : SettlementRequest)
    (hok : (runSettle db now req).2 = none) :
    runSettle (runSettle db now req).1 now2 req =
      ((runSettle db now req).1, some .matchAlreadySettled) := by
  cases hrun : settleMatch db now req with
  | error e =>
    unfold runSettle at hok
    rw [hrun] at hok
    simp at hok
  | ok db' =>
    have hpair : runSettle db now req = (db', none) := by
      unfold runSettle
      rw [hrun]
    rw [hpair]
    dsimp only
    obtain ⟨hsum, hv1, hv2, matchRow, scene, rakeRule, hm, hended, hs, hdb'⟩ :=
      settleMatch_ok_inv db now req db' hrun
    have hsettle2 : settleMatch db' now2 req = .error .matchAlreadySettled := by
      subst hdb'
      unfold settleBuild
      dsimp only
      unfold settleMatch
      set acc := req.results.foldl
        (processResult db rakeRule (loadAgentRule db.agentRules) matchRow scene now)
        ⟨⟨[]⟩, [], [], [], [], 0, 0, db.agents⟩ with hacc
      rw [if_neg hv1, if_neg hv2, if_neg (not_ne_iff.mpr hsum),
        matchRows_map_find db.matchRows req.matchId matchRow
          { matchRow with
              resultJson := acc.resultRecords
              rakeJson := some ⟨acc.totalRake, acc.platformIncome, acc.agentShareRecords⟩
              endedAt := some now } hm rfl]
      dsimp only
      simp
    unfold runSettle
    rw [hsettle2]

/-- C2 witness: scenario S4 settled twice. -/
theorem C2_settle_idempotent_witness :
    (runSettle exDb 5 exReq).2 = none ∧
    runSettle (runSettle exDb 5 exReq).1 9 exReq =
      ((runSettle exDb 5 exReq).1, some .matchAlreadySettled) :=
  ⟨by decide, C2_settle_idempotent exDb 5 9 exReq (by decide)⟩

/-! ### Field non-negativity through a settlement -/

theorem origField_nonneg (f : Wallet → Int) (ws0 : List Wallet) (uid : Int)
    (hf : ∀ w ∈ ws0, 0 ≤ f w) : 0 ≤ origField f ws0 uid := by
  unfold origField
  cases horig : origWallet ws0 uid with
  | some w =>
    have hw : w ∈ ws0 := List.mem_of_find?_eq_some horig
    simpa using hf w hw
  | none => simp

theorem EntriesOK_anti (ws0 : List Wallet) (pend pend' : List PlayerResult) (wb : WalletBook)
    (hsub : ∀ r ∈ pend', r ∈ pend) (h : EntriesOK ws0 pend wb) : EntriesOK ws0 pend' wb := by
  intro p hp
  obtain ⟨h1, h2, h3, h4, h5, h6⟩ := h p hp
  exact ⟨h1, h2, h3, h4, h5, fun ⟨r, hr, he⟩ => h6 ⟨r, hsub r hr, he⟩⟩

theorem bookFind_EntryOK (ws0 : List Wallet) (pend : List PlayerResult) (wb : WalletBook)
    (uid : Int) (e : WalletEntry) (h : EntriesOK ws0 pend wb)
    (hfind : bookFind wb uid = some e) : EntryOK ws0 pend (uid, e) := by
  unfold bookFind at hfind
  cases hq : wb.entries.find? (fun p => p.1 == uid) with
  | none => rw [hq] at hfind; simp at hfind
  | some q =>
    rw [hq] at hfind
    simp only [Option.map_some', Option.some.injEq] at hfind
    have hq0 := List.find?_some hq
    have hq1 : q.1 = uid := beq_iff_eq.mp hq0
    have := h q (List.mem_of_find?_eq_some hq)
    rw [← hq1, ← hfind]
    exact this

theorem ensure_keeps_EntriesOK (wb : WalletBook) (ws0 : List Wallet) (uid : Int)
    (pend : List PlayerResult) (hnn : NonnegDB ws0) (h : EntriesOK ws0 pend wb) :
    EntriesOK ws0 pend (wb.ensure ws0 uid).2 := by
  cases hfound : wb.entries.find? (fun p => p.1 == uid) with
  | some p0 =>
    intro p hp
    rw [ensure_entries_of_found wb ws0 uid hfound] at hp
    obtain ⟨q, hq, hgq⟩ := List.mem_map.mp hp
    by_cases hkey : q.1 == uid
    · rw [if_pos hkey] at hgq
      obtain ⟨h1, h2, h3, h4, h5, h6⟩ := h q hq
      rw [← hgq]
      exact ⟨h1, h2, h3, h4, h5, h6⟩
    · rw [if_neg hkey] at hgq
      rw [← hgq]
      exact h q hq
  | none =>
    intro p hp
    rw [ensure_entries_of_not_found wb ws0 uid hfound] at hp
    rcases List.mem_append.mp hp with hp | hp
    · exact h p hp
    · have hp' : p = (uid, ⟨(origWallet ws0 uid).getD { userId := uid },
          (origWallet ws0 uid).isSome, true⟩) := by simpa using hp
      subst hp'
      cases horig : origWallet ws0 uid with
      | some w =>
        have hw : w ∈ ws0 := List.mem_of_find?_eq_some horig
        obtain ⟨n1, n2, n3, n4, n5⟩ := hnn w hw
        unfold EntryOK origField origAvail
        rw [horig]
        simp only [Option.getD_some, Option.map_some']
        refine ⟨?_, ?_, ?_, ?_, ?_, ?_⟩ <;>
          first | trivial | omega | exact fun _ => le_refl _
      | none =>
        unfold EntryOK origField origAvail
        rw [horig]
        simp only [Option.getD_none, Option.map_none']
        refine ⟨?_, ?_, ?_, ?_, ?_, ?_⟩ <;>
          first | trivial | omega | exact fun _ => le_refl _

theorem store_EntriesOK (wb : WalletBook) (ws0 : List Wallet) (uid : Int) (w' : Wallet)
    (pend pend' : List PlayerResult)
    (hsub : ∀ r ∈ pend', r ∈ pend)
    (h : EntriesOK ws0 pend wb)
    (hfr : w'.balanceFrozen = origField (·.balanceFrozen) ws0 uid)
    (htw : origField (·.totalWin) ws0 uid ≤ w'.totalWin)
    (htc : origField (·.totalConsume) ws0 uid ≤ w'.totalConsume)
    (htr : origField (·.totalRake) ws0 uid ≤ w'.totalRake)
    (hav : 0 ≤ w'.balanceAvailable)
    (hpend : (∃ r ∈ pend', r.userId = uid ∧ r.netPoints ≤ 0) →
      origAvail ws0 uid ≤ w'.balanceAvailable) :
    EntriesOK ws0 pend' (wb.store uid w') := by
  intro p hp
  rw [store_entries] at hp
  obtain ⟨q, hq, hgq⟩ := List.mem_map.mp hp
  by_cases hkey : q.1 == uid
  · rw [if_pos hkey] at hgq
    have hq1 : q.1 = uid := beq_iff_eq.mp hkey
    rw [← hgq]
    unfold EntryOK
    dsimp only
    rw [hq1]
    exact ⟨hfr, htw, htc, htr, hav, hpend⟩
  · rw [if_neg hkey] at hgq
    rw [← hgq]
    obtain ⟨h1, h2, h3, h4, h5, h6⟩ := h q hq
    exact ⟨h1, h2, h3, h4, h5, fun ⟨r, hr, he⟩ => h6 ⟨r, hsub r hr, he⟩⟩

theorem ensure_self_entry (wb : WalletBook) (ws0 : List Wallet) (uid : Int) :
    ∃ e, bookFind (wb.ensure ws0 uid).2 uid = some e ∧ e.wallet = (wb.ensure ws0 uid).1 := by
  cases hbf : bookFind wb uid with
  | some e =>
    refine ⟨{ e with dirty := true }, ensure_bookFind_found wb ws0 uid hbf, ?_⟩
    rw [ensure_fst, hbf]
  | none =>
    refine ⟨⟨(origWallet ws0 uid).getD { userId := uid }, (origWallet ws0 uid).isSome, true⟩,
      ensure_bookFind_missing wb ws0 uid hbf, ?_⟩
    rw [ensure_fst, hbf]

theorem agentLoop_keeps_EntriesOK (ws0 : List Wallet) (ratios : List (Nat × Rat))
    (winnerId rake matchId sceneId now : Int) (pend : List PlayerResult) :
    ∀ (chain : List Int) (idx : Nat) (acc : AgentLoopAcc),
      NonnegDB ws0 → EntriesOK ws0 pend acc.book → 0 ≤ acc.remaining →
      EntriesOK ws0 pend
        (agentLoop ws0 ratios winnerId rake matchId sceneId now chain idx acc).book := by
  intro chain
  induction chain with
  | nil =>
    intro idx acc _ h _
    simpa [agentLoop] using h
  | cons agentId rest ih =>
    intro idx acc hnn h hrem
    by_cases hskip : ratioFor ratios (idx + 1) ≤ 0 ∨
        goRound ((rake : Rat) * ratioFor ratios (idx + 1)) ≤ 0 ∨
        (if goRound ((rake : Rat) * ratioFor ratios (idx + 1)) > acc.remaining then acc.remaining
         else goRound ((rake : Rat) * ratioFor ratios (idx + 1))) = 0
    · rw [agentLoop_cons_skip ws0 ratios winnerId rake matchId sceneId now agentId rest idx
        acc hskip]
      exact ih (idx + 1) acc hnn h hrem
    · rw [not_or, not_or] at hskip
      obtain ⟨h1, h2, h3⟩ := hskip
      rw [agentLoop_cons_go ws0 ratios winnerId rake matchId sceneId now agentId rest idx
        acc h1 h2 h3]
      dsimp only
      set share0 := goRound ((rake : Rat) * ratioFor ratios (idx + 1)) with hs0
      set share := if share0 > acc.remaining then acc.remaining else share0 with hsh
      have hpos : 0 < share ∧ share ≤ acc.remaining := by
        by_cases hgt : share0 > acc.remaining
        · rw [hsh, if_pos hgt] at h3 ⊢
          omega
        · rw [hsh, if_neg hgt] at h3 ⊢
          omega
      set got := (acc.book.ensure ws0 agentId).1 with hgot
      have hE1 : EntriesOK ws0 pend (acc.book.ensure ws0 agentId).2 :=
        ensure_keeps_EntriesOK acc.book ws0 agentId pend hnn h
      obtain ⟨e1, he1, hew⟩ := ensure_self_entry acc.book ws0 agentId
      obtain ⟨k1, k2, k3, k4, k5, k6⟩ :=
        bookFind_EntryOK ws0 pend (acc.book.ensure ws0 agentId).2 agentId e1 hE1 he1
      rw [hew] at k1 k2 k3 k4 k5 k6
      dsimp only at k1 k2 k3 k4 k5 k6
      rw [← hgot] at k1 k2 k3 k4 k5 k6
      set credited : Wallet :=
        { got with
            balanceAvailable := got.balanceAvailable + share
            balanceTotal := got.balanceTotal + share
            totalWin := got.totalWin + share } with hcred
      have hE2 : EntriesOK ws0 pend
          (((acc.book.ensure ws0 agentId).2).store agentId credited) := by
        refine store_EntriesOK _ ws0 agentId credited pend pend (fun r hr => hr) hE1
          ?_ ?_ ?_ ?_ ?_ ?_
        · rw [hcred]; exact k1
        · rw [hcred]; dsimp only; omega
        · rw [hcred]; exact k3
        · rw [hcred]; exact k4
        · rw [hcred]; dsimp only; omega
        · rw [hcred]
          intro hx
          have := k6 hx
          dsimp only
          omega
      exact ih (idx + 1) _ hnn hE2 (by dsimp only; omega)

theorem distribute_keeps_EntriesOK (db : SettleDB) (wb : WalletBook) (winnerId rake : Int)
    (agentRule : Option AgentRuleRow) (matchRow : MatchRow) (scene : SceneRow)
    (now : Int) (agents : List AgentRow) (pend : List PlayerResult)
    (hnn : NonnegDB db.wallets) (h : EntriesOK db.wallets pend wb) (hrake : 0 < rake) :
    EntriesOK db.wallets pend
      (distributeAgentShare db wb winnerId rake agentRule matchRow scene now agents).book := by
  unfold distributeAgentShare
  rw [if_neg (by omega : ¬ rake ≤ 0)]
  cases agentRule with
  | none => exact h
  | some rule =>
    dsimp only
    by_cases hchain : resolveAgentChain
        ((db.users.find? (fun u => u.id == winnerId)).getD ⟨0, none, []⟩) = []
    · rw [if_pos hchain]
      exact h
    · rw [if_neg hchain]
      dsimp only
      exact agentLoop_keeps_EntriesOK db.wallets rule.levelRatios winnerId rake matchRow.id
        scene.id now pend _ 0 ⟨rake, 0, [], [], [], wb⟩ hnn h (by dsimp only; omega)

theorem processResult_keeps_EntriesOK (db : SettleDB) (rakeRule : Option RakeConfig)
    (agentRule : Option AgentRuleRow) (matchRow : MatchRow) (scene : SceneRow)
    (now : Int) (acc : SettleAcc) (res : PlayerResult) (rest : List PlayerResult)
    (hnn : NonnegDB db.wallets)
    (h : EntriesOK db.wallets (res :: rest) acc.book)
    (hnodup : ∀ r ∈ rest, r.userId ≠ res.userId)
    (hcover : res.netPoints ≤ 0 → 0 ≤ origAvail db.wallets res.userId + res.netPoints) :
    EntriesOK db.wallets rest
      (processResult db rakeRule agentRule matchRow scene now acc res).book := by
  have hE1 : EntriesOK db.wallets (res :: rest) (acc.book.ensure db.wallets res.userId).2 :=
    ensure_keeps_EntriesOK acc.book db.wallets res.userId (res :: rest) hnn h
  obtain ⟨e1, he1, hew⟩ := ensure_self_entry acc.book db.wallets res.userId
  obtain ⟨k1, k2, k3, k4, k5, k6⟩ :=
    bookFind_EntryOK db.wallets (res :: rest) (acc.book.ensure db.wallets res.userId).2
      res.userId e1 hE1 he1
  rw [hew] at k1 k2 k3 k4 k5 k6
  dsimp only at k1 k2 k3 k4 k5 k6
  set got := (acc.book.ensure db.wallets res.userId).1 with hgot
  by_cases hw : res.netPoints > 0
  · have hrkb := calculateRake_bounds rakeRule res.netPoints hw
    by_cases hr : calculateRake rakeRule res.netPoints > 0
    · rw [processResult_win_rake db rakeRule agentRule matchRow scene now acc res hw hr]
      dsimp only
      rw [← hgot]
      set wallet' : Wallet :=
        { got with
            balanceAvailable :=
              got.balanceAvailable + (res.netPoints - calculateRake rakeRule res.netPoints)
            balanceTotal :=
              got.balanceTotal + (res.netPoints - calculateRake rakeRule res.netPoints)
            totalWin := got.totalWin + (res.netPoints - calculateRake rakeRule res.netPoints)
            totalRake := got.totalRake + calculateRake rakeRule res.netPoints } with hw'
      have hE2 : EntriesOK db.wallets rest
          (((acc.book.ensure db.wallets res.userId).2).store res.userId wallet') := by
        refine store_EntriesOK _ db.wallets res.userId wallet' (res :: rest) rest
          (fun r hr => List.mem_cons_of_mem _ hr) hE1 ?_ ?_ ?_ ?_ ?_ ?_
        · rw [hw']; exact k1
        · rw [hw']; dsimp only; omega
        · rw [hw']; exact k3
        · rw [hw']; dsimp only; omega
        · rw [hw']; dsimp only; omega
        · rintro ⟨r, hr, hru, _⟩
          exact absurd hru (hnodup r hr)
      exact distribute_keeps_EntriesOK db _ res.userId _ agentRule matchRow scene now
        acc.agents rest hnn hE2 hr
    · rw [processResult_win_norake db rakeRule agentRule matchRow scene now acc res hw hr]
      dsimp only
      rw [← hgot]
      set wallet' : Wallet :=
        { got with
            balanceAvailable :=
              got.balanceAvailable + (res.netPoints - calculateRake rakeRule res.netPoints)
            balanceTotal :=
              got.balanceTotal + (res.netPoints - calculateRake rakeRule res.netPoints)
            totalWin := got.totalWin + (res.netPoints - calculateRake rakeRule res.netPoints)
            totalRake := got.totalRake + calculateRake rakeRule res.netPoints } with hw'
      refine store_EntriesOK _ db.wallets res.userId wallet' (res :: rest) rest
        (fun r hr => List.mem_cons_of_mem _ hr) hE1 ?_ ?_ ?_ ?_ ?_ ?_
      · rw [hw']; exact k1
      · rw [hw']; dsimp only; omega
      · rw [hw']; exact k3
      · rw [hw']; dsimp only; omega
      · rw [hw']; dsimp only; omega
      · rintro ⟨r, hr, hru, _⟩
        exact absurd hru (hnodup r hr)
  · have hle : res.netPoints ≤ 0 := by omega
    have hcov := hcover hle
    have hpre : origAvail db.wallets res.userId ≤ got.balanceAvailable :=
      k6 ⟨res, List.mem_cons_self _ _, rfl, hle⟩
    rw [processResult_loser db rakeRule agentRule matchRow scene now acc res hw]
    dsimp only
    rw [← hgot]
    set wallet' : Wallet :=
      { got with
          balanceAvailable := got.balanceAvailable + res.netPoints
          balanceTotal := got.balanceTotal + res.netPoints
          totalConsume := got.totalConsume + (-res.netPoints) } with hw'
    refine store_EntriesOK _ db.wallets res.userId wallet' (res :: rest) rest
      (fun r hr => List.mem_cons_of_mem _ hr) hE1 ?_ ?_ ?_ ?_ ?_ ?_
    · rw [hw']; exact k1
    · rw [hw']; exact k2
    · rw [hw']; dsimp only; omega
    · rw [hw']; exact k4
    · rw [hw']; dsimp only; omega
    · rintro ⟨r, hr, hru, _⟩
      exact absurd hru (hnodup r hr)

theorem processResult_fold_EntriesOK (db : SettleDB) (rakeRule : Option RakeConfig)
    (agentRule : Option AgentRuleRow) (matchRow : MatchRow) (scene : SceneRow) (now : Int) :
    ∀ (results : List PlayerResult) (acc : SettleAcc),
      NonnegDB db.wallets →
      (results.map (·.userId)).Nodup →
      (∀ r ∈ results, r.netPoints ≤ 0 → 0 ≤ origAvail db.wallets r.userId + r.netPoints) →
      EntriesOK db.wallets results acc.book →
      EntriesOK db.wallets []
        ((results.foldl (processResult db rakeRule agentRule matchRow scene now) acc).book) := by
  intro results
  induction results with
  | nil =>
    intro acc _ _ _ h
    simpa using h
  | cons res rest ih =>
    intro acc hnn hnd hcov h
    rw [List.foldl_cons]
    have hnd0 : res.userId ∉ rest.map (fun x => x.userId) ∧
        (rest.map (fun x => x.userId)).Nodup := by
      rw [List.map_cons] at hnd
      exact List.nodup_cons.mp hnd
    refine ih _ hnn hnd0.2 (fun r hr hler =>
      hcov r (List.mem_cons_of_mem _ hr) hler) ?_
    refine processResult_keeps_EntriesOK db rakeRule agentRule matchRow scene now acc res rest
      hnn h (fun r hr heq => hnd0.1 ?_) (hcov res (List.mem_cons_self _ _))
    rw [← heq]
    exact List.mem_map_of_mem _ hr

/-- C3, counterexample to the claim as stated: `SettleMatch` accepts a
zero-sum request debiting a loser who has no wallet row, and commits a
wallet whose `balanceAvailable` is negative — the loser debit is not
floored at zero. -/
theorem C3_counterexample :
    (runSettle cxDb 5 cxReq).2 = none ∧
    ∃ w ∈ (runSettle cxDb 5 cxReq).1.wallets, w.balanceAvailable < 0 := by
  decide

/-- C3 (amended): if every stored wallet field starts non-negative, the
result user ids are distinct, and every loser's stored available balance
covers their loss, then after an accepted settlement every wallet row's
balance/total fields are still non-negative. -/
theorem C3_wallet_fields_nonneg (db : SettleDB) (now : Int) (req : SettlementRequest)
    (hnn : NonnegDB db.wallets)
    (hnd : (req.results.map (·.userId)).Nodup)
    (hcov : ∀ r ∈ req.results, r.netPoints ≤ 0 →
      0 ≤ origAvail db.wallets r.userId + r.netPoints)
    (hok : (runSettle db now req).2 = none) :
    NonnegDB (runSettle db now req).1.wallets := by
  cases hrun : settleMatch db now req with
  | error e =>
    unfold runSettle at hok
    rw [hrun] at hok
    simp at hok
  | ok db' =>
    have hpair : runSettle db now req = (db', none) := by
      unfold runSettle
      rw [hrun]
    rw [hpair]
    dsimp only
    obtain ⟨hsum, hv1, hv2, matchRow, scene, rakeRule, hm, hended, hs, hdb'⟩ :=
      settleMatch_ok_inv db now req db' hrun
    subst hdb'
    unfold settleBuild
    dsimp only
    have hfold := processResult_fold_EntriesOK db rakeRule (loadAgentRule db.agentRules)
      matchRow scene now req.results ⟨⟨[]⟩, [], [], [], [], 0, 0, db.agents⟩
      hnn hnd hcov (fun p hp => absurd hp (List.not_mem_nil p))
    intro w hw
    refine saveAll_pred
      (fun w => 0 ≤ w.balanceAvailable ∧ 0 ≤ w.balanceFrozen ∧ 0 ≤ w.totalWin ∧
        0 ≤ w.totalConsume ∧ 0 ≤ w.totalRake)
      _ db.wallets now hnn ?_ w hw
    intro p hp
    obtain ⟨h1, h2, h3, h4, h5, h6⟩ := hfold p hp
    have hfz := origField_nonneg (·.balanceFrozen) db.wallets p.1
      (fun x hx => ((hnn x hx).2.1))
    have htw := origField_nonneg (·.totalWin) db.wallets p.1
      (fun x hx => ((hnn x hx).2.2.1))
    have htc := origField_nonneg (·.totalConsume) db.wallets p.1
      (fun x hx => ((hnn x hx).2.2.2.1))
    have htr := origField_nonneg (·.totalRake) db.wallets p.1
      (fun x hx => ((hnn x hx).2.2.2.2))
    dsimp only
    refine ⟨h5, ?_, ?_, ?_, ?_⟩ <;> omega

/-- C3 witness (for the amended statement): scenario S4, where the loser
holds 1000 and loses 400. -/
theorem C3_wallet_fields_nonneg_witness :
    NonnegDB exDb.wallets ∧ (exReq.results.map (·.userId)).Nodup ∧
    (∀ r ∈ exReq.results, r.netPoints ≤ 0 →
      0 ≤ origAvail exDb.wallets r.userId + r.netPoints) ∧
    (runSettle exDb 5 exReq).2 = none ∧
    NonnegDB (runSettle exDb 5 exReq).1.wallets :=
  ⟨by unfold NonnegDB; decide, by decide, by decide, by decide,
    C3_wallet_fields_nonneg exDb 5 exReq (by unfold NonnegDB; decide) (by decide) (by decide)
      (by decide)⟩

/-! ### Tracking a single user through the settlement -/

theorem ensure_find_mono (wb : WalletBook) (ws0 : List Wallet) (uid u : Int)
    (h : bookFind wb u ≠ none) : bookFind (wb.ensure ws0 uid).2 u ≠ none := by
  by_cases he : u = uid
  · subst he
    cases hbf : bookFind wb u with
    | some e => rw [ensure_bookFind_found wb ws0 u hbf]; simp
    | none => exact absurd hbf h
  · rw [ensure_bookFind_other wb ws0 uid u he]
    exact h

theorem store_find_mono (wb : WalletBook) (uid : Int) (w : Wallet) (u : Int)
    (h : bookFind wb u ≠ none) : bookFind (wb.store uid w) u ≠ none := by
  by_cases he : u = uid
  · subst he
    cases hbf : bookFind wb u with
    | some e => rw [store_bookFind_same wb u w hbf]; simp
    | none => exact absurd hbf h
  · rw [store_bookFind_other wb uid u w he]
    exact h

theorem agentLoop_find_mono (ws0 : List Wallet) (ratios : List (Nat × Rat))
    (winnerId rake matchId sceneId now : Int) (u : Int) :
    ∀ (chain : List Int) (idx : Nat) (acc : AgentLoopAcc),
      bookFind acc.book u ≠ none →
      bookFind (agentLoop ws0 ratios winnerId rake matchId sceneId now chain idx acc).book
        u ≠ none := by
  intro chain
  induction chain with
  | nil =>
    intro idx acc h
    simpa [agentLoop] using h
  | cons agentId rest ih =>
    intro idx acc h
    by_cases hskip : ratioFor ratios (idx + 1) ≤ 0 ∨
        goRound ((rake : Rat) * ratioFor ratios (idx + 1)) ≤ 0 ∨
        (if goRound ((rake : Rat) * ratioFor ratios (idx + 1)) > acc.remaining then acc.remaining
         else goRound ((rake : Rat) * ratioFor ratios (idx + 1))) = 0
    · rw [agentLoop_cons_skip ws0 ratios winnerId rake matchId sceneId now agentId rest idx
        acc hskip]
      exact ih (idx + 1) acc h
    · rw [not_or, not_or] at hskip
      obtain ⟨h1, h2, h3⟩ := hskip
      rw [agentLoop_cons_go ws0 ratios winnerId rake matchId sceneId now agentId rest idx
        acc h1 h2 h3]
      dsimp only
      exact ih (idx + 1) _ (store_find_mono _ agentId _ u
        (ensure_find_mono acc.book ws0 agentId u h))

theorem agentLoop_find_other (ws0 : List Wallet) (ratios : List (Nat × Rat))
    (winnerId rake matchId sceneId now : Int) (u : Int) :
    ∀ (chain : List Int) (idx : Nat) (acc : AgentLoopAcc),
      u ∉ chain →
      bookFind (agentLoop ws0 ratios winnerId rake matchId sceneId now chain idx acc).book u =
        bookFind acc.book u := by
  intro chain
  induction chain with
  | nil =>
    intro idx acc _
    simp [agentLoop]
  | cons agentId rest ih =>
    intro idx acc hmem
    have hne : u ≠ agentId := fun he => hmem (he ▸ List.mem_cons_self _ _)
    have hrest : u ∉ rest := fun hr => hmem (List.mem_cons_of_mem _ hr)
    by_cases hskip : ratioFor ratios (idx + 1) ≤ 0 ∨
        goRound ((rake : Rat) * ratioFor ratios (idx + 1)) ≤ 0 ∨
        (if goRound ((rake : Rat) * ratioFor ratios (idx + 1)) > acc.remaining then acc.remaining
         else goRound ((rake : Rat) * ratioFor ratios (idx + 1))) = 0
    · rw [agentLoop_cons_skip ws0 ratios winnerId rake matchId sceneId now agentId rest idx
        acc hskip]
      exact ih (idx + 1) acc hrest
    · rw [not_or, not_or] at hskip
      obtain ⟨h1, h2, h3⟩ := hskip
      rw [agentLoop_cons_go ws0 ratios winnerId rake matchId sceneId now agentId rest idx
        acc h1 h2 h3]
      dsimp only
      rw [ih (idx + 1) _ hrest]
      dsimp only
      rw [store_bookFind_other _ agentId u _ hne, ensure_bookFind_other acc.book ws0 agentId
        u hne]

theorem agentLoop_records_entries (ws0 : List Wallet) (ratios : List (Nat × Rat))
    (winnerId rake matchId sceneId now : Int) :
    ∀ (chain : List Int) (idx : Nat) (acc : AgentLoopAcc),
      (∀ r ∈ acc.records, bookFind acc.book r.agentId ≠ none) →
      ∀ r ∈ (agentLoop ws0 ratios winnerId rake matchId sceneId now chain idx acc).records,
        bookFind (agentLoop ws0 ratios winnerId rake matchId sceneId now chain idx acc).book
          r.agentId ≠ none := by
  intro chain
  induction chain with
  | nil =>
    intro idx acc h
    simpa [agentLoop] using h
  | cons agentId rest ih =>
    intro idx acc h
    by_cases hskip : ratioFor ratios (idx + 1) ≤ 0 ∨
        goRound ((rake : Rat) * ratioFor ratios (idx + 1)) ≤ 0 ∨
        (if goRound ((rake : Rat) * ratioFor ratios (idx + 1)) > acc.remaining then acc.remaining
         else goRound ((rake : Rat) * ratioFor ratios (idx + 1))) = 0
    · rw [agentLoop_cons_skip ws0 ratios winnerId rake matchId sceneId now agentId rest idx
        acc hskip]
      exact ih (idx + 1) acc h
    · rw [not_or, not_or] at hskip
      obtain ⟨h1, h2, h3⟩ := hskip
      rw [agentLoop_cons_go ws0 ratios winnerId rake matchId sceneId now agentId rest idx
        acc h1 h2 h3]
      dsimp only
      refine ih (idx + 1) _ ?_
      intro r hr
      dsimp only at hr ⊢
      rcases List.mem_append.mp hr with hr | hr
      · exact store_find_mono _ agentId _ r.agentId
          (ensure_find_mono acc.book ws0 agentId r.agentId (h r hr))
      · have hr' := List.mem_singleton.mp hr
        rw [hr']
        dsimp only
        obtain ⟨e, he, _⟩ := ensure_self_entry acc.book ws0 agentId
        exact store_find_mono _ agentId _ agentId (by rw [he]; simp)

theorem distribute_find_mono (db : SettleDB) (wb : WalletBook) (winnerId rake : Int)
    (agentRule : Option AgentRuleRow) (matchRow : MatchRow) (scene : SceneRow)
    (now : Int) (agents : List AgentRow) (u : Int)
    (h : bookFind wb u ≠ none) :
    bookFind
      (distributeAgentShare db wb winnerId rake agentRule matchRow scene now agents).book
      u ≠ none := by
  unfold distributeAgentShare
  by_cases hrk : rake ≤ 0
  · rw [if_pos hrk]
    exact h
  · rw [if_neg hrk]
    cases agentRule with
    | none => exact h
    | some rule =>
      dsimp only
      by_cases hchain : resolveAgentChain
          ((db.users.find? (fun v => v.id == winnerId)).getD ⟨0, none, []⟩) = []
      · rw [if_pos hchain]
        exact h
      · rw [if_neg hchain]
        dsimp only
        exact agentLoop_find_mono db.wallets rule.levelRatios winnerId rake matchRow.id
          scene.id now u _ 0 ⟨rake, 0, [], [], [], wb⟩ h

theorem distribute_find_other (db : SettleDB) (wb : WalletBook) (winnerId rake : Int)
    (agentRule : Option AgentRuleRow) (matchRow : MatchRow) (scene : SceneRow)
    (now : Int) (agents : List AgentRow) (u : Int)
    (hch : ∀ v ∈ db.users, u ∉ resolveAgentChain v) :
    bookFind
      (distributeAgentShare db wb winnerId rake agentRule matchRow scene now agents).book u =
      bookFind wb u := by
  unfold distributeAgentShare
  by_cases hrk : rake ≤ 0
  · rw [if_pos hrk]
  · rw [if_neg hrk]
    cases agentRule with
    | none => rfl
    | some rule =>
      dsimp only
      by_cases hchain : resolveAgentChain
          ((db.users.find? (fun v => v.id == winnerId)).getD ⟨0, none, []⟩) = []
      · rw [if_pos hchain]
      · rw [if_neg hchain]
        dsimp only
        refine agentLoop_find_other db.wallets rule.levelRatios winnerId rake matchRow.id
          scene.id now u _ 0 ⟨rake, 0, [], [], [], wb⟩ ?_
        cases hv : db.users.find? (fun v => v.id == winnerId) with
        | some v =>
          exact hch v (List.mem_of_find?_eq_some hv)
        | none =>
          rw [hv] at hchain
          exact absurd rfl hchain

theorem distribute_records_entries (db : SettleDB) (wb : WalletBook) (winnerId rake : Int)
    (agentRule : Option AgentRuleRow) (matchRow : MatchRow) (scene : SceneRow)
    (now : Int) (agents : List AgentRow) :
    ∀ r ∈ (distributeAgentShare db wb winnerId rake agentRule matchRow scene now
        agents).records,
      bookFind
        (distributeAgentShare db wb winnerId rake agentRule matchRow scene now agents).book
        r.agentId ≠ none := by
  unfold distributeAgentShare
  by_cases hrk : rake ≤ 0
  · rw [if_pos hrk]
    intro r hr
    exact absurd hr (List.not_mem_nil r)
  · rw [if_neg hrk]
    cases agentRule with
    | none =>
      intro r hr
      exact absurd hr (List.not_mem_nil r)
    | some rule =>
      dsimp only
      by_cases hchain : resolveAgentChain
          ((db.users.find? (fun v => v.id == winnerId)).getD ⟨0, none, []⟩) = []
      · rw [if_pos hchain]
        intro r hr
        exact absurd hr (List.not_mem_nil r)
      · rw [if_neg hchain]
        dsimp only
        exact agentLoop_records_entries db.wallets rule.levelRatios winnerId rake matchRow.id
          scene.id now _ 0 ⟨rake, 0, [], [], [], wb⟩
          (fun r hr => absurd hr (List.not_mem_nil r))

theorem processResult_find_other (db : SettleDB) (rakeRule : Option RakeConfig)
    (agentRule : Option AgentRuleRow) (matchRow : MatchRow) (scene : SceneRow)
    (now : Int) (acc : SettleAcc) (res : PlayerResult) (u : Int)
    (hne : res.userId ≠ u)
    (hch : ∀ v ∈ db.users, u ∉ resolveAgentChain v) :
    bookFind (processResult db rakeRule agentRule matchRow scene now acc res).book u =
      bookFind acc.book u := by
  have hbase : ∀ w' : Wallet,
      bookFind (((acc.book.ensure db.wallets res.userId).2).store res.userId w') u =
        bookFind acc.book u := fun w' =>
    ensure_store_find_other acc.book db.wallets res.userId u w' (Ne.symm hne)
  by_cases hw : res.netPoints > 0
  · by_cases hr : calculateRake rakeRule res.netPoints > 0
    · rw [processResult_win_rake db rakeRule agentRule matchRow scene now acc res hw hr]
      dsimp only
      rw [distribute_find_other db _ res.userId _ agentRule matchRow scene now acc.agents u
        hch]
      exact hbase _
    · rw [processResult_win_norake db rakeRule agentRule matchRow scene now acc res hw hr]
      dsimp only
      exact hbase _
  · rw [processResult_loser db rakeRule agentRule matchRow scene now acc res hw]
    dsimp only
    exact hbase _

theorem processResult_find_mono (db : SettleDB) (rakeRule : Option RakeConfig)
    (agentRule : Option AgentRuleRow) (matchRow : MatchRow) (scene : SceneRow)
    (now : Int) (acc : SettleAcc) (res : PlayerResult) (u : Int)
    (h : bookFind acc.book u ≠ none) :
    bookFind (processResult db rakeRule agentRule matchRow scene now acc res).book u ≠
      none := by
  have hbase : ∀ w' : Wallet,
      bookFind (((acc.book.ensure db.wallets res.userId).2).store res.userId w') u ≠
        none := fun w' =>
    store_find_mono _ res.userId w' u (ensure_find_mono acc.book db.wallets res.userId u h)
  by_cases hw : res.netPoints > 0
  · by_cases hr : calculateRake rakeRule res.netPoints > 0
    · rw [processResult_win_rake db rakeRule agentRule matchRow scene now acc res hw hr]
      dsimp only
      exact distribute_find_mono db _ res.userId _ agentRule matchRow scene now acc.agents u
        (hbase _)
    · rw [processResult_win_norake db rakeRule agentRule matchRow scene now acc res hw hr]
      dsimp only
      exact hbase _
  · rw [processResult_loser db rakeRule agentRule matchRow scene now acc res hw]
    dsimp only
    exact hbase _

theorem processResult_records_entries (db : SettleDB) (rakeRule : Option RakeConfig)
    (agentRule : Option AgentRuleRow) (matchRow : MatchRow) (scene : SceneRow)
    (now : Int) (acc : SettleAcc) (res : PlayerResult)
    (h : ∀ r ∈ acc.agentShareRecords, bookFind acc.book r.agentId ≠ none) :
    ∀ r ∈ (processResult db rakeRule agentRule matchRow scene now acc res).agentShareRecords,
      bookFind (processResult db rakeRule agentRule matchRow scene now acc res).book
        r.agentId ≠ none := by
  have hbase : ∀ (w' : Wallet) (v : Int), bookFind acc.book v ≠ none →
      bookFind (((acc.book.ensure db.wallets res.userId).2).store res.userId w') v ≠
        none := fun w' v hv =>
    store_find_mono _ res.userId w' v (ensure_find_mono acc.book db.wallets res.userId v hv)
  by_cases hw : res.netPoints > 0
  · by_cases hr : calculateRake rakeRule res.netPoints > 0
    · rw [processResult_win_rake db rakeRule agentRule matchRow scene now acc res hw hr]
      dsimp only
      intro r hr'
      rcases List.mem_append.mp hr' with hr' | hr'
      · exact distribute_find_mono db _ res.userId _ agentRule matchRow scene now acc.agents
          r.agentId (hbase _ r.agentId (h r hr'))
      · exact distribute_records_entries db _ res.userId _ agentRule matchRow scene now
          acc.agents r hr'
    · rw [processResult_win_norake db rakeRule agentRule matchRow scene now acc res hw hr]
      dsimp only
      intro r hr'
      exact hbase _ r.agentId (h r hr')
  · rw [processResult_loser db rakeRule agentRule matchRow scene now acc res hw]
    dsimp only
    intro r hr'
    exact hbase _ r.agentId (h r hr')

theorem processResult_fold_find_other (db : SettleDB) (rakeRule : Option RakeConfig)
    (agentRule : Option AgentRuleRow) (matchRow : MatchRow) (scene : SceneRow)
    (now : Int) (u : Int)
    (hch : ∀ v ∈ db.users, u ∉ resolveAgentChain v) :
    ∀ (results : List PlayerResult) (acc : SettleAcc),
      (∀ r ∈ results, r.userId ≠ u) →
      bookFind
        ((results.foldl (processResult db rakeRule agentRule matchRow scene now) acc).book)
        u = bookFind acc.book u := by
  intro results
  induction results with
  | nil => intro acc _; rfl
  | cons res rest ih =>
    intro acc hne
    rw [List.foldl_cons, ih _ (fun r hr => hne r (List.mem_cons_of_mem _ hr)),
      processResult_find_other db rakeRule agentRule matchRow scene now acc res u
        (hne res (List.mem_cons_self _ _)) hch]

theorem processResult_fold_records (db : SettleDB) (rakeRule : Option RakeConfig)
    (agentRule : Option AgentRuleRow) (matchRow : MatchRow) (scene : SceneRow) (now : Int) :
    ∀ (results : List PlayerResult) (acc : SettleAcc),
      (∀ r ∈ acc.agentShareRecords, bookFind acc.book r.agentId ≠ none) →
      ∀ r ∈ ((results.foldl (processResult db rakeRule agentRule matchRow scene now)
          acc).agentShareRecords),
        bookFind
          ((results.foldl (processResult db rakeRule agentRule matchRow scene now) acc).book)
          r.agentId ≠ none := by
  intro results
  induction results with
  | nil => intro acc h; exact h
  | cons res rest ih =>
    intro acc h
    rw [List.foldl_cons]
    exact ih _ (processResult_records_entries db rakeRule agentRule matchRow scene now acc
      res h)

/-- C10: `SettleMatch` auto-creates missing wallet rows. A loser with no
stored wallet ends the accepted settlement with a saved row whose
`balanceAvailable` equals their (non-positive) `netPoints`, and every
agent recorded in the rake summary has a wallet row saved in the same
transaction. -/
theorem C10_wallet_autocreation (db : SettleDB) (now : Int) (req : SettlementRequest)
    (res : PlayerResult)
    (hres : res ∈ req.results)
    (hlose : res.netPoints ≤ 0)
    (horig : origWallet db.wallets res.userId = none)
    (hnd : (req.results.map (·.userId)).Nodup)
    (hch : ∀ v ∈ db.users, res.userId ∉ resolveAgentChain v)
    (hok : (runSettle db now req).2 = none) :
    (∃ w, (runSettle db now req).1.wallets.find? (fun x => x.userId == res.userId) =
        some w ∧ w.balanceAvailable = res.netPoints ∧ w.userId = res.userId) ∧
    ∃ mr' summary,
      ((runSettle db now req).1.matchRows.find? (fun m => m.id == req.matchId)) = some mr' ∧
      mr'.rakeJson = some summary ∧
      ∀ rec ∈ summary.agents,
        ∃ w ∈ (runSettle db now req).1.wallets, w.userId = rec.agentId := by
  cases hrun : settleMatch db now req with
  | error e =>
    unfold runSettle at hok
    rw [hrun] at hok
    simp at hok
  | ok db' =>
    have hpair : runSettle db now req = (db', none) := by
      unfold runSettle
      rw [hrun]
    rw [hpair]
    dsimp only
    obtain ⟨hsum, hv1, hv2, matchRow, scene, rakeRule, hm, hended, hs, hdb'⟩ :=
      settleMatch_ok_inv db now req db' hrun
    subst hdb'
    unfold settleBuild
    dsimp only
    obtain ⟨l1, l2, hsplit⟩ := List.append_of_mem hres
    have hndm : (l1.map (·.userId)).Nodup ∧ res.userId ∉ (l1.map (·.userId)) ∧
        res.userId ∉ (l2.map (·.userId)) := by
      rw [hsplit, List.map_append, List.map_cons] at hnd
      obtain ⟨h1, h2, h3⟩ := List.nodup_append.mp hnd
      refine ⟨h1, fun hm1 => ?_, (List.nodup_cons.mp h2).1⟩
      exact h3 hm1 (List.mem_cons_self _ _)
    have hne1 : ∀ r ∈ l1, r.userId ≠ res.userId := by
      intro r hr heq
      exact hndm.2.1 (heq ▸ List.mem_map_of_mem _ hr)
    have hne2 : ∀ r ∈ l2, r.userId ≠ res.userId := by
      intro r hr heq
      exact hndm.2.2 (heq ▸ List.mem_map_of_mem _ hr)
    rw [hsplit, List.foldl_append, List.foldl_cons]
    set agentRule := loadAgentRule db.agentRules with har
    set acc1 := l1.foldl (processResult db rakeRule agentRule matchRow scene now)
      ⟨⟨[]⟩, [], [], [], [], 0, 0, db.agents⟩ with hacc1
    have hinv1 : WBinv db.wallets acc1.book :=
      (processResult_fold db rakeRule agentRule matchRow scene now l1
        ⟨⟨[]⟩, [], [], [], [], 0, 0, db.agents⟩ (WBinv_nil db.wallets)).1
    have hbf1 : bookFind acc1.book res.userId = none := by
      rw [hacc1, processResult_fold_find_other db rakeRule agentRule matchRow scene now
        res.userId hch l1 _ hne1]
      rfl
    have hnotpos : ¬ res.netPoints > 0 := by omega
    rw [processResult_loser db rakeRule agentRule matchRow scene now acc1 res hnotpos]
    dsimp only
    have hgoteq : (acc1.book.ensure db.wallets res.userId).1 =
        ({ userId := res.userId } : Wallet) := by
      rw [ensure_fst, hbf1, horig]
      rfl
    set wallet' : Wallet :=
      { (acc1.book.ensure db.wallets res.userId).1 with
          balanceAvailable :=
            ((acc1.book.ensure db.wallets res.userId).1).balanceAvailable + res.netPoints
          balanceTotal :=
            ((acc1.book.ensure db.wallets res.userId).1).balanceTotal + res.netPoints
          totalConsume :=
            ((acc1.book.ensure db.wallets res.userId).1).totalConsume +
              (-res.netPoints) } with hw'
    have hwav : wallet'.balanceAvailable = res.netPoints := by
      rw [hw', hgoteq]
      dsimp only
      omega
    have hwid : wallet'.userId = res.userId := by
      rw [hw', hgoteq]
    set acc2 : SettleAcc :=
      { acc1 with
          book := ((acc1.book.ensure db.wallets res.userId).2).store res.userId wallet'
          billingLogs := acc1.billingLogs ++
            [⟨res.userId, "lose", res.netPoints, wallet'.balanceAvailable,
              some matchRow.id, now⟩]
          resultRecords := acc1.resultRecords ++ [⟨res.userId, res.netPoints, 0⟩] }
      with hacc2
    have hinv2 : WBinv db.wallets acc2.book := by
      rw [hacc2]
      dsimp only
      exact ensure_store_WBinv acc1.book db.wallets res.userId wallet' hinv1 hwid
    have hbf2 : bookFind acc2.book res.userId =
        some ⟨wallet', (origWallet db.wallets res.userId).isSome, true⟩ := by
      rw [hacc2]
      dsimp only
      exact ensure_store_find_same acc1.book db.wallets res.userId wallet' hinv1
    set acc3 := l2.foldl (processResult db rakeRule agentRule matchRow scene now) acc2
      with hacc3
    have hinv3 : WBinv db.wallets acc3.book :=
      (processResult_fold db rakeRule agentRule matchRow scene now l2 acc2 hinv2).1
    have hbf3 : bookFind acc3.book res.userId =
        some ⟨wallet', (origWallet db.wallets res.userId).isSome, true⟩ := by
      rw [hacc3, processResult_fold_find_other db rakeRule agentRule matchRow scene now
        res.userId hch l2 acc2 hne2]
      exact hbf2
    constructor
    · refine ⟨{ wallet' with updatedAt := now }, ?_, by simpa using hwav, by simpa using hwid⟩
      exact saveAll_find_new acc3.book db.wallets now res.userId hinv3 hbf3 horig
    · refine ⟨_, ⟨acc3.totalRake, acc3.platformIncome, acc3.agentShareRecords⟩,
        matchRows_map_find db.matchRows req.matchId matchRow _ hm rfl, rfl, ?_⟩
      intro rec hrec
      have hrecf : bookFind acc3.book rec.agentId ≠ none := by
        rw [hacc3]
        refine processResult_fold_records db rakeRule agentRule matchRow scene now l2 acc2
          ?_ rec hrec
        rw [hacc2]
        dsimp only
        intro r hr
        refine store_find_mono _ res.userId wallet' r.agentId
          (ensure_find_mono acc1.book db.wallets res.userId r.agentId ?_)
        rw [hacc1]
        exact processResult_fold_records db rakeRule agentRule matchRow scene now l1
          ⟨⟨[]⟩, [], [], [], [], 0, 0, db.agents⟩ (fun q hq => absurd hq (List.not_mem_nil q))
          r hr
      unfold bookFind at hrecf
      cases hq : acc3.book.entries.find? (fun p => p.1 == rec.agentId) with
      | none => rw [hq] at hrecf; simp at hrecf
      | some q =>
        have hq0 := List.find?_some hq
        have hq1 : q.1 = rec.agentId := beq_iff_eq.mp hq0
        obtain ⟨w, hwmem, hwid'⟩ := saveAll_exists_key acc3.book db.wallets now hinv3 q
          (List.mem_of_find?_eq_some hq)
        exact ⟨w, hwmem, by rw [hwid', hq1]⟩

/-- C10 witness: the loser of `cxReq` has no wallet row in `cxDb`. -/
theorem C10_wallet_autocreation_witness :
    (⟨2, -100⟩ : PlayerResult) ∈ cxReq.results ∧
    origWallet cxDb.wallets 2 = none ∧
    ((∃ w, (runSettle cxDb 5 cxReq).1.wallets.find? (fun x => x.userId == 2) =
        some w ∧ w.balanceAvailable = -100 ∧ w.userId = 2) ∧
      ∃ mr' summary,
        ((runSettle cxDb 5 cxReq).1.matchRows.find? (fun m => m.id == cxReq.matchId)) =
          some mr' ∧
        mr'.rakeJson = some summary ∧
        ∀ rec ∈ summary.agents,
          ∃ w ∈ (runSettle cxDb 5 cxReq).1.wallets, w.userId = rec.agentId) :=
  ⟨by decide, by decide,
    C10_wallet_autocreation cxDb 5 cxReq ⟨2, -100⟩ (by decide) (by decide) (by decide)
      (by decide) (by decide) (by decide)⟩

/-! ### Matchmaking claims -/

/-- C8, counterexample to the claim as stated: `JoinQueue` never checks
the scene's status, so joining a *disabled* scene succeeds and stores a
queue entry, where the spec's precondition table demands
`sceneNotFound`. -/
theorem C8_counterexample :
    mxSceneDisabled.status ≠ "enabled" ∧
    (runJoin [mxSceneDisabled] [{ userId := 3, balanceAvailable := 1000 }] mxEmpty
      3 10 500 0 0 "" 50).2 = none ∧
    joinSpecOutcome [mxSceneDisabled] [{ userId := 3, balanceAvailable := 1000 }] mxEmpty
      3 10 500 = some .sceneNotFound := by
  decide

/-- C8 (amended): `JoinQueue`'s outcome follows the check table *without*
the scene-enabled requirement (and with the processing-lock check the
spec's list omits); on success exactly the snapshot and the queue entry
with score `now` are written. -/
theorem C8_join_queue_checks (scenes : List SceneRow) (wallets : List Wallet)
    (st : MatchState) (userId sceneId buyIn : Int) (gpsLat gpsLng : Rat) (ip : String)
    (now : Int) :
    (runJoin scenes wallets st userId sceneId buyIn gpsLat gpsLng ip now).2 =
      joinCodeOutcome scenes wallets st userId sceneId buyIn ∧
    ((runJoin scenes wallets st userId sceneId buyIn gpsLat gpsLng ip now).2 = none →
      (runJoin scenes wallets st userId sceneId buyIn gpsLat gpsLng ip now).1 =
        { st with
            members := redisSet st.members userId
              ⟨userId, sceneId, buyIn, gpsLat, gpsLng, ip,
                loadWalletBalance wallets userId, now⟩
            queue := st.queue ++ [(userId, now)] }) := by
  unfold runJoin joinQueue joinCodeOutcome
  cases h : loadScene scenes sceneId with
  | none => exact ⟨rfl, by simp⟩
  | some scene =>
    dsimp only
    split_ifs <;> first | exact ⟨rfl, fun _ => rfl⟩ | exact ⟨rfl, by simp⟩

/-- C4, counterexample to the claim as stated: with only user 1 queued
and `[user1, user2]` selected, the composition aborts on user 2's failed
`ZRem` *without* restoring user 1 — the earlier removal and snapshot
delete persist (no table/match/notice is created, though). -/
theorem C4_counterexample :
    (1, 100) ∈ mxStOne.queue ∧ (1, mxMember1) ∈ mxStOne.members ∧
    (composeTable mxScene [mxMember1, mxMember2] mxStOne).tables = mxStOne.tables ∧
    (composeTable mxScene [mxMember1, mxMember2] mxStOne).matchRowsM = mxStOne.matchRowsM ∧
    (composeTable mxScene [mxMember1, mxMember2] mxStOne).notifies = mxStOne.notifies ∧
    (composeTable mxScene [mxMember1, mxMember2] mxStOne).queue = [] ∧
    (composeTable mxScene [mxMember1, mxMember2] mxStOne).members = [] := by
  decide

theorem composeLoop_preserves (sceneId : Int) :
    ∀ (players : List QueueMember) (st : MatchState),
      (composeLoop sceneId players st).1.tables = st.tables ∧
      (composeLoop sceneId players st).1.matchRowsM = st.matchRowsM ∧
      (composeLoop sceneId players st).1.notifies = st.notifies := by
  intro players
  induction players with
  | nil => intro st; exact ⟨rfl, rfl, rfl⟩
  | cons p rest ih =>
    intro st
    unfold composeLoop
    by_cases hq : (st.queue.find? (fun q => q.1 == p.userId)).isSome
    · rw [if_pos hq]
      exact ih _
    · rw [if_neg hq]
      exact ⟨rfl, rfl, rfl⟩

/-- C4 (amended): a `ZRem` that reports 0 aborts the tick before any
table, match row or `match:pending` notice is created — but the removals
already performed are *not* rolled back. -/
theorem C4_abort_no_creation (scene : SceneRow) (players : List QueueMember) (st : MatchState)
    (h : (composeLoop scene.id players st).2 = false) :
    (composeTable scene players st).tables = st.tables ∧
    (composeTable scene players st).matchRowsM = st.matchRowsM ∧
    (composeTable scene players st).notifies = st.notifies := by
  unfold composeTable
  dsimp only
  rw [h]
  simp only [Bool.false_eq_true, if_false]
  exact composeLoop_preserves scene.id players st

/-- C4 witness: the aborting composition of the counterexample state. -/
theorem C4_abort_no_creation_witness :
    (composeLoop mxScene.id [mxMember1, mxMember2] mxStOne).2 = false ∧
    ((composeTable mxScene [mxMember1, mxMember2] mxStOne).tables = mxStOne.tables ∧
      (composeTable mxScene [mxMember1, mxMember2] mxStOne).matchRowsM =
        mxStOne.matchRowsM ∧
      (composeTable mxScene [mxMember1, mxMember2] mxStOne).notifies = mxStOne.notifies) :=
  ⟨by decide, C4_abort_no_creation mxScene [mxMember1, mxMember2] mxStOne (by decide)⟩

/-- C5, counterexample to the claim as stated: composing scenario S1's
table (two players, buy-in 500 each) produces seat objects with *no*
`chips` key, so the runtime parses `chips = 0`, not `500`. -/
theorem C5_counterexample :
    mxMember1.buyIn = 500 ∧ mxMember2.buyIn = 500 ∧
    (composeTable mxScene [mxMember1, mxMember2] mxStTwo).tables.length = 1 ∧
    ∀ t ∈ (composeTable mxScene [mxMember1, mxMember2] mxStTwo).tables,
      ∀ p ∈ t.playersJson,
        jsonLookup "chips" p.2 = none ∧ seatChips p.2 = 0 ∧ seatChips p.2 ≠ mxMember1.buyIn := by
  decide

theorem seatsOf_fields :
    ∀ (seat : Nat) (players : List QueueMember), ∀ p ∈ seatsOf seat players,
      (∃ uid, jsonLookup "userId" p.2 = some (.num uid)) ∧
      jsonLookup "status" p.2 = some (.str "waiting") ∧
      jsonLookup "chips" p.2 = none ∧
      seatChips p.2 = 0 := by
  intro seat players
  induction players generalizing seat with
  | nil => intro p hp; exact absurd hp (List.not_mem_nil p)
  | cons q rest ih =>
    intro p hp
    rcases List.mem_cons.mp hp with hp | hp
    · subst hp
      exact ⟨⟨q.userId, rfl⟩, rfl, rfl, rfl⟩
    · exact ih (seat + 1) p hp

/-- C5 (amended): the created table's `playersJson` seats carry `userId`,
`alias` and `status` only; the `chips` key is absent, and
`parsePlayersJSON` therefore reads `chips = 0` for every seat, whatever
the players' buy-ins were. -/
theorem C5_created_seats (scene : SceneRow) (players : List QueueMember) (st : MatchState)
    (h : (composeLoop scene.id players st).2 = true) :
    ∃ table, (composeTable scene players st).tables =
        (composeLoop scene.id players st).1.tables ++ [table] ∧
      table.playersJson = seatsOf 1 players ∧
      ∀ p ∈ table.playersJson,
        (∃ uid, jsonLookup "userId" p.2 = some (.num uid)) ∧
        jsonLookup "status" p.2 = some (.str "waiting") ∧
        jsonLookup "chips" p.2 = none ∧
        seatChips p.2 = 0 := by
  unfold composeTable
  dsimp only
  rw [h]
  simp only [if_true]
  refine ⟨_, rfl, rfl, ?_⟩
  exact seatsOf_fields 1 players

/-- C5 witness: scenario S1's composition. -/
theorem C5_created_seats_witness :
    (composeLoop mxScene.id [mxMember1, mxMember2] mxStTwo).2 = true ∧
    ∃ table, (composeTable mxScene [mxMember1, mxMember2] mxStTwo).tables =
        (composeLoop mxScene.id [mxMember1, mxMember2] mxStTwo).1.tables ++ [table] ∧
      table.playersJson = seatsOf 1 [mxMember1, mxMember2] ∧
      ∀ p ∈ table.playersJson,
        (∃ uid, jsonLookup "userId" p.2 = some (.num uid)) ∧
        jsonLookup "status" p.2 = some (.str "waiting") ∧
        jsonLookup "chips" p.2 = none ∧
        seatChips p.2 = 0 :=
  ⟨by decide, C5_created_seats mxScene [mxMember1, mxMember2] mxStTwo (by decide)⟩

/-! ### Mango settlement lemmas -/

theorem sum_map_add_int {α : Type} (f g : α → Int) :
    ∀ l : List α, (l.map (fun x => f x + g x)).sum = (l.map f).sum + (l.map g).sum := by
  intro l
  induction l with
  | nil => simp
  | cons x xs ih => simp [ih]; ring

theorem sum_if_eq_int (j : Nat) (v : Int) :
    ∀ l : List Nat, l.Nodup → j ∈ l → (l.map (fun i => if i = j then v else 0)).sum = v := by
  intro l
  induction l with
  | nil => intro _ h; exact absurd h (List.not_mem_nil j)
  | cons x xs ih =>
    intro hnd hm
    have hnd' := List.nodup_cons.mp hnd
    rcases List.mem_cons.mp hm with hm | hm
    · subst hm
      have : ∀ i ∈ xs, (if i = j then v else 0) = 0 := by
        intro i hi
        rw [if_neg]
        intro he
        exact hnd'.1 (he ▸ hi)
      simp only [List.map_cons, List.sum_cons, if_pos rfl]
      rw [List.map_congr_left this]
      simp
    · have hxj : ¬ x = j := by
        intro he
        exact hnd'.1 (he ▸ hm)
      simp only [List.map_cons, List.sum_cons, if_neg hxj]
      rw [ih hnd'.2 hm]
      ring

theorem sum_map_const_int {α : Type} (c : Int) :
    ∀ l : List α, (l.map (fun _ => c)).sum = c * (l.length : Int) := by
  intro l
  induction l with
  | nil => simp
  | cons x xs ih => simp [ih]; ring

theorem sum_if_ne_int (j : Nat) (c : Int) :
    ∀ l : List Nat, l.Nodup → j ∈ l →
      (l.map (fun i => if i = j then 0 else c)).sum = c * ((l.length : Int) - 1) := by
  intro l
  induction l with
  | nil => intro _ h; exact absurd h (List.not_mem_nil j)
  | cons x xs ih =>
    intro hnd hm
    have hnd' := List.nodup_cons.mp hnd
    rcases List.mem_cons.mp hm with hm | hm
    · subst hm
      have : ∀ i ∈ xs, (if i = j then (0 : Int) else c) = c := by
        intro i hi
        rw [if_neg]
        intro he
        exact hnd'.1 (he ▸ hi)
      simp only [List.map_cons, List.sum_cons, if_pos rfl]
      rw [List.map_congr_left this, sum_map_const_int c xs]
      simp
    · have hxj : ¬ x = j := by
        intro he
        exact hnd'.1 (he ▸ hm)
      simp only [List.map_cons, List.sum_cons, if_neg hxj]
      rw [ih hnd'.2 hm]
      simp
      ring

theorem enumFrom_map_sum (d : Nat → Int) :
    ∀ (l : List PlayerResult) (k : Nat),
      ((List.enumFrom k l).map (fun p => p.2.netPoints + d p.1)).sum =
        (l.map (·.netPoints)).sum + ((List.range' k l.length).map d).sum := by
  intro l
  induction l with
  | nil => intro k; simp
  | cons x xs ih =>
    intro k
    simp only [List.enumFrom_cons, List.map_cons, List.sum_cons, List.length_cons,
      List.range'_succ]
    rw [ih (k + 1)]
    ring

theorem get?_enumFrom_map (f : Nat × PlayerResult → PlayerResult) :
    ∀ (l : List PlayerResult) (k i : Nat),
      ((List.enumFrom k l).map f).get? i = (l.get? i).map (fun r => f (k + i, r)) := by
  intro l
  induction l with
  | nil => intro k i; simp
  | cons x xs ih =>
    intro k i
    cases i with
    | zero => simp [List.enumFrom_cons]
    | succ i =>
      simp only [List.enumFrom_cons, List.map_cons, List.get?_cons_succ]
      rw [ih (k + 1) i]
      have : k + 1 + i = k + (i + 1) := by omega
      rw [this]

theorem mangoWinIdx_lt (results : List PlayerResult) (h : 0 < results.length) :
    mangoWinIdx results < results.length := by
  unfold mangoWinIdx
  have : ∀ (l : List Nat) (acc : Nat), (∀ i ∈ l, i < results.length) →
      acc < results.length →
      l.foldl (fun w i =>
        if ((results.get? i).getD ⟨0, 0⟩).netPoints >
            ((results.get? w).getD ⟨0, 0⟩).netPoints then i else w) acc < results.length := by
    intro l
    induction l with
    | nil => intro acc _ hacc; exact hacc
    | cons x xs ih =>
      intro acc hl hacc
      simp only [List.foldl_cons]
      refine ih _ (fun i hi => hl i (List.mem_cons_of_mem _ hi)) ?_
      split
      · exact hl x (List.mem_cons_self _ _)
      · exact hacc
  refine this _ 0 ?_ h
  intro i hi
  exact List.mem_range.mp (List.mem_of_mem_drop hi)

theorem filter_ne_length (w : Nat) :
    ∀ l : List Nat, l.Nodup → w ∈ l →
      (l.filter (fun i => ¬ i = w)).length = l.length - 1 := by
  intro l
  induction l with
  | nil => intro _ h; exact absurd h (List.not_mem_nil w)
  | cons x xs ih =>
    intro hnd hm
    have hnd' := List.nodup_cons.mp hnd
    rcases List.mem_cons.mp hm with hm | hm
    · subst hm
      have hxs : xs.filter (fun i => ¬ i = w) = xs := by
        refine List.filter_eq_self.mpr ?_
        intro a ha
        simp only [decide_eq_true_eq]
        intro he
        exact hnd'.1 (he ▸ ha)
      rw [List.filter_cons, show (decide ¬ w = w) = false by simp]
      simp only [Bool.false_eq_true, if_false]
      rw [hxs]
      simp
    · have hxw : ¬ x = w := by
        intro he
        exact hnd'.1 (he ▸ hm)
      have hlen : 0 < xs.length := List.length_pos.mpr (List.ne_nil_of_mem hm)
      simp only [List.filter_cons, decide_eq_true_eq]
      rw [if_pos hxw]
      simp only [List.length_cons]
      rw [ih hnd'.2 hm]
      omega

theorem headD_mem {l : List Nat} (h : l ≠ []) (d : Nat) : l.headD d ∈ l := by
  cases l with
  | nil => exact absurd rfl h
  | cons x xs => simp

theorem mangoNewStreak_nonneg (c : MangoCtx) (showdown : Bool) (h : 0 ≤ c.mangoStreak) :
    0 ≤ mangoNewStreak c showdown := by
  unfold mangoNewStreak
  dsimp only
  split_ifs <;> omega

theorem playerResult_add_zero (r : PlayerResult) :
    ({ r with netPoints := r.netPoints + 0 } : PlayerResult) = r := by
  cases r
  simp

/-- C6, counterexample to the claim as stated: with `basePi = 10` and a
pre-hand streak of 2, (i) a hand settling normally *with showdown* pays
no mango bonus at all (the claim demands `2 × 2 × 10 = 40`), and (ii) a
no-showdown hand with round-1 action pays `(2+1) × 2 × 10 = 60` — the
*post*-transition streak, not the pre-transition value 40. -/
theorem C6_counterexample :
    (applyMangoSettlement ⟨10, 2, 2, true, false, false, false, false⟩ true
        [⟨1, 50⟩, ⟨2, -50⟩]).1 = [⟨1, 50⟩, ⟨2, -50⟩] ∧
    (applyMangoSettlement ⟨10, 2, 2, true, false, false, false, false⟩ true
        [⟨1, 50⟩, ⟨2, -50⟩]).2 = 0 ∧
    (applyMangoSettlement ⟨10, 2, 2, true, false, false, false, false⟩ false
        [⟨1, 50⟩, ⟨2, -50⟩]).1 = [⟨1, 110⟩, ⟨2, -110⟩] ∧
    (applyMangoSettlement ⟨10, 2, 2, true, false, false, false, false⟩ false
        [⟨1, 50⟩, ⟨2, -50⟩]).2 = 3 ∧
    2 * 2 * 10 ≠ 60 := by
  decide

/-- C6 (amended): `applyMangoSettlementLocked` first computes the *new*
streak (0 on showdown or round ≥ 3 or round-2 action; incremented on
round-1-only action) and pays the winner `newStreak × 2 × basePi`,
funded by the losers with the division remainder charged to the first
loser — preserving the zero-sum ledger. In particular a showdown hand
pays no mango bonus. -/
theorem C6_mango_payout (c : MangoCtx) (showdown : Bool) (results : List PlayerResult)
    (hbp : 0 < c.basePi) (hst : 0 ≤ c.mangoStreak) (hlen : 2 ≤ results.length) :
    (applyMangoSettlement c showdown results).2 = mangoNewStreak c showdown ∧
    ((applyMangoSettlement c showdown results).1.map (·.netPoints)).sum =
      (results.map (·.netPoints)).sum ∧
    (applyMangoSettlement c showdown results).1.get? (mangoWinIdx results) =
      (results.get? (mangoWinIdx results)).map
        (fun r => { r with netPoints :=
          r.netPoints + mangoNewStreak c showdown * 2 * c.basePi }) ∧
    (showdown = true → (applyMangoSettlement c showdown results).1 = results) := by
  unfold applyMangoSettlement
  rw [if_neg (by omega : ¬ c.basePi ≤ 0)]
  dsimp only
  set ns := mangoNewStreak c showdown with hns
  set mv := ns * 2 * c.basePi with hmv
  have hns0 : 0 ≤ ns := by
    rw [hns]
    exact mangoNewStreak_nonneg c showdown hst
  have hmvnn : 0 ≤ mv := by
    rw [hmv]
    exact mul_nonneg (mul_nonneg hns0 (by norm_num)) (le_of_lt hbp)
  have hne : results ≠ [] := by
    intro h
    rw [h] at hlen
    simp at hlen
  have hsd0 : showdown = true → ns = 0 := by
    intro hsd
    rw [hns]
    unfold mangoNewStreak
    dsimp only
    rw [if_pos (Or.inl hsd)]
  by_cases hpos : mv > 0 ∧ results ≠ []
  · rw [if_pos hpos]
    have hn1 : 0 < results.length := by omega
    have hwlt := mangoWinIdx_lt results hn1
    set w := mangoWinIdx results with hw
    set losers := (List.range results.length).filter (fun i => ¬ i = w) with hlos
    have hloslen : losers.length = results.length - 1 := by
      rw [hlos, filter_ne_length w (List.range results.length) (List.nodup_range _)
        (List.mem_range.mpr hwlt), List.length_range]
    have hlpos : losers.length > 0 := by omega
    rw [if_pos hlpos]
    dsimp only
    set share := mv / (losers.length : Int) with hshare
    set rem := mv - share * (losers.length : Int) with hrem
    set fl := losers.headD 0 with hfl
    have hflmem : fl ∈ losers := by
      rw [hfl]
      refine headD_mem ?_ 0
      intro h
      rw [h] at hlpos
      simp at hlpos
    have hflfilter := List.mem_filter.mp (hlos ▸ hflmem)
    have hflne : ¬ fl = w := by simpa using hflfilter.2
    have hrem0 : 0 ≤ rem := by
      have hL : (losers.length : Int) ≠ 0 := by
        simp only [ne_eq, Nat.cast_eq_zero]
        omega
      rw [hrem, hshare, mul_comm, ← Int.emod_def]
      exact Int.emod_nonneg mv hL
    refine ⟨rfl, ?_, ?_, ?_⟩
    · -- zero-sum
      rw [List.map_map]
      have hpoint : ∀ p ∈ results.enum,
          ((fun x : PlayerResult => x.netPoints) ∘ (fun p : Nat × PlayerResult =>
            if p.1 = w then { p.2 with netPoints := p.2.netPoints + mv }
            else { p.2 with netPoints := p.2.netPoints - share -
              (if p.1 = fl ∧ rem > 0 then rem else 0) })) p =
          p.2.netPoints + (((if p.1 = w then mv else 0) + (if p.1 = fl then -rem else 0)) +
            (if p.1 = w then 0 else -share)) := by
        intro p _
        dsimp only [Function.comp]
        by_cases h1 : p.1 = w
        · rw [if_pos h1, if_pos h1, if_pos h1, if_neg (fun he => hflne ((h1 ▸ he).symm))]
          dsimp only
          omega
        · rw [if_neg h1, if_neg h1, if_neg h1]
          dsimp only
          by_cases h2 : p.1 = fl
          · rw [if_pos h2]
            by_cases h3 : rem > 0
            · rw [if_pos ⟨h2, h3⟩]
              omega
            · rw [if_neg (fun hx => h3 hx.2)]
              omega
          · rw [if_neg h2, if_neg (fun hx => h2 hx.1)]
            omega
      rw [List.map_congr_left hpoint,
        show results.enum = List.enumFrom 0 results from rfl,
        enumFrom_map_sum (fun i => ((if i = w then mv else 0) + (if i = fl then -rem else 0)) +
          (if i = w then 0 else -share)) results 0,
        show List.range' 0 results.length = List.range results.length from
          (List.range_eq_range' _).symm]
      have hsplit := sum_map_add_int
        (fun i => (if i = w then mv else 0) + (if i = fl then -rem else 0))
        (fun i => if i = w then 0 else -share) (List.range results.length)
      rw [hsplit,
        sum_map_add_int (fun i => if i = w then mv else 0)
          (fun i => if i = fl then -rem else 0) (List.range results.length),
        sum_if_eq_int w mv (List.range results.length) (List.nodup_range _)
          (List.mem_range.mpr hwlt),
        sum_if_eq_int fl (-rem) (List.range results.length) (List.nodup_range _) hflfilter.1,
        sum_if_ne_int w (-share) (List.range results.length) (List.nodup_range _)
          (List.mem_range.mpr hwlt),
        List.length_range]
      have hcast : (losers.length : Int) = (results.length : Int) - 1 := by omega
      rw [hrem, hcast]
      ring
    · -- winner entry
      rw [show results.enum = List.enumFrom 0 results from rfl,
        get?_enumFrom_map _ results 0 w]
      cases hg : results.get? w with
      | none => simp
      | some r =>
        simp only [Option.map_some', Option.some.injEq]
        rw [Nat.zero_add, if_pos rfl]
    · intro hsd
      exfalso
      have : mv = 0 := by
        rw [hmv, hsd0 hsd]
        ring
      omega
  · rw [if_neg hpos]
    have hmv0 : mv = 0 := by
      rcases not_and_or.mp hpos with h | h
      · omega
      · exact absurd hne h
    refine ⟨rfl, rfl, ?_, fun _ => rfl⟩
    rw [hmv0]
    cases hg : results.get? (mangoWinIdx results) with
    | none => simp
    | some r => simp [playerResult_add_zero]

/-- C6 witness: basePi 10, streak 1, round-1 action only, no showdown:
the winner collects `2 × 2 × 10 = 40` from the single loser. -/
theorem C6_mango_payout_witness :
    (0 : Int) < 10 ∧ (0 : Int) ≤ 1 ∧
      2 ≤ ([⟨1, 50⟩, ⟨2, -50⟩] : List PlayerResult).length ∧
    ((applyMangoSettlement ⟨10, 2, 1, true, false, false, false, false⟩ false
        [⟨1, 50⟩, ⟨2, -50⟩]).2 =
      mangoNewStreak ⟨10, 2, 1, true, false, false, false, false⟩ false ∧
    (((applyMangoSettlement ⟨10, 2, 1, true, false, false, false, false⟩ false
        [⟨1, 50⟩, ⟨2, -50⟩]).1.map (·.netPoints)).sum =
      (([⟨1, 50⟩, ⟨2, -50⟩] : List PlayerResult).map (·.netPoints)).sum) ∧
    ((applyMangoSettlement ⟨10, 2, 1, true, false, false, false, false⟩ false
        [⟨1, 50⟩, ⟨2, -50⟩]).1.get? (mangoWinIdx [⟨1, 50⟩, ⟨2, -50⟩]) =
      (([⟨1, 50⟩, ⟨2, -50⟩] : List PlayerResult).get?
          (mangoWinIdx [⟨1, 50⟩, ⟨2, -50⟩])).map
        (fun r => { r with netPoints :=
          r.netPoints + mangoNewStreak ⟨10, 2, 1, true, false, false, false, false⟩ false *
            2 * 10 })) ∧
    (false = true → (applyMangoSettlement ⟨10, 2, 1, true, false, false, false, false⟩ false
        [⟨1, 50⟩, ⟨2, -50⟩]).1 = [⟨1, 50⟩, ⟨2, -50⟩])) :=
  ⟨by decide, by decide, by decide,
    C6_mango_payout ⟨10, 2, 1, true, false, false, false, false⟩ false [⟨1, 50⟩, ⟨2, -50⟩]
      (by decide) (by decide) (by decide)⟩

/-- C9, counterexample to the claim as stated: a round-2 chexuan table
with two active, matched-bet seats moves to `settling` the moment the
round counter *reaches* 3 — round 3 is never a playing round, so it is
not "reachable as a playing round", and settling does not wait for the
counter to advance past it. -/
theorem C9_counterexample :
    rtSt9.phase = "playing" ∧ rtSt9.round = 2 ∧
    shouldAdvanceRound rtSt9 = true ∧
    (advanceRound rtSt9).1.round = 3 ∧
    (advanceRound rtSt9).1.phase = "settling" ∧
    (advanceRound rtSt9).2 = some .normal := by
  decide

/-- C9 (amended): from a playing state, the post-action progression
settles exactly when (a) a single active seat remains, or a round
advance (b) brings the counter *to* 3 or beyond, or (d) finds no first
actor; the chexuan mango early termination is the round-3 arrival with
round-1 action but a quiet round 2. A playing state never survives with
`round ≥ 3`, and in any (unreachable) playing state at `round ≥ 3` the
runtime would offer at most `fold`. -/
theorem C9_settling_transition (st : RtState) (hpl : st.phase = "playing") :
    ((postActionProgress st).1.phase = "settling" ↔
      (activeSeats st.seats).length = 1 ∨
      (shouldAdvanceRound st = true ∧
        (st.round + 1 ≥ 3 ∨ firstActorSeat st.bankerSeat st.seats = 0))) ∧
    ((postActionProgress st).1.phase = "playing" → (postActionProgress st).1.round < 3) ∧
    ((postActionProgress st).2 = some .mangoLiuJu ↔
      ¬ (activeSeats st.seats).length = 1 ∧ shouldAdvanceRound st = true ∧
      st.chexuanMode = true ∧ st.round + 1 = 3 ∧ st.round1Bet = true ∧
      ¬ st.round2Bet = true) ∧
    (∀ uid, st.round ≥ 3 → allowedActions st uid = [] ∨ allowedActions st uid = ["fold"]) := by
  have hact : ∀ uid, st.round ≥ 3 →
      allowedActions st uid = [] ∨ allowedActions st uid = ["fold"] := by
    intro uid hr3
    unfold allowedActions
    cases hf : (st.seats.find? (fun s => s.userId == uid)).map (·.seatIndex) with
    | none => exact Or.inl rfl
    | some seatIdx =>
      dsimp only
      rw [hpl]
      rw [if_neg (by decide), if_pos (by decide)]
      by_cases ht : ¬ st.turnSeat == seatIdx
      · rw [if_pos ht]
        exact Or.inl rfl
      · rw [if_neg ht]
        cases hfs : findSeat st.seats seatIdx with
        | none => exact Or.inl rfl
        | some seat =>
          dsimp only
          by_cases hfold : seat.status == "folded" ∨ seat.status == "eliminated"
          · rw [if_pos hfold]
            exact Or.inl rfl
          · rw [if_neg hfold, if_pos hr3]
            exact Or.inr rfl
  unfold postActionProgress
  by_cases hss : shouldSettle st = true
  · rw [if_pos hss]
    have hlen1 : (activeSeats st.seats).length = 1 := by
      unfold shouldSettle at hss
      exact beq_iff_eq.mp hss
    refine ⟨⟨fun _ => Or.inl hlen1, fun _ => rfl⟩, ?_, ⟨?_, ?_⟩, hact⟩
    · intro h
      have h2 : ("settling" : String) = "playing" := h
      exact absurd h2 (by decide)
    · intro h
      have h2 : some SettleKind.normal = some SettleKind.mangoLiuJu := h
      exact absurd h2 (by decide)
    · rintro ⟨h1, _⟩
      exact absurd hlen1 h1
  · rw [if_neg hss]
    have hlen1 : ¬ (activeSeats st.seats).length = 1 := by
      intro h
      refine hss ?_
      unfold shouldSettle
      rw [h]
      rfl
    by_cases hsa : shouldAdvanceRound st = true
    · rw [if_pos hsa]
      unfold advanceRound
      dsimp only
      rw [hpl]
      rw [if_neg (by decide)]
      by_cases hcm : st.chexuanMode ∧ st.round + 1 = 3 ∧ st.round1Bet ∧ ¬ st.round2Bet
      · rw [if_pos hcm]
        refine ⟨⟨fun _ => Or.inr ⟨hsa, Or.inl (by omega)⟩, fun _ => rfl⟩, ?_, ?_, hact⟩
        · intro h
          have h2 : ("settling" : String) = "playing" := h
          exact absurd h2 (by decide)
        · obtain ⟨hc1, hc2, hc3, hc4⟩ := hcm
          exact ⟨fun _ => ⟨hlen1, hsa, hc1, hc2, hc3, hc4⟩, fun _ => rfl⟩
      · rw [if_neg hcm]
        by_cases hr3 : st.round + 1 ≥ 3
        · rw [if_pos hr3]
          refine ⟨⟨fun _ => Or.inr ⟨hsa, Or.inl hr3⟩, fun _ => rfl⟩, ?_, ⟨?_, ?_⟩, hact⟩
          · intro h
            have h2 : ("settling" : String) = "playing" := h
            exact absurd h2 (by decide)
          · intro h
            have h2 : some SettleKind.normal = some SettleKind.mangoLiuJu := h
            exact absurd h2 (by decide)
          · rintro ⟨_, _, hc1, hc2, hc3, hc4⟩
            exact absurd ⟨hc1, hc2, hc3, hc4⟩ hcm
        · rw [if_neg hr3]
          by_cases hts : firstActorSeat st.bankerSeat st.seats = 0
          · rw [if_pos hts]
            refine ⟨⟨fun _ => Or.inr ⟨hsa, Or.inr hts⟩, fun _ => rfl⟩, ?_, ⟨?_, ?_⟩, hact⟩
            · intro h
              have h2 : ("settling" : String) = "playing" := h
              exact absurd h2 (by decide)
            · intro h
              have h2 : some SettleKind.normal = some SettleKind.mangoLiuJu := h
              exact absurd h2 (by decide)
            · rintro ⟨_, _, hc1, hc2, hc3, hc4⟩
              exact absurd ⟨hc1, hc2, hc3, hc4⟩ hcm
          · rw [if_neg hts]
            refine ⟨⟨?_, ?_⟩, ?_, ⟨?_, ?_⟩, hact⟩
            · intro h
              split at h
              · have h2 : ("playing" : String) = "settling" := h
                exact absurd h2 (by decide)
              · have h2 : ("playing" : String) = "settling" := h
                exact absurd h2 (by decide)
            · rintro (h | ⟨_, (h | h)⟩)
              · exact absurd h hlen1
              · exact absurd h hr3
              · exact absurd h hts
            · intro _
              split
              · show st.round + 1 < 3
                omega
              · show st.round + 1 < 3
                omega
            · intro h
              split at h
              · have h2 : (none : Option SettleKind) = some SettleKind.mangoLiuJu := h
                exact absurd h2 (by decide)
              · have h2 : (none : Option SettleKind) = some SettleKind.mangoLiuJu := h
                exact absurd h2 (by decide)
            · rintro ⟨_, _, hc1, hc2, hc3, hc4⟩
              exact absurd ⟨hc1, hc2, hc3, hc4⟩ hcm
    · rw [if_neg hsa]
      have hr3 : ¬ st.round ≥ 3 := by
        intro hr
        refine hsa ?_
        unfold shouldAdvanceRound
        rw [hpl]
        rw [if_neg (by decide), if_pos hr]
      by_cases hnx : nextActiveAfter st.seats st.turnSeat = 0
      · rw [if_pos hnx]
        refine ⟨⟨?_, ?_⟩, ?_, ⟨?_, ?_⟩, hact⟩
        · intro h
          have h2 : st.phase = "settling" := h
          rw [hpl] at h2
          exact absurd h2 (by decide)
        · rintro (h | ⟨h, _⟩)
          · exact absurd h hlen1
          · exact absurd h hsa
        · intro _
          show st.round < 3
          omega
        · intro h
          have h2 : (none : Option SettleKind) = some SettleKind.mangoLiuJu := h
          exact absurd h2 (by decide)
        · rintro ⟨_, h, _⟩
          exact absurd h hsa
      · rw [if_neg hnx]
        refine ⟨⟨?_, ?_⟩, ?_, ⟨?_, ?_⟩, hact⟩
        · intro h
          have h2 : st.phase = "settling" := h
          rw [hpl] at h2
          exact absurd h2 (by decide)
        · rintro (h | ⟨h, _⟩)
          · exact absurd h hlen1
          · exact absurd h hsa
        · intro _
          show st.round < 3
          omega
        · intro h
          have h2 : (none : Option SettleKind) = some SettleKind.mangoLiuJu := h
          exact absurd h2 (by decide)
        · rintro ⟨_, h, _⟩
          exact absurd h hsa

/-- C9 witness: the round-2 table of the counterexample, where the
advance settles on reaching round 3. -/
theorem C9_settling_transition_witness :
    rtSt9.phase = "playing" ∧
    (((postActionProgress rtSt9).1.phase = "settling" ↔
      (activeSeats rtSt9.seats).length = 1 ∨
      (shouldAdvanceRound rtSt9 = true ∧
        (rtSt9.round + 1 ≥ 3 ∨ firstActorSeat rtSt9.bankerSeat rtSt9.seats = 0))) ∧
    ((postActionProgress rtSt9).1.phase = "playing" →
      (postActionProgress rtSt9).1.round < 3) ∧
    ((postActionProgress rtSt9).2 = some .mangoLiuJu ↔
      ¬ (activeSeats rtSt9.seats).length = 1 ∧ shouldAdvanceRound rtSt9 = true ∧
      rtSt9.chexuanMode = true ∧ rtSt9.round + 1 = 3 ∧ rtSt9.round1Bet = true ∧
      ¬ rtSt9.round2Bet = true) ∧
    (∀ uid, rtSt9.round ≥ 3 →
      allowedActions rtSt9 uid = [] ∨ allowedActions rtSt9 uid = ["fold"])) :=
  ⟨by decide, C9_settling_transition rtSt9 (by decide)⟩

end DxService
